import Mathlib

/-!
# CayenneLPP codec (`decoder.go`, `encoder.go`)

A shallow embedding of the decoder and the encoder of the `cayenne` package, and the
properties of its specification settled against it.

Modelling decisions:
* a byte is a `Fin 256`; a reader over a byte slice (`bytes.Buffer`) is the list of the bytes
  not yet read, so a read fails only for lack of bytes;
* a Go `float32` is modelled exactly: a finite IEEE 754 binary32 number is an integer number of
  units of `2^-149`, and the arithmetic rounds to nearest, ties to even (`F32.round`). The
  infinities, the NaNs and the sign of zero are not modelled; no operation of the decoder
  produces them, and the encoder is studied on finite values;
* a conversion of a `float32` to an unsigned integer type keeps the low bits of the conversion
  to a signed integer (`floatToUint16`), which is what the compiler does; the integer part
  wraps, as the specification describes, as long as it fits that signed integer;
* a Go map is an association list with at most one pair per key (`Msg`);
* the type-code constants are declared in a file that is not part of the sources at hand, so
  they are a parameter (`TypeCodes`); `lppCodes` holds the values of the CayenneLPP format.
-/

namespace Cayenne

/-! ## Bytes and machine integers -/

/-- A byte (`uint8`). -/
abbrev Byte := Fin 256

/-- The big-endian `uint16` made of two bytes (`binary.BigEndian.Uint16`). -/
def beUint16 (hi lo : Byte) : Nat := hi.val * 256 + lo.val

/-- The Go conversion `int16(u)` of a 16-bit unsigned value: two's complement. -/
def toInt16 (u : Nat) : Int :=
  if u % 65536 < 32768 then (u % 65536 : Nat) else (u % 65536 : Nat) - 65536

/-- The big-endian `uint32` made of four bytes (`binary.BigEndian.Uint32`). -/
def beUint32 (b0 b1 b2 b3 : Byte) : Nat :=
  b0.val * 16777216 + b1.val * 65536 + b2.val * 256 + b3.val

/-- The Go conversion `int32(u)` of a 32-bit unsigned value: two's complement. -/
def toInt32 (u : Nat) : Int :=
  if u % 4294967296 < 2147483648 then (u % 4294967296 : Nat)
  else (u % 4294967296 : Nat) - 4294967296

/-- The byte made of the low eight bits of a number (the Go conversion `uint8(n)`). -/
def toByte (n : Nat) : Byte := ⟨n % 256, Nat.mod_lt n (by decide)⟩

/-- The Go shift `x >> 8` of a signed integer: arithmetic, it rounds towards minus infinity. -/
def sar8 (x : Int) : Int := x / 256

/-! ## `float32` -/

/-- A finite `float32`: the number `units * 2^-149`. Every finite binary32 number, subnormal
ones included, is such a multiple, since `2^-149` is the smallest positive one. -/
structure F32 where
  units : Int
deriving DecidableEq, Repr

namespace F32

/-- Quotient of `n` by `d` rounded to the nearest integer, ties to the even one. -/
def rne (n d : Nat) : Nat :=
  if 2 * (n % d) < d then n / d
  else if d < 2 * (n % d) then n / d + 1
  else if (n / d) % 2 = 0 then n / d else n / d + 1

/-- Number of halvings that bring `m` below `2^24`, at most `fuel` of them. -/
def dropBitsAux : Nat → Nat → Nat
  | 0, _ => 0
  | fuel + 1, m => if m < 16777216 then 0 else dropBitsAux fuel (m / 2) + 1

/-- Number of low bits that a binary32 significand of 24 bits cannot hold when the magnitude,
in units, is `m`: the bit length of `m` less 24, or zero when `m` is below `2^24`. -/
def dropBits (m : Nat) : Nat := dropBitsAux m m

/-- Magnitude, in units, of the binary32 number nearest to `n / d` units (ties to even). -/
def roundMag (n d : Nat) : Nat :=
  rne n (d * 2 ^ dropBits (n / d)) * 2 ^ dropBits (n / d)

/-- The binary32 number nearest to `a / d` units, ties to even: IEEE 754 rounding. Overflow to
an infinity (a magnitude of `2^277` units or more) is outside this model. -/
def round (a : Int) (d : Nat) : F32 := ⟨a.sign * (roundMag a.natAbs d : Nat)⟩

/-- Number of units in one: `2^149`. -/
def one : Nat := 2 ^ 149

/-- The binary32 number nearest to the rational `a / d`. -/
def ofRatio (a : Int) (d : Nat) : F32 := round (a * one) d

/-- The Go conversion `float32(n)` of an integer. -/
def ofInt (n : Int) : F32 := round (n * one) 1

/-- The Go product `x * y` of two `float32`. -/
def mul (x y : F32) : F32 := round (x.units * y.units) one

/-- The Go quotient `x / y` of two `float32`, `y` not zero. -/
def div (x y : F32) : F32 := round (x.units * y.units.sign * one) y.units.natAbs

/-- The integer part of a `float32`: what the conversion to an integer type keeps
(truncation towards zero). -/
def trunc (x : F32) : Int := Int.tdiv x.units one

/-- The rational number a `float32` stands for. -/
def toRat (x : F32) : ℚ := (x.units : ℚ) / 2 ^ 149

/-- A number of units that is a finite binary32 number: rounding leaves it as it is, and it
is below the overflow threshold. -/
def Valid (x : F32) : Prop := round x.units 1 = x ∧ x.units.natAbs < one * 2 ^ 128

instance (x : F32) : Decidable (Valid x) :=
  inferInstanceAs (Decidable (round x.units 1 = x ∧ x.units.natAbs < one * 2 ^ 128))

/-- A finite `float32` between two rational bounds. -/
def InRange (lo hi : ℚ) (v : F32) : Prop := v.Valid ∧ lo ≤ v.toRat ∧ v.toRat ≤ hi

/-- What decoding returns, `v'`, for a value `v` that was encoded with the scale `s`: `v'` is the
`float32` nearest to `k / s` for a whole number `k` less than `1 / s` away from `v`; `v'` is at
most `(1 + 2^-9) / s` away from `v`; and `v'` is `v` when `v` is a whole multiple of `1 / s`. -/
def RoundTrip (s : Nat) (v v' : F32) : Prop :=
  (∃ k : Int, v' = ofRatio k s ∧ |(k : ℚ) / s - v.toRat| < 1 / s) ∧
    |v'.toRat - v.toRat| < (1 + 1 / 512) / s ∧
    ((∃ k : Int, v.toRat * s = k) → v' = v)

end F32

/-! ## Values, messages, errors -/

/-- The dynamic values the decoder stores in a message (`interface{}`): a `uint8`, a `uint16`,
a `float32` or a slice of `float32`. -/
inductive Value where
  | uint8 (v : Nat)
  | uint16 (v : Nat)
  | float32 (v : F32)
  | floats (v : List F32)
deriving DecidableEq, Repr

/-- A Go map from `κ` to values, as the list of its pairs, one pair per key at most. -/
abbrev Msg (κ : Type) := List (κ × Value)

/-- The value `m[k]` of a key, if it is present. -/
def Msg.get {κ : Type} [DecidableEq κ] : Msg κ → κ → Option Value
  | [], _ => none
  | (k', v) :: m, k => if k' = k then some v else Msg.get m k

/-- The assignment `m[k] = v`: it replaces the value of a key that is present and adds the key
otherwise. -/
def Msg.set {κ : Type} [DecidableEq κ] : Msg κ → κ → Value → Msg κ
  | [], k, v => [(k, v)]
  | (k', v') :: m, k, v => if k' = k then (k, v) :: m else (k', v') :: Msg.set m k v

/-- `UplinkMessage`: values by key. -/
abbrev UplinkMessage := Msg String

/-- `DownlinkMessage`: values by channel. -/
abbrev DownlinkMessage := Msg Byte

/-- The errors the decoder returns: `io.EOF`, `io.ErrUnexpectedEOF` and the package's
`ErrInvalidChannel` ("cayennelpp: unknown type"). -/
inductive Err where
  | EOF
  | ErrUnexpectedEOF
  | ErrInvalidChannel
deriving DecidableEq, Repr

/-- Equality of results is decidable. -/
instance instDecidableEqExcept {ε α : Type} [DecidableEq ε] [DecidableEq α] :
    DecidableEq (Except ε α)
  | .ok a, .ok b =>
    if h : a = b then isTrue (by rw [h]) else isFalse (fun h' => h (by cases h'; rfl))
  | .error a, .error b =>
    if h : a = b then isTrue (by rw [h]) else isFalse (fun h' => h (by cases h'; rfl))
  | .ok _, .error _ => isFalse (fun h => by cases h)
  | .error _, .ok _ => isFalse (fun h => by cases h)

/-! ## Reading -/

/-- `io.ReadFull(r, buf)` with `len(buf) = n` on a reader over the bytes `r`: the `n` bytes read
and the reader after them; `io.EOF` when no byte is left, `io.ErrUnexpectedEOF` when some bytes
are left but fewer than `n`. -/
def ReadFull (r : List Byte) (n : Nat) : Except Err (List Byte × List Byte) :=
  if n = 0 then .ok ([], r)
  else if r.length = 0 then .error .EOF
  else if r.length < n then .error .ErrUnexpectedEOF
  else .ok (r.take n, r.drop n)

/-- `binary.Read(r, binary.BigEndian, &val)` for `val uint8`: one `io.ReadFull` of a byte, whose
error is returned as it is. -/
def readUint8 (r : List Byte) : Except Err (Nat × List Byte) :=
  match ReadFull r 1 with
  | .error e => .error e
  | .ok (bs, r') => .ok ((bs.getD 0 0).val, r')

/-- `binary.Read(r, binary.BigEndian, &val)` for `val uint16`: one `io.ReadFull` of two bytes. -/
def readUint16 (r : List Byte) : Except Err (Nat × List Byte) :=
  match ReadFull r 2 with
  | .error e => .error e
  | .ok (bs, r') => .ok (beUint16 (bs.getD 0 0) (bs.getD 1 0), r')

/-- `binary.Read(r, binary.BigEndian, &val)` for `val int16`: one `io.ReadFull` of two bytes. -/
def readInt16 (r : List Byte) : Except Err (Int × List Byte) :=
  match ReadFull r 2 with
  | .error e => .error e
  | .ok (bs, r') => .ok (toInt16 (beUint16 (bs.getD 0 0) (bs.getD 1 0)), r')

/-! ## The decoder (`decoder.go`) -/

/-- The twelve type-code constants, which the switch of `DecodeUplink` and the encoder name.
Their declaration is not among the sources at hand, so they are a parameter. -/
structure TypeCodes where
  DigitalInput : Byte
  DigitalOutput : Byte
  AnalogInput : Byte
  AnalogOutput : Byte
  Luminosity : Byte
  Presence : Byte
  Temperature : Byte
  RelativeHumidity : Byte
  Accelerometer : Byte
  BarometricPressure : Byte
  Gyrometer : Byte
  GPS : Byte
deriving DecidableEq, Repr

/-- `Decoder.decodeDigitalInput`: a `uint8`, stored as it is. -/
def decodeDigitalInput (r : List Byte) (channel : Byte) (target : UplinkMessage) :
    Except Err (List Byte × UplinkMessage) :=
  match readUint8 r with
  | .error e => .error e
  | .ok (val, r1) =>
    .ok (r1, target.set ("digital_input_" ++ Nat.repr channel.val) (.uint8 val))

/-- `Decoder.decodeDigitalOutput`: a `uint8`, stored as it is. -/
def decodeDigitalOutput (r : List Byte) (channel : Byte) (target : UplinkMessage) :
    Except Err (List Byte × UplinkMessage) :=
  match readUint8 r with
  | .error e => .error e
  | .ok (val, r1) =>
    .ok (r1, target.set ("digital_output_" ++ Nat.repr channel.val) (.uint8 val))

/-- `Decoder.decodeAnalogInput`: an `int16`, stored as `float32(val) / 100`. -/
def decodeAnalogInput (r : List Byte) (channel : Byte) (target : UplinkMessage) :
    Except Err (List Byte × UplinkMessage) :=
  match readInt16 r with
  | .error e => .error e
  | .ok (val, r1) =>
    .ok (r1, target.set ("analog_input_" ++ Nat.repr channel.val)
      (.float32 (F32.div (F32.ofInt val) (F32.ofInt 100))))

/-- `Decoder.decodeAnalogOutput`: an `int16`, stored as `float32(val) / 100`. -/
def decodeAnalogOutput (r : List Byte) (channel : Byte) (target : UplinkMessage) :
    Except Err (List Byte × UplinkMessage) :=
  match readInt16 r with
  | .error e => .error e
  | .ok (val, r1) =>
    .ok (r1, target.set ("analog_output_" ++ Nat.repr channel.val)
      (.float32 (F32.div (F32.ofInt val) (F32.ofInt 100))))

/-- `Decoder.decodeLuminosity`: a `uint16`, stored as it is. -/
def decodeLuminosity (r : List Byte) (channel : Byte) (target : UplinkMessage) :
    Except Err (List Byte × UplinkMessage) :=
  match readUint16 r with
  | .error e => .error e
  | .ok (val, r1) => .ok (r1, target.set ("luminosity_" ++ Nat.repr channel.val) (.uint16 val))

/-- `Decoder.decodePresence`: a `uint8`, stored as it is. -/
def decodePresence (r : List Byte) (channel : Byte) (target : UplinkMessage) :
    Except Err (List Byte × UplinkMessage) :=
  match readUint8 r with
  | .error e => .error e
  | .ok (val, r1) => .ok (r1, target.set ("presence_" ++ Nat.repr channel.val) (.uint8 val))

/-- `Decoder.decodeTemperature`: an `int16`, stored as `float32(val) / 10`. -/
def decodeTemperature (r : List Byte) (channel : Byte) (target : UplinkMessage) :
    Except Err (List Byte × UplinkMessage) :=
  match readInt16 r with
  | .error e => .error e
  | .ok (val, r1) =>
    .ok (r1, target.set ("temperature_" ++ Nat.repr channel.val)
      (.float32 (F32.div (F32.ofInt val) (F32.ofInt 10))))

/-- `Decoder.decodeRelativeHumidity`: a `uint8`, stored as `float32(val) / 2`. -/
def decodeRelativeHumidity (r : List Byte) (channel : Byte) (target : UplinkMessage) :
    Except Err (List Byte × UplinkMessage) :=
  match readUint8 r with
  | .error e => .error e
  | .ok (val, r1) =>
    .ok (r1, target.set ("relative_humidity_" ++ Nat.repr channel.val)
      (.float32 (F32.div (F32.ofInt val) (F32.ofInt 2))))

/-- `Decoder.decodeAccelerometer`: three `int16` read one after the other, stored as the slice
of the three `float32(val) / 1000`. -/
def decodeAccelerometer (r : List Byte) (channel : Byte) (target : UplinkMessage) :
    Except Err (List Byte × UplinkMessage) :=
  match readInt16 r with
  | .error e => .error e
  | .ok (valX, r1) =>
    match readInt16 r1 with
    | .error e => .error e
    | .ok (valY, r2) =>
      match readInt16 r2 with
      | .error e => .error e
      | .ok (valZ, r3) =>
        .ok (r3, target.set ("accelerometer_" ++ Nat.repr channel.val)
          (.floats [F32.div (F32.ofInt valX) (F32.ofInt 1000),
            F32.div (F32.ofInt valY) (F32.ofInt 1000),
            F32.div (F32.ofInt valZ) (F32.ofInt 1000)]))

/-- `Decoder.decodeBarometricPressure`: an `int16`, stored as `float32(val) / 10`. -/
def decodeBarometricPressure (r : List Byte) (channel : Byte) (target : UplinkMessage) :
    Except Err (List Byte × UplinkMessage) :=
  match readInt16 r with
  | .error e => .error e
  | .ok (val, r1) =>
    .ok (r1, target.set ("barometric_pressure_" ++ Nat.repr channel.val)
      (.float32 (F32.div (F32.ofInt val) (F32.ofInt 10))))

/-- `Decoder.decodeGyrometer`: three `int16` read one after the other, stored as the slice of
the three `float32(val) / 100`. -/
def decodeGyrometer (r : List Byte) (channel : Byte) (target : UplinkMessage) :
    Except Err (List Byte × UplinkMessage) :=
  match readInt16 r with
  | .error e => .error e
  | .ok (valX, r1) =>
    match readInt16 r1 with
    | .error e => .error e
    | .ok (valY, r2) =>
      match readInt16 r2 with
      | .error e => .error e
      | .ok (valZ, r3) =>
        .ok (r3, target.set ("gyrometer_" ++ Nat.repr channel.val)
          (.floats [F32.div (F32.ofInt valX) (F32.ofInt 100),
            F32.div (F32.ofInt valY) (F32.ofInt 100),
            F32.div (F32.ofInt valZ) (F32.ofInt 100)]))

/-- The expression `int32(binary.BigEndian.Uint32(b)) >> 8` of `decodeGPS`, where `b` holds three
payload bytes followed by a zero byte. -/
def gpsField (b0 b1 b2 : Byte) : Int := sar8 (toInt32 (beUint32 b0 b1 b2 0))

/-- `Decoder.decodeGPS`: one `io.ReadFull` of nine bytes; each group of three is copied to the
top of a four-byte buffer, read as a big-endian `int32` and shifted right by 8. -/
def decodeGPS (r : List Byte) (channel : Byte) (target : UplinkMessage) :
    Except Err (List Byte × UplinkMessage) :=
  match ReadFull r 9 with
  | .error e => .error e
  | .ok (buf, r1) =>
    .ok (r1, target.set ("gps_" ++ Nat.repr channel.val)
      (.floats [
        F32.div (F32.ofInt (gpsField (buf.getD 0 0) (buf.getD 1 0) (buf.getD 2 0)))
          (F32.ofInt 10000),
        F32.div (F32.ofInt (gpsField (buf.getD 3 0) (buf.getD 4 0) (buf.getD 5 0)))
          (F32.ofInt 10000),
        F32.div (F32.ofInt (gpsField (buf.getD 6 0) (buf.getD 7 0) (buf.getD 8 0)))
          (F32.ofInt 100)]))

/-- The `switch buf[1]` of `DecodeUplink`: the cases are tried in the order of the source, and
the default case is `ErrInvalidChannel`. -/
def decodeRecord (tc : TypeCodes) (r : List Byte) (channel type : Byte) (target : UplinkMessage) :
    Except Err (List Byte × UplinkMessage) :=
  if type = tc.DigitalInput then decodeDigitalInput r channel target
  else if type = tc.DigitalOutput then decodeDigitalOutput r channel target
  else if type = tc.AnalogInput then decodeAnalogInput r channel target
  else if type = tc.AnalogOutput then decodeAnalogOutput r channel target
  else if type = tc.Luminosity then decodeLuminosity r channel target
  else if type = tc.Presence then decodePresence r channel target
  else if type = tc.Temperature then decodeTemperature r channel target
  else if type = tc.RelativeHumidity then decodeRelativeHumidity r channel target
  else if type = tc.Accelerometer then decodeAccelerometer r channel target
  else if type = tc.BarometricPressure then decodeBarometricPressure r channel target
  else if type = tc.Gyrometer then decodeGyrometer r channel target
  else if type = tc.GPS then decodeGPS r channel target
  else .error .ErrInvalidChannel

/-- The `for` loop of `DecodeUplink`, at most `fuel` iterations. Every iteration that goes on
reads at least the two bytes of a header, so a fuel above the length of the stream is never
used up (`uplinkLoop_fuel`). -/
def uplinkLoop (tc : TypeCodes) : Nat → List Byte → UplinkMessage → Except Err UplinkMessage
  | 0, _, target => .ok target
  | fuel + 1, r, target =>
    match ReadFull r 2 with
    | .error .EOF => .ok target
    | .error e => .error e
    | .ok (buf, r1) =>
      match decodeRecord tc r1 (buf.getD 0 0) (buf.getD 1 0) target with
      | .error e => .error e
      | .ok (r2, target2) => uplinkLoop tc fuel r2 target2

/-- `Decoder.DecodeUplink` on a reader over the bytes `r`: the message, or the error (with which
Go returns a nil message). -/
def DecodeUplink (tc : TypeCodes) (r : List Byte) : Except Err UplinkMessage :=
  uplinkLoop tc (r.length + 1) r []

/-- The `for` loop of `DecodeDownlink`, at most `fuel` iterations. -/
def downlinkLoop : Nat → List Byte → DownlinkMessage → Except Err DownlinkMessage
  | 0, _, target => .ok target
  | fuel + 1, r, target =>
    match ReadFull r 1 with
    | .error .EOF => .ok target
    | .error e => .error e
    | .ok (buf, r1) =>
      if buf.getD 0 0 = 255 then .ok target
      else
        match readInt16 r1 with
        | .error e => .error e
        | .ok (val, r2) =>
          downlinkLoop fuel r2
            (target.set (buf.getD 0 0) (.float32 (F32.div (F32.ofInt val) (F32.ofInt 100))))

/-- `Decoder.DecodeDownlink` on a reader over the bytes `r`. -/
def DecodeDownlink (r : List Byte) : Except Err DownlinkMessage :=
  downlinkLoop (r.length + 1) r []

/-- The type codes of the CayenneLPP format (0, 1, 2, 3, 101, 102, 103, 104, 113, 115, 134,
136), as an instance of the parameter for the concrete streams of the examples. The general
theorems hold for any twelve distinct codes. -/
def lppCodes : TypeCodes :=
  { DigitalInput := 0, DigitalOutput := 1, AnalogInput := 2, AnalogOutput := 3,
    Luminosity := 101, Presence := 102, Temperature := 103, RelativeHumidity := 104,
    Accelerometer := 113, BarometricPressure := 115, Gyrometer := 134, GPS := 136 }

/-! ## The encoder (`encoder.go`)

The state of an `Encoder` is the content of its buffer; `NewEncoder` is the empty buffer and
`Bytes` returns the content. -/

/-- The conversion of a `float32` to a signed 32-bit integer as the compiler emits it: the
integer part (truncation towards zero) when it is within the 32-bit signed range. Outside that
range the result is that of the processor; this is the one of amd64, whose conversion
instruction returns `-2^31` for every operand it cannot convert. -/
def floatToInt32 (f : F32) : Int :=
  if -2147483648 ≤ F32.trunc f ∧ F32.trunc f ≤ 2147483647 then F32.trunc f else -2147483648

/-- The conversion of a `float32` to a signed 32-bit integer on a processor that saturates
(arm64): the nearest bound when the integer part is outside the range. -/
def floatToInt32Sat (f : F32) : Int :=
  if F32.trunc f < -2147483648 then -2147483648
  else if 2147483647 < F32.trunc f then 2147483647 else F32.trunc f

/-- The conversion of a `float32` to a signed 64-bit integer as the compiler emits it: the
integer part when it is within the 64-bit signed range, and `-2^63` outside it (amd64). -/
def floatToInt64 (f : F32) : Int :=
  if -9223372036854775808 ≤ F32.trunc f ∧ F32.trunc f ≤ 9223372036854775807 then F32.trunc f
  else -9223372036854775808

/-- The Go conversion `uint16(f)` of a `float32`. For a value the target type cannot hold Go
leaves the result to the implementation; the compiler converts to a signed 32-bit integer and
keeps its low 16 bits, so that an integer part within the 32-bit signed range wraps, as the
specification describes. -/
def floatToUint16 (f : F32) : Nat := (floatToInt32 f % 65536).toNat

/-- The Go conversion `uint8(f)` of a `float32`: the low 8 bits of the conversion to a signed
32-bit integer. -/
def floatToUint8 (f : F32) : Nat := (floatToInt32 f % 256).toNat

/-- The Go conversion `uint32(f)` of a `float32`: the low 32 bits of the conversion to a signed
64-bit integer. -/
def floatToUint32 (f : F32) : Nat := (floatToInt64 f % 4294967296).toNat

/-- `binary.Write(e.buf, binary.BigEndian, val)` for `val uint16`: the high byte, then the low
byte. -/
def writeUint16 (val : Nat) : List Byte := [toByte (val / 256), toByte val]

/-- `NewEncoder()`: an empty buffer. -/
def NewEncoder : List Byte := []

/-- `Encoder.Bytes`: the content of the buffer. -/
def Bytes (e : List Byte) : List Byte := e

/-- `Encoder.AddPort`: the channel, then `uint16(value * 100)` big-endian; no type code. -/
def AddPort (e : List Byte) (channel : Byte) (value : F32) : List Byte :=
  e ++ [channel] ++ writeUint16 (floatToUint16 (F32.mul value (F32.ofInt 100)))

/-- `Encoder.AddDigitalInput`: channel, type code, value. -/
def AddDigitalInput (tc : TypeCodes) (e : List Byte) (channel value : Byte) : List Byte :=
  e ++ [channel, tc.DigitalInput, value]

/-- `Encoder.AddDigitalOutput`: channel, type code, value. -/
def AddDigitalOutput (tc : TypeCodes) (e : List Byte) (channel value : Byte) : List Byte :=
  e ++ [channel, tc.DigitalOutput, value]

/-- `Encoder.AddAnalogInput`: channel, type code, then `uint16(value * 100)` big-endian. -/
def AddAnalogInput (tc : TypeCodes) (e : List Byte) (channel : Byte) (value : F32) : List Byte :=
  e ++ [channel, tc.AnalogInput] ++ writeUint16 (floatToUint16 (F32.mul value (F32.ofInt 100)))

/-- `Encoder.AddAnalogOutput`: channel, type code, then `uint16(value * 100)` big-endian. -/
def AddAnalogOutput (tc : TypeCodes) (e : List Byte) (channel : Byte) (value : F32) : List Byte :=
  e ++ [channel, tc.AnalogOutput] ++ writeUint16 (floatToUint16 (F32.mul value (F32.ofInt 100)))

/-- `Encoder.AddLuminosity`: channel, type code, then the `uint16` value big-endian. -/
def AddLuminosity (tc : TypeCodes) (e : List Byte) (channel : Byte) (value : Fin 65536) :
    List Byte :=
  e ++ [channel, tc.Luminosity] ++ writeUint16 value.val

/-- `Encoder.AddPresence`: channel, type code, value. -/
def AddPresence (tc : TypeCodes) (e : List Byte) (channel value : Byte) : List Byte :=
  e ++ [channel, tc.Presence, value]

/-- `Encoder.AddTemperature`: channel, type code, then `uint16(celcius * 10)` big-endian. -/
def AddTemperature (tc : TypeCodes) (e : List Byte) (channel : Byte) (celcius : F32) : List Byte :=
  e ++ [channel, tc.Temperature] ++ writeUint16 (floatToUint16 (F32.mul celcius (F32.ofInt 10)))

/-- `Encoder.AddRelativeHumidity`: channel, type code, then the byte `uint8(rh * 2)`. -/
def AddRelativeHumidity (tc : TypeCodes) (e : List Byte) (channel : Byte) (rh : F32) : List Byte :=
  e ++ [channel, tc.RelativeHumidity, toByte (floatToUint8 (F32.mul rh (F32.ofInt 2)))]

/-- `Encoder.AddAccelerometer`: channel, type code, then `uint16(x * 1000)`, `uint16(y * 1000)` and
`uint16(z * 1000)`, each big-endian. -/
def AddAccelerometer (tc : TypeCodes) (e : List Byte) (channel : Byte) (x y z : F32) : List Byte :=
  e ++ [channel, tc.Accelerometer] ++ writeUint16 (floatToUint16 (F32.mul x (F32.ofInt 1000)))
    ++ writeUint16 (floatToUint16 (F32.mul y (F32.ofInt 1000)))
    ++ writeUint16 (floatToUint16 (F32.mul z (F32.ofInt 1000)))

/-- `Encoder.AddBarometricPressure`: channel, type code, then `uint16(hpa * 10)` big-endian. -/
def AddBarometricPressure (tc : TypeCodes) (e : List Byte) (channel : Byte) (hpa : F32) :
    List Byte :=
  e ++ [channel, tc.BarometricPressure] ++ writeUint16 (floatToUint16 (F32.mul hpa (F32.ofInt 10)))

/-- `Encoder.AddGyrometer`: channel, type code, then `uint16(x * 100)`, `uint16(y * 100)` and
`uint16(z * 100)`, each big-endian. -/
def AddGyrometer (tc : TypeCodes) (e : List Byte) (channel : Byte) (x y z : F32) : List Byte :=
  e ++ [channel, tc.Gyrometer] ++ writeUint16 (floatToUint16 (F32.mul x (F32.ofInt 100)))
    ++ writeUint16 (floatToUint16 (F32.mul y (F32.ofInt 100)))
    ++ writeUint16 (floatToUint16 (F32.mul z (F32.ofInt 100)))

/-- The three bytes `uint8(val >> 16)`, `uint8(val >> 8)`, `uint8(val)` that `AddGPS` writes for
a `uint32`. -/
def writeUint24 (val : Nat) : List Byte := [toByte (val / 65536), toByte (val / 256), toByte val]

/-- `Encoder.AddGPS`: channel, type code, then three bytes for each of
`uint32(latitude * 10000)`, `uint32(longitude * 10000)` and `uint32(meters * 100)`. -/
def AddGPS (tc : TypeCodes) (e : List Byte) (channel : Byte) (latitude longitude meters : F32) :
    List Byte :=
  e ++ [channel, tc.GPS] ++ writeUint24 (floatToUint32 (F32.mul latitude (F32.ofInt 10000)))
    ++ writeUint24 (floatToUint32 (F32.mul longitude (F32.ofInt 10000)))
    ++ writeUint24 (floatToUint32 (F32.mul meters (F32.ofInt 100)))

/-! ## Well-formed streams, in the words of the specification -/

/-- The twelve sensor types of the type registry. -/
inductive SensorType where
  | DigitalInput
  | DigitalOutput
  | AnalogInput
  | AnalogOutput
  | Luminosity
  | Presence
  | Temperature
  | RelativeHumidity
  | Accelerometer
  | BarometricPressure
  | Gyrometer
  | GPS
deriving DecidableEq, Repr

/-- The twelve sensor types, in the order of the switch of `DecodeUplink`. -/
def SensorType.all : List SensorType :=
  [.DigitalInput, .DigitalOutput, .AnalogInput, .AnalogOutput, .Luminosity, .Presence,
    .Temperature, .RelativeHumidity, .Accelerometer, .BarometricPressure, .Gyrometer, .GPS]

/-- The type code of a sensor type. -/
def TypeCodes.code (tc : TypeCodes) : SensorType → Byte
  | .DigitalInput => tc.DigitalInput
  | .DigitalOutput => tc.DigitalOutput
  | .AnalogInput => tc.AnalogInput
  | .AnalogOutput => tc.AnalogOutput
  | .Luminosity => tc.Luminosity
  | .Presence => tc.Presence
  | .Temperature => tc.Temperature
  | .RelativeHumidity => tc.RelativeHumidity
  | .Accelerometer => tc.Accelerometer
  | .BarometricPressure => tc.BarometricPressure
  | .Gyrometer => tc.Gyrometer
  | .GPS => tc.GPS

/-- The decoding function that the switch of `DecodeUplink` calls for a type. -/
def decodePayload : SensorType → List Byte → Byte → UplinkMessage →
    Except Err (List Byte × UplinkMessage)
  | .DigitalInput => decodeDigitalInput
  | .DigitalOutput => decodeDigitalOutput
  | .AnalogInput => decodeAnalogInput
  | .AnalogOutput => decodeAnalogOutput
  | .Luminosity => decodeLuminosity
  | .Presence => decodePresence
  | .Temperature => decodeTemperature
  | .RelativeHumidity => decodeRelativeHumidity
  | .Accelerometer => decodeAccelerometer
  | .BarometricPressure => decodeBarometricPressure
  | .Gyrometer => decodeGyrometer
  | .GPS => decodeGPS

/-- The twelve type codes are pairwise distinct. The Go compiler rejects a switch with two equal
constant cases, so the constants of the package are. -/
def TypeCodes.Distinct (tc : TypeCodes) : Prop := (SensorType.all.map tc.code).Nodup

instance (tc : TypeCodes) : Decidable tc.Distinct :=
  inferInstanceAs (Decidable (SensorType.all.map tc.code).Nodup)

/-- A byte that is the code of no sensor type. -/
def TypeCodes.Unknown (tc : TypeCodes) (t : Byte) : Prop :=
  ∀ ty ∈ SensorType.all, t ≠ tc.code ty

instance (tc : TypeCodes) (t : Byte) : Decidable (tc.Unknown t) :=
  inferInstanceAs (Decidable (∀ ty ∈ SensorType.all, t ≠ tc.code ty))

/-- The payload width of a type, in bytes. -/
def SensorType.width : SensorType → Nat
  | .DigitalInput => 1
  | .DigitalOutput => 1
  | .AnalogInput => 2
  | .AnalogOutput => 2
  | .Luminosity => 2
  | .Presence => 1
  | .Temperature => 2
  | .RelativeHumidity => 1
  | .Accelerometer => 6
  | .BarometricPressure => 2
  | .Gyrometer => 6
  | .GPS => 9

/-- The name of a type in the keys of an uplink message. -/
def SensorType.name : SensorType → String
  | .DigitalInput => "digital_input"
  | .DigitalOutput => "digital_output"
  | .AnalogInput => "analog_input"
  | .AnalogOutput => "analog_output"
  | .Luminosity => "luminosity"
  | .Presence => "presence"
  | .Temperature => "temperature"
  | .RelativeHumidity => "relative_humidity"
  | .Accelerometer => "accelerometer"
  | .BarometricPressure => "barometric_pressure"
  | .Gyrometer => "gyrometer"
  | .GPS => "gps"

/-- The key of a type and a channel: the name of the type, an underscore, the channel in
decimal. -/
def uplinkKey (ty : SensorType) (channel : Byte) : String :=
  ty.name ++ "_" ++ Nat.repr channel.val

/-- An uplink record: a channel, a type and the payload bytes. -/
structure Record where
  channel : Byte
  type : SensorType
  payload : List Byte
deriving DecidableEq, Repr

/-- A complete record: the payload has the width of the type. -/
def Record.Complete (r : Record) : Prop := r.payload.length = r.type.width

instance (r : Record) : Decidable r.Complete :=
  inferInstanceAs (Decidable (r.payload.length = r.type.width))

/-- The bytes of a record on the wire: channel, type code, payload. -/
def Record.bytes (tc : TypeCodes) (r : Record) : List Byte :=
  r.channel :: tc.code r.type :: r.payload

/-- The key of a record. -/
def Record.key (r : Record) : String := uplinkKey r.type r.channel

/-- The unsigned big-endian integer of the two bytes at `i` and `i + 1` of a payload. -/
def unsigned16At (p : List Byte) (i : Nat) : Nat := (p.getD i 0).val * 256 + (p.getD (i + 1) 0).val

/-- The signed big-endian 16-bit integer of the two bytes at `i` and `i + 1` of a payload:
the unsigned one, less `2^16` when the top bit is set. -/
def signed16At (p : List Byte) (i : Nat) : Int :=
  if unsigned16At p i < 32768 then (unsigned16At p i : Int) else (unsigned16At p i : Int) - 65536

/-- The unsigned big-endian integer of the three bytes at `i`, `i + 1` and `i + 2` of a
payload. -/
def unsigned24At (p : List Byte) (i : Nat) : Nat :=
  (p.getD i 0).val * 65536 + (p.getD (i + 1) 0).val * 256 + (p.getD (i + 2) 0).val

/-- The signed big-endian 24-bit integer of the three bytes at `i`, `i + 1` and `i + 2` of a
payload: the unsigned one, less `2^24` when the top bit is set. -/
def signed24At (p : List Byte) (i : Nat) : Int :=
  if unsigned24At p i < 8388608 then (unsigned24At p i : Int)
  else (unsigned24At p i : Int) - 16777216

/-- The value of a record by the decode rule of its type, the quotients being the `float32`
nearest to the exact ones. -/
def Record.value (r : Record) : Value :=
  match r.type with
  | .DigitalInput => .uint8 (r.payload.getD 0 0).val
  | .DigitalOutput => .uint8 (r.payload.getD 0 0).val
  | .AnalogInput => .float32 (F32.ofRatio (signed16At r.payload 0) 100)
  | .AnalogOutput => .float32 (F32.ofRatio (signed16At r.payload 0) 100)
  | .Luminosity => .uint16 (unsigned16At r.payload 0)
  | .Presence => .uint8 (r.payload.getD 0 0).val
  | .Temperature => .float32 (F32.ofRatio (signed16At r.payload 0) 10)
  | .RelativeHumidity => .float32 (F32.ofRatio (r.payload.getD 0 0).val 2)
  | .Accelerometer =>
    .floats [F32.ofRatio (signed16At r.payload 0) 1000, F32.ofRatio (signed16At r.payload 2) 1000,
      F32.ofRatio (signed16At r.payload 4) 1000]
  | .BarometricPressure => .float32 (F32.ofRatio (signed16At r.payload 0) 10)
  | .Gyrometer =>
    .floats [F32.ofRatio (signed16At r.payload 0) 100, F32.ofRatio (signed16At r.payload 2) 100,
      F32.ofRatio (signed16At r.payload 4) 100]
  | .GPS =>
    .floats [F32.ofRatio (signed24At r.payload 0) 10000, F32.ofRatio (signed24At r.payload 3) 10000,
      F32.ofRatio (signed24At r.payload 6) 100]

/-- The byte stream of a sequence of uplink records. -/
def uplinkStream (tc : TypeCodes) : List Record → List Byte
  | [] => []
  | r :: rs => r.bytes tc ++ uplinkStream tc rs

/-- The message of a sequence of uplink records: the records are stored in order, each under its
key, a later record replacing an earlier one with the same key. -/
def uplinkMessage (rs : List Record) : UplinkMessage :=
  rs.foldl (fun m r => m.set r.key r.value) []

/-- A downlink record: a channel and the two bytes of the value. -/
structure Slot where
  channel : Byte
  hi : Byte
  lo : Byte
deriving DecidableEq, Repr

/-- The value of a downlink record: the signed big-endian 16-bit integer of its two bytes,
divided by 100 (the nearest `float32`). -/
def Slot.value (s : Slot) : Value :=
  .float32 (F32.ofRatio (signed16At [s.hi, s.lo] 0) 100)

/-- The byte stream of a sequence of downlink records. -/
def downlinkStream : List Slot → List Byte
  | [] => []
  | s :: ss => s.channel :: s.hi :: s.lo :: downlinkStream ss

/-- The message of a sequence of downlink records: the records are stored in order, each under
its channel, a later record replacing an earlier one with the same channel. -/
def downlinkMessage (ss : List Slot) : DownlinkMessage :=
  ss.foldl (fun m s => m.set s.channel s.value) []

/-- The number that a list of decimal digits stands for. -/
def decimalValue (cs : List Char) : Nat :=
  cs.foldl (fun acc ch => acc * 10 + (ch.toNat - 48)) 0

/-! ## The reader after a decode, the pair a decode returns, sequences of calls -/

/-- The `for` loop of `DecodeUplink` as `uplinkLoop`, which also gives the reader as the loop
leaves it. -/
def uplinkLoopReader (tc : TypeCodes) :
    Nat → List Byte → UplinkMessage → Except Err (List Byte × UplinkMessage)
  | 0, r, target => .ok (r, target)
  | fuel + 1, r, target =>
    match ReadFull r 2 with
    | .error .EOF => .ok (r, target)
    | .error e => .error e
    | .ok (buf, r1) =>
      match decodeRecord tc r1 (buf.getD 0 0) (buf.getD 1 0) target with
      | .error e => .error e
      | .ok (r2, target2) => uplinkLoopReader tc fuel r2 target2

/-- `Decoder.DecodeUplink` with the bytes that the reader still holds when it returns. -/
def DecodeUplinkReader (tc : TypeCodes) (r : List Byte) : Except Err (List Byte × UplinkMessage) :=
  uplinkLoopReader tc (r.length + 1) r []

/-- The pair `(message, error)` of a decoding function: `return nil, err` on an error and
`return target, nil` otherwise. -/
def goReturn {α : Type} : Except Err α → Option α × Option Err
  | .error e => (none, some e)
  | .ok m => (some m, none)

/-- A call of one of the typed `Add` methods of the encoder, with its arguments. -/
inductive AddCall where
  | digitalInput (channel value : Byte)
  | digitalOutput (channel value : Byte)
  | analogInput (channel : Byte) (value : F32)
  | analogOutput (channel : Byte) (value : F32)
  | luminosity (channel : Byte) (value : Fin 65536)
  | presence (channel value : Byte)
  | temperature (channel : Byte) (celcius : F32)
  | relativeHumidity (channel : Byte) (rh : F32)
  | accelerometer (channel : Byte) (x y z : F32)
  | barometricPressure (channel : Byte) (hpa : F32)
  | gyrometer (channel : Byte) (x y z : F32)
  | gps (channel : Byte) (latitude longitude meters : F32)

/-- The call on an encoder whose buffer holds `e`: the buffer after it. -/
def AddCall.run (tc : TypeCodes) (e : List Byte) : AddCall → List Byte
  | .digitalInput c v => AddDigitalInput tc e c v
  | .digitalOutput c v => AddDigitalOutput tc e c v
  | .analogInput c v => AddAnalogInput tc e c v
  | .analogOutput c v => AddAnalogOutput tc e c v
  | .luminosity c v => AddLuminosity tc e c v
  | .presence c v => AddPresence tc e c v
  | .temperature c v => AddTemperature tc e c v
  | .relativeHumidity c v => AddRelativeHumidity tc e c v
  | .accelerometer c x y z => AddAccelerometer tc e c x y z
  | .barometricPressure c v => AddBarometricPressure tc e c v
  | .gyrometer c x y z => AddGyrometer tc e c x y z
  | .gps c x y z => AddGPS tc e c x y z

/-- The message that `DecodeUplink` returns for the bytes of one call on a fresh encoder; no
message when it fails. -/
def AddCall.message (tc : TypeCodes) (call : AddCall) : UplinkMessage :=
  match DecodeUplink tc (Bytes (call.run tc NewEncoder)) with
  | .ok m => m
  | .error _ => []

/-- The payload widths as the specification lists them: "1, 2, 2, 2, 2, 1, 2, 1, 6, 2, 6, 9
bytes respectively" for Digital Input, Digital Output, Analog Input, Analog Output, Luminosity,
Presence, Temperature, Relative Humidity, Accelerometer, Barometric Pressure, Gyrometer and
GPS. -/
def SensorType.specWidth : SensorType → Nat
  | .DigitalInput => 1
  | .DigitalOutput => 2
  | .AnalogInput => 2
  | .AnalogOutput => 2
  | .Luminosity => 2
  | .Presence => 1
  | .Temperature => 2
  | .RelativeHumidity => 1
  | .Accelerometer => 6
  | .BarometricPressure => 2
  | .Gyrometer => 6
  | .GPS => 9

/-- The record that a call of a typed `Add` method appends: its channel, its type and the
payload bytes that the method writes. -/
def AddCall.record : AddCall → Record
  | .digitalInput c v => ⟨c, .DigitalInput, [v]⟩
  | .digitalOutput c v => ⟨c, .DigitalOutput, [v]⟩
  | .analogInput c v =>
    ⟨c, .AnalogInput, writeUint16 (floatToUint16 (F32.mul v (F32.ofInt 100)))⟩
  | .analogOutput c v =>
    ⟨c, .AnalogOutput, writeUint16 (floatToUint16 (F32.mul v (F32.ofInt 100)))⟩
  | .luminosity c v => ⟨c, .Luminosity, writeUint16 v.val⟩
  | .presence c v => ⟨c, .Presence, [v]⟩
  | .temperature c v =>
    ⟨c, .Temperature, writeUint16 (floatToUint16 (F32.mul v (F32.ofInt 10)))⟩
  | .relativeHumidity c v =>
    ⟨c, .RelativeHumidity, [toByte (floatToUint8 (F32.mul v (F32.ofInt 2)))]⟩
  | .accelerometer c x y z =>
    ⟨c, .Accelerometer, writeUint16 (floatToUint16 (F32.mul x (F32.ofInt 1000)))
      ++ writeUint16 (floatToUint16 (F32.mul y (F32.ofInt 1000)))
      ++ writeUint16 (floatToUint16 (F32.mul z (F32.ofInt 1000)))⟩
  | .barometricPressure c v =>
    ⟨c, .BarometricPressure, writeUint16 (floatToUint16 (F32.mul v (F32.ofInt 10)))⟩
  | .gyrometer c x y z =>
    ⟨c, .Gyrometer, writeUint16 (floatToUint16 (F32.mul x (F32.ofInt 100)))
      ++ writeUint16 (floatToUint16 (F32.mul y (F32.ofInt 100)))
      ++ writeUint16 (floatToUint16 (F32.mul z (F32.ofInt 100)))⟩
  | .gps c x y z =>
    ⟨c, .GPS, writeUint24 (floatToUint32 (F32.mul x (F32.ofInt 10000)))
      ++ writeUint24 (floatToUint32 (F32.mul y (F32.ofInt 10000)))
      ++ writeUint24 (floatToUint32 (F32.mul z (F32.ofInt 100)))⟩

namespace F32

/-- What decoding returns, `v'`, for a value `v` that was encoded as a 24-bit wire integer with
the scale `s`: `v'` is the `float32` nearest to `k / s` for a whole number `k` less than `1 / s`
away from `v`; `v'` is less than `3 / 2` steps away from `v`; and `v'` is `v` when `v` is a whole
multiple of `1 / s`. -/
def RoundTrip24 (s : Nat) (v v' : F32) : Prop :=
  (∃ k : Int, v' = ofRatio k s ∧ |(k : ℚ) / s - v.toRat| < 1 / s) ∧
    |v'.toRat - v.toRat| < (3 / 2) / s ∧
    ((∃ k : Int, v.toRat * s = k) → v' = v)

end F32

/-- A `float32` between the `float32` nearest to `lo / s` and the `float32` nearest to
`hi / s`, both included. The order of two `float32` is the order of their numbers of units. -/
def F32.Between (lo hi : Int) (s : Nat) (v : F32) : Prop :=
  (F32.ofRatio lo s).units ≤ v.units ∧ v.units ≤ (F32.ofRatio hi s).units

instance (lo hi : Int) (s : Nat) (v : F32) : Decidable (F32.Between lo hi s v) :=
  inferInstanceAs (Decidable ((F32.ofRatio lo s).units ≤ v.units ∧
    v.units ≤ (F32.ofRatio hi s).units))

/-- The bound of a value of a type: the range of the wire integer of the type, divided by its
scale. A value of another shape than the one the type stores is not within the bound. -/
def SensorType.Bounds : SensorType → Value → Prop
  | .DigitalInput, .uint8 n => n ≤ 255
  | .DigitalOutput, .uint8 n => n ≤ 255
  | .AnalogInput, .float32 v => v.Between (-32768) 32767 100
  | .AnalogOutput, .float32 v => v.Between (-32768) 32767 100
  | .Luminosity, .uint16 n => n ≤ 65535
  | .Presence, .uint8 n => n ≤ 255
  | .Temperature, .float32 v => v.Between (-32768) 32767 10
  | .RelativeHumidity, .float32 v => v.Between 0 255 2
  | .Accelerometer, .floats [x, y, z] =>
    x.Between (-32768) 32767 1000 ∧ y.Between (-32768) 32767 1000 ∧
      z.Between (-32768) 32767 1000
  | .BarometricPressure, .float32 v => v.Between (-32768) 32767 10
  | .Gyrometer, .floats [x, y, z] =>
    x.Between (-32768) 32767 100 ∧ y.Between (-32768) 32767 100 ∧ z.Between (-32768) 32767 100
  | .GPS, .floats [latitude, longitude, meters] =>
    latitude.Between (-8388608) 8388607 10000 ∧ longitude.Between (-8388608) 8388607 10000 ∧
      meters.Between (-8388608) 8388607 100
  | _, _ => False

/-! ## `float32`: rounding -/

namespace F32

theorem dropBitsAux_spec : ∀ (fuel m : Nat), m < 2 ^ 24 * 2 ^ fuel →
    m / 2 ^ dropBitsAux fuel m < 2 ^ 24 ∧
      (0 < dropBitsAux fuel m → 2 ^ 23 * 2 ^ dropBitsAux fuel m ≤ m) := by
  intro fuel
  induction fuel with
  | zero =>
    intro m hm
    simp only [dropBitsAux, pow_zero, Nat.div_one, mul_one] at *
    exact ⟨hm, fun h => absurd h (by omega)⟩
  | succ n ih =>
    intro m hm
    unfold dropBitsAux
    by_cases h : m < 16777216
    · rw [if_pos h]
      simp only [pow_zero, Nat.div_one]
      exact ⟨by norm_num; exact h, fun h' => absurd h' (by omega)⟩
    · rw [if_neg h]
      have hm2 : m / 2 < 2 ^ 24 * 2 ^ n := by
        rw [pow_succ] at hm
        omega
      obtain ⟨h1, h2⟩ := ih (m / 2) hm2
      constructor
      · rw [pow_succ, mul_comm, ← Nat.div_div_eq_div_mul]
        exact h1
      · intro _
        by_cases h0 : 0 < dropBitsAux n (m / 2)
        · have := h2 h0
          have h3 : m / 2 * 2 ≤ m := Nat.div_mul_le_self m 2
          calc 2 ^ 23 * 2 ^ (dropBitsAux n (m / 2) + 1)
              = 2 ^ 23 * 2 ^ dropBitsAux n (m / 2) * 2 := by rw [pow_succ]; ring
            _ ≤ m / 2 * 2 := Nat.mul_le_mul_right 2 this
            _ ≤ m := h3
        · have h0' : dropBitsAux n (m / 2) = 0 := by omega
          rw [h0']
          norm_num
          omega

theorem dropBits_spec (m : Nat) :
    m / 2 ^ dropBits m < 2 ^ 24 ∧ (0 < dropBits m → 2 ^ 23 * 2 ^ dropBits m ≤ m) := by
  apply dropBitsAux_spec
  have h1 : m < 2 ^ m := Nat.lt_two_pow m
  have h2 : 0 < 2 ^ 24 := by norm_num
  nlinarith

theorem dropBits_of_lt {m : Nat} (h : m < 2 ^ 24) : dropBits m = 0 := by
  unfold dropBits
  cases m with
  | zero => rfl
  | succ k =>
    unfold dropBitsAux
    rw [if_pos (by norm_num at h ⊢; exact h)]

theorem rne_of_dvd {n d : Nat} (hd : 0 < d) (h : d ∣ n) : rne n d = n / d := by
  unfold rne
  rw [Nat.mod_eq_zero_of_dvd h]
  simp [hd]

theorem le_rne (n d : Nat) : n / d ≤ rne n d := by
  unfold rne
  split_ifs <;> omega

theorem rne_le (n d : Nat) : rne n d ≤ n / d + 1 := by
  unfold rne
  split_ifs <;> omega

theorem rne_mul_right (n d : Nat) {c : Nat} (hc : 0 < c) : rne (n * c) (d * c) = rne n d := by
  unfold rne
  rw [Nat.mul_div_mul_right n d hc, Nat.mul_mod_mul_right]
  have e1 : (2 * (n % d * c) < d * c) ↔ (2 * (n % d) < d) := by
    constructor
    · intro h
      by_contra h'
      push_neg at h'
      have := Nat.mul_le_mul_right c h'
      nlinarith
    · intro h
      nlinarith
  have e2 : (d * c < 2 * (n % d * c)) ↔ (d < 2 * (n % d)) := by
    constructor
    · intro h
      by_contra h'
      push_neg at h'
      have := Nat.mul_le_mul_right c h'
      nlinarith
    · intro h
      nlinarith
  simp only [e1, e2]

theorem roundMag_mul_right (n d : Nat) {c : Nat} (hc : 0 < c) :
    roundMag (n * c) (d * c) = roundMag n d := by
  unfold roundMag
  rw [Nat.mul_div_mul_right n d hc]
  have : d * c * 2 ^ dropBits (n / d) = d * 2 ^ dropBits (n / d) * c := by ring
  rw [this, rne_mul_right _ _ hc]

theorem round_mul_right (a : Int) (d : Nat) {c : Nat} (hc : 0 < c) :
    round (a * c) (d * c) = round a d := by
  unfold round
  have h1 : (a * (c : Int)).sign = a.sign := by
    rw [Int.sign_mul]
    have : ((c : Int)).sign = 1 := Int.sign_eq_one_of_pos (by exact_mod_cast hc)
    rw [this, mul_one]
  have h2 : (a * (c : Int)).natAbs = a.natAbs * c := by
    rw [Int.natAbs_mul, Int.natAbs_ofNat]
  rw [h1, h2, roundMag_mul_right _ _ hc]

theorem one_pos : 0 < one := by unfold one; positivity

theorem roundMag_exact {k : Nat} (hk : k < 2 ^ 24) : roundMag (k * one) 1 = k * one := by
  unfold roundMag
  rw [Nat.div_one, one_mul]
  obtain ⟨_, h2⟩ := dropBits_spec (k * one)
  have he : dropBits (k * one) ≤ 149 := by
    by_contra hc
    push_neg at hc
    have h3 := h2 (by omega)
    have h4 : 2 ^ 150 ≤ 2 ^ dropBits (k * one) := Nat.pow_le_pow_right (by norm_num) hc
    have h5 : k * one < 2 ^ 24 * 2 ^ 149 := by
      unfold one
      exact Nat.mul_lt_mul_of_pos_right hk (by positivity)
    have h6 : (2:Nat) ^ 23 * 2 ^ 150 = 2 ^ 24 * 2 ^ 149 := by norm_num
    have h7 : 2 ^ 23 * 2 ^ 150 ≤ 2 ^ 23 * 2 ^ dropBits (k * one) := Nat.mul_le_mul_left _ h4
    omega
  have hdvd : 2 ^ dropBits (k * one) ∣ k * one := by
    apply Dvd.dvd.mul_left
    unfold one
    exact pow_dvd_pow 2 he
  rw [rne_of_dvd (by positivity) hdvd]
  exact Nat.div_mul_cancel hdvd

theorem round_int {k : Int} (hk : k.natAbs < 2 ^ 24) : round (k * one) 1 = ⟨k * one⟩ := by
  unfold round
  have h1 : (k * (one : Int)).sign = k.sign := by
    rw [Int.sign_mul]
    have : ((one : Int)).sign = 1 := Int.sign_eq_one_of_pos (by exact_mod_cast one_pos)
    rw [this, mul_one]
  have h2 : (k * (one : Int)).natAbs = k.natAbs * one := by
    rw [Int.natAbs_mul, Int.natAbs_ofNat]
  rw [h1, h2, roundMag_exact hk]
  congr 1
  push_cast
  rw [← mul_assoc, Int.sign_mul_abs]

theorem ofInt_units {k : Int} (hk : k.natAbs < 2 ^ 24) : (ofInt k).units = k * one := by
  unfold ofInt
  rw [round_int hk]

theorem div_ofInt {n : Int} {d : Nat} (hn : n.natAbs < 2 ^ 24) (hd0 : 0 < d) (hd : d < 2 ^ 24) :
    div (ofInt n) (ofInt (d : Int)) = ofRatio n d := by
  unfold div ofRatio
  rw [ofInt_units hn, ofInt_units (by simpa using hd)]
  have h1 : ((d : Int) * (one : Int)).sign = 1 :=
    Int.sign_eq_one_of_pos (by have := one_pos; positivity)
  have h2 : ((d : Int) * (one : Int)).natAbs = d * one := by
    rw [Int.natAbs_mul, Int.natAbs_ofNat, Int.natAbs_ofNat]
  rw [h1, h2, mul_one]
  exact round_mul_right (n * one) d one_pos

theorem rne_zero (d : Nat) : rne 0 d = 0 := by
  unfold rne
  simp

theorem roundMag_zero (d : Nat) : roundMag 0 d = 0 := by
  unfold roundMag
  simp [rne_zero]

theorem dropBits_le_of_le {N H : Nat} (hH : H < 2 ^ 24) (h : N ≤ H * one) : dropBits N ≤ 149 := by
  by_contra hc
  push_neg at hc
  obtain ⟨_, h2⟩ := dropBits_spec N
  have h3 := h2 (by omega)
  have h4 : 2 ^ 150 ≤ 2 ^ dropBits N := Nat.pow_le_pow_right (by norm_num) hc
  have h5 : H * one < 2 ^ 24 * 2 ^ 149 := by
    unfold one
    exact Nat.mul_lt_mul_of_pos_right hH (by positivity)
  have h6 : (2:Nat) ^ 23 * 2 ^ 150 = 2 ^ 24 * 2 ^ 149 := by norm_num
  have h7 : 2 ^ 23 * 2 ^ 150 ≤ 2 ^ 23 * 2 ^ dropBits N := Nat.mul_le_mul_left _ h4
  omega

/-- Rounding keeps a magnitude between two whole numbers that enclose it. -/
theorem roundMag_bounds {N L H : Nat} (hH : H < 2 ^ 24) (hL : L * one ≤ N) (hN : N ≤ H * one) :
    L * one ≤ roundMag N 1 ∧ roundMag N 1 ≤ H * one := by
  unfold roundMag
  rw [Nat.div_one, one_mul]
  have he := dropBits_le_of_le hH hN
  generalize dropBits N = e at he
  obtain ⟨q, hq⟩ : ∃ q, one = 2 ^ e * q := by
    unfold one
    exact pow_dvd_pow 2 he
  have hD : 0 < 2 ^ e := by positivity
  generalize 2 ^ e = D at hq hD
  constructor
  · have h1 : L * q ≤ N / D := by
      rw [Nat.le_div_iff_mul_le hD]
      calc L * q * D = L * (D * q) := by ring
        _ = L * one := by rw [hq]
        _ ≤ N := hL
    calc L * one = L * q * D := by rw [hq]; ring
      _ ≤ N / D * D := Nat.mul_le_mul_right D h1
      _ ≤ rne N D * D := Nat.mul_le_mul_right D (le_rne N D)
  · have h2 : rne N D ≤ H * q := by
      by_cases hdiv : D ∣ N
      · rw [rne_of_dvd hD hdiv]
        apply Nat.div_le_of_le_mul
        calc N ≤ H * one := hN
          _ = D * (H * q) := by rw [hq]; ring
      · have hlt : N < H * q * D := by
          have hne : N ≠ H * q * D := by
            intro heq
            exact hdiv ⟨H * q, by rw [heq]; ring⟩
          have : N ≤ H * q * D := by
            calc N ≤ H * one := hN
              _ = H * q * D := by rw [hq]; ring
          omega
        have h3 : N / D < H * q := by
          rw [Nat.div_lt_iff_lt_mul hD]
          exact hlt
        have := rne_le N D
        omega
    calc rne N D * D ≤ H * q * D := Nat.mul_le_mul_right D h2
      _ = H * one := by rw [hq]; ring

/-- The whole part of a rounded magnitude is within one of the magnitude, and does not exceed a
whole bound of it. -/
theorem roundMag_div_one {N H : Nat} (hH : H < 2 ^ 24) (hN : N ≤ H * one) :
    roundMag N 1 / one ≤ H ∧ roundMag N 1 / one * one < N + one ∧
      N < roundMag N 1 / one * one + one ∧ (one ∣ N → roundMag N 1 = N) := by
  have hone := one_pos
  have hJ1 : N / one * one ≤ N := Nat.div_mul_le_self N one
  have hJ2 : N < (N / one + 1) * one := by
    have := Nat.lt_div_mul_add (a := N) hone
    linarith
  have hJH : N / one ≤ H := Nat.div_le_of_le_mul (by rw [mul_comm]; exact hN)
  have hexact : one ∣ N → roundMag N 1 = N := by
    rintro ⟨k, hk⟩
    have hk' : k < 2 ^ 24 := by
      by_contra hc
      push_neg at hc
      have : H * one < k * one := by
        calc H * one < 2 ^ 24 * one := Nat.mul_lt_mul_of_pos_right hH hone
          _ ≤ k * one := Nat.mul_le_mul_right one hc
      rw [hk, mul_comm one k] at hN
      omega
    rw [hk, mul_comm one k]
    exact roundMag_exact hk'
  have hJ3 : (N / one + 1) * one = N / one * one + one := by ring
  by_cases hdiv : one ∣ N
  · rw [hexact hdiv]
    exact ⟨hJH, by omega, by omega, fun _ => rfl⟩
  · have hlt : N / one * one < N := by
      have hne : N / one * one ≠ N := by
        intro heq
        exact hdiv (Dvd.intro_left (N / one) heq)
      omega
    have hJH' : N / one + 1 ≤ H := by
      by_contra hc
      push_neg at hc
      have hJeq : N / one = H := by omega
      rw [hJeq] at hlt
      omega
    obtain ⟨hb1, hb2⟩ := roundMag_bounds (L := N / one) (H := N / one + 1) (by omega) hJ1
      (le_of_lt hJ2)
    have ht1 : N / one ≤ roundMag N 1 / one := by
      rw [Nat.le_div_iff_mul_le hone]
      exact hb1
    have ht2 : roundMag N 1 / one ≤ N / one + 1 := by
      apply Nat.div_le_of_le_mul
      rw [mul_comm]
      exact hb2
    refine ⟨by omega, ?_, ?_, hexact⟩
    · have : roundMag N 1 / one * one ≤ (N / one + 1) * one := Nat.mul_le_mul_right one ht2
      have h3 : (N / one + 1) * one = N / one * one + one := by ring
      omega
    · have : N / one * one ≤ roundMag N 1 / one * one := Nat.mul_le_mul_right one ht1
      have h3 : (N / one + 1) * one = N / one * one + one := by ring
      omega

theorem rne_error (n : Nat) {D : Nat} (hD : 0 < D) :
    2 * (rne n D * D) ≤ 2 * n + D ∧ 2 * n ≤ 2 * (rne n D * D) + D := by
  have hn := Nat.div_add_mod n D
  have hr := Nat.mod_lt n hD
  have h1 : (n / D + 1) * D = D * (n / D) + D := by ring
  have h2 : n / D * D = D * (n / D) := by ring
  unfold rne
  split_ifs
  · rw [h2]; omega
  · rw [h1]; omega
  · rw [h2]; omega
  · rw [h1]; omega

/-- The `float32` nearest to a whole number of at most `2^15`, divided by `s`, is that quotient
up to a relative error of `2^-24`: times `s`, it is within `2^140` units of the whole number. -/
theorem roundMag_close {T s : Nat} (hs : 0 < s) (hs' : s < 2 ^ 24) (hT : T ≤ 2 ^ 15) :
    roundMag (T * one) s * s ≤ T * one + 2 ^ 140 ∧
      T * one ≤ roundMag (T * one) s * s + 2 ^ 140 := by
  unfold roundMag
  obtain ⟨_, h2⟩ := dropBits_spec (T * one / s)
  generalize dropBits (T * one / s) = e at h2
  have hD : 0 < s * 2 ^ e := by positivity
  obtain ⟨e1, e2⟩ := rne_error (T * one) hD
  have hbound : s * 2 ^ e ≤ 2 ^ 141 := by
    rcases Nat.eq_zero_or_pos e with h0 | hpos
    · rw [h0, pow_zero, mul_one]
      calc s ≤ 2 ^ 24 := le_of_lt hs'
        _ ≤ 2 ^ 141 := Nat.pow_le_pow_right (by norm_num) (by norm_num)
    · have h3 := h2 hpos
      have h4 : T * one / s * s ≤ T * one := Nat.div_mul_le_self _ _
      have h5 : 2 ^ 23 * 2 ^ e * s ≤ T * one := le_trans (Nat.mul_le_mul_right s h3) h4
      have h6 : T * one ≤ 2 ^ 15 * 2 ^ 149 := by
        unfold one
        exact Nat.mul_le_mul_right _ hT
      have h7 : (2 : Nat) ^ 15 * 2 ^ 149 = 2 ^ 23 * 2 ^ 141 := by norm_num
      have h8 : 2 ^ 23 * (s * 2 ^ e) ≤ 2 ^ 23 * 2 ^ 141 := by
        calc 2 ^ 23 * (s * 2 ^ e) = 2 ^ 23 * 2 ^ e * s := by ring
          _ ≤ T * one := h5
          _ ≤ 2 ^ 15 * 2 ^ 149 := h6
          _ = 2 ^ 23 * 2 ^ 141 := h7
      exact Nat.le_of_mul_le_mul_left h8 (by positivity)
  have h9 : rne (T * one) (s * 2 ^ e) * 2 ^ e * s = rne (T * one) (s * 2 ^ e) * (s * 2 ^ e) := by
    ring
  rw [h9]
  have h10 : (2 : Nat) ^ 141 = 2 * 2 ^ 140 := by norm_num
  omega

theorem round_natCast (N d : Nat) : round (N : Int) d = ⟨(roundMag N d : Nat)⟩ := by
  unfold round
  rcases Nat.eq_zero_or_pos N with h | h
  · subst h
    simp [roundMag_zero]
  · rw [Int.sign_eq_one_of_pos (by exact_mod_cast h), one_mul, Int.natAbs_ofNat]

theorem round_neg_natCast (N d : Nat) : round (-(N : Int)) d = ⟨-(roundMag N d : Nat)⟩ := by
  unfold round
  rcases Nat.eq_zero_or_pos N with h | h
  · subst h
    simp [roundMag_zero]
  · rw [Int.sign_eq_neg_one_of_neg (by have : (0 : Int) < N := by exact_mod_cast h
                                       omega), Int.natAbs_neg, Int.natAbs_ofNat]
    simp

theorem trunc_natCast (M : Nat) : trunc ⟨(M : Int)⟩ = ((M / one : Nat) : Int) := by
  unfold trunc
  simp only
  rw [Int.tdiv_eq_ediv (by positivity) (by positivity)]
  rfl

theorem trunc_neg_natCast (M : Nat) : trunc ⟨-(M : Int)⟩ = -((M / one : Nat) : Int) := by
  unfold trunc
  simp only
  rw [Int.neg_tdiv, Int.tdiv_eq_ediv (by positivity) (by positivity)]
  rfl

/-- Rounding a number of units to a `float32` and truncating it to an integer gives an integer
within one of the number; it stays between two whole bounds of the number; and it is the number
itself when that is whole. -/
theorem trunc_round {a : Int} {L H : Nat} (hL : L < 2 ^ 24) (hH : H < 2 ^ 24)
    (hlo : -((L : Int) * (one : Int)) ≤ a) (hhi : a ≤ (H : Int) * (one : Int)) :
    -(L : Int) ≤ trunc (round a 1) ∧ trunc (round a 1) ≤ (H : Int) ∧
      |trunc (round a 1) * (one : Int) - a| < (one : Int) ∧
      ((one : Int) ∣ a → trunc (round a 1) * (one : Int) = a) := by
  obtain ⟨N, rfl | rfl⟩ := Int.eq_nat_or_neg a
  · have hN : N ≤ H * one := by exact_mod_cast hhi
    obtain ⟨h1, h2, h3, h4⟩ := roundMag_div_one hH hN
    rw [round_natCast, trunc_natCast]
    have h5 : one ∣ N → roundMag N 1 / one * one = N := fun hdvd => by
      rw [h4 hdvd]; exact Nat.div_mul_cancel hdvd
    generalize roundMag N 1 / one = T at h1 h2 h3 h5
    have h2' : ((T * one : Nat) : Int) < ((N + one : Nat) : Int) := by exact_mod_cast h2
    have h3' : (N : Int) < ((T * one + one : Nat) : Int) := by exact_mod_cast h3
    push_cast at h2' h3'
    refine ⟨by omega, by exact_mod_cast h1, ?_, ?_⟩
    · rw [abs_lt]
      constructor <;> linarith
    · intro hdvd
      have hdvd' : one ∣ N := by exact_mod_cast hdvd
      exact_mod_cast h5 hdvd'
  · have hN : N ≤ L * one := by
      have : -((L * one : Nat) : Int) ≤ -(N : Int) := by push_cast; exact hlo
      omega
    obtain ⟨h1, h2, h3, h4⟩ := roundMag_div_one hL hN
    rw [round_neg_natCast, trunc_neg_natCast]
    have h5 : one ∣ N → roundMag N 1 / one * one = N := fun hdvd => by
      rw [h4 hdvd]; exact Nat.div_mul_cancel hdvd
    generalize roundMag N 1 / one = T at h1 h2 h3 h5
    have h2' : ((T * one : Nat) : Int) < ((N + one : Nat) : Int) := by exact_mod_cast h2
    have h3' : (N : Int) < ((T * one + one : Nat) : Int) := by exact_mod_cast h3
    push_cast at h2' h3'
    refine ⟨by omega, by omega, ?_, ?_⟩
    · rw [abs_lt]
      constructor <;> linarith
    · intro hdvd
      have hdvd' : one ∣ N := by
        have := (Int.dvd_neg).mp hdvd
        exact_mod_cast this
      have h6 : ((T * one : Nat) : Int) = N := by exact_mod_cast h5 hdvd'
      push_cast at h6
      linarith

/-- The `float32` nearest to `t / s`, for a 16-bit `t`: times `s`, it is within `2^140` units
of `t`. -/
theorem ofRatio_close {t : Int} {s : Nat} (hs : 0 < s) (hs' : s < 2 ^ 24) (h1 : -32768 ≤ t)
    (h2 : t ≤ 32767) : |(ofRatio t s).units * (s : Int) - t * (one : Int)| ≤ 2 ^ 140 := by
  unfold ofRatio
  obtain ⟨T, rfl | rfl⟩ := Int.eq_nat_or_neg t
  · have hT : T ≤ 2 ^ 15 := by norm_num; omega
    obtain ⟨e1, e2⟩ := roundMag_close hs hs' hT
    have h3 : ((T : Int) * (one : Int)) = ((T * one : Nat) : Int) := by push_cast; rfl
    rw [h3, round_natCast]
    simp only
    rw [abs_le]
    have e1' : ((roundMag (T * one) s * s : Nat) : Int) ≤ ((T * one + 2 ^ 140 : Nat) : Int) := by
      exact_mod_cast e1
    have e2' : ((T * one : Nat) : Int) ≤ ((roundMag (T * one) s * s + 2 ^ 140 : Nat) : Int) := by
      exact_mod_cast e2
    push_cast at e1' e2' ⊢
    constructor <;> linarith
  · have hT : T ≤ 2 ^ 15 := by norm_num; omega
    obtain ⟨e1, e2⟩ := roundMag_close hs hs' hT
    have h3 : (-(T : Int) * (one : Int)) = -((T * one : Nat) : Int) := by push_cast; ring
    rw [h3, round_neg_natCast]
    simp only
    rw [abs_le]
    have e1' : ((roundMag (T * one) s * s : Nat) : Int) ≤ ((T * one + 2 ^ 140 : Nat) : Int) := by
      exact_mod_cast e1
    have e2' : ((T * one : Nat) : Int) ≤ ((roundMag (T * one) s * s + 2 ^ 140 : Nat) : Int) := by
      exact_mod_cast e2
    push_cast at e1' e2' ⊢
    constructor <;> linarith

theorem mul_ofInt (v : F32) {s : Nat} (hs : s < 2 ^ 24) :
    mul v (ofInt (s : Int)) = round (v.units * s) 1 := by
  unfold mul
  rw [ofInt_units (by simpa using hs)]
  have h := round_mul_right (v.units * s) 1 one_pos
  rw [one_mul] at h
  rw [← h, mul_assoc]

theorem one_cast : ((one : Nat) : ℚ) = 2 ^ 149 := by
  unfold one
  norm_num

set_option maxRecDepth 10000 in
/-- The round trip of a value through a wire integer between `-L` and `H`, at the scale `s`. -/
theorem roundTrip_of_range {s L H : Nat} (hs : 0 < s) (hs' : s < 2 ^ 24) (hL : L ≤ 32768)
    (hH : H ≤ 32767) (v : F32) (hv : v.InRange (-(L : ℚ) / s) ((H : ℚ) / s)) :
    -(L : Int) ≤ trunc (mul v (ofInt (s : Int))) ∧ trunc (mul v (ofInt (s : Int))) ≤ (H : Int) ∧
      RoundTrip s v (ofRatio (trunc (mul v (ofInt (s : Int)))) s) := by
  obtain ⟨⟨hvalid, _⟩, hlo, hhi⟩ := hv
  have hsq : (0 : ℚ) < s := by exact_mod_cast hs
  have hO : (0 : ℚ) < 2 ^ 149 := by positivity
  unfold toRat at hlo hhi
  have hlo' : -((L : Int) * (one : Int)) ≤ v.units * s := by
    rw [div_le_div_iff₀ hsq hO] at hlo
    have : ((-((L : Int) * (one : Int)) : Int) : ℚ) ≤ ((v.units * s : Int) : ℚ) := by
      push_cast
      rw [one_cast]
      linarith
    exact_mod_cast this
  have hhi' : v.units * s ≤ (H : Int) * (one : Int) := by
    rw [div_le_div_iff₀ hO hsq] at hhi
    have : ((v.units * s : Int) : ℚ) ≤ (((H : Int) * (one : Int) : Int) : ℚ) := by
      push_cast
      rw [one_cast]
      linarith
    exact_mod_cast this
  rw [mul_ofInt v hs']
  obtain ⟨t1, t2, t3, t4⟩ := trunc_round (by omega) (by omega) hlo' hhi'
  generalize trunc (round (v.units * s) 1) = t at t1 t2 t3 t4
  refine ⟨t1, t2, ?_⟩
  have hclose := ofRatio_close (t := t) hs hs' (by omega) (by omega)
  have t3q : |(t : ℚ) * 2 ^ 149 - (v.units : ℚ) * s| < 2 ^ 149 := by
    have : (((|t * (one : Int) - v.units * s| : Int)) : ℚ) < ((one : Int) : ℚ) :=
      Int.cast_lt.mpr t3
    rw [Int.cast_abs] at this
    push_cast at this
    rw [one_cast] at this
    exact this
  have hcq : |((ofRatio t s).units : ℚ) * s - (t : ℚ) * 2 ^ 149| ≤ 2 ^ 140 := by
    have : (((|(ofRatio t s).units * (s : Int) - t * (one : Int)| : Int)) : ℚ) ≤
        (((2 : Int) ^ 140 : Int) : ℚ) := Int.cast_le.mpr hclose
    rw [Int.cast_abs] at this
    push_cast at this
    rw [one_cast] at this
    exact this
  refine ⟨⟨t, rfl, ?_⟩, ?_, ?_⟩
  · unfold toRat
    have e : (t : ℚ) / s - (v.units : ℚ) / 2 ^ 149 =
        ((t : ℚ) * 2 ^ 149 - (v.units : ℚ) * s) / (s * 2 ^ 149) := by
      field_simp
      ring
    rw [e, abs_div, abs_of_pos (by positivity : (0 : ℚ) < s * 2 ^ 149), div_lt_div_iff₀
      (by positivity) hsq]
    calc |(t : ℚ) * 2 ^ 149 - (v.units : ℚ) * s| * (s : ℚ) < 2 ^ 149 * (s : ℚ) :=
          mul_lt_mul_of_pos_right t3q hsq
      _ = 1 * ((s : ℚ) * 2 ^ 149) := by ring
  · unfold toRat
    have e : ((ofRatio t s).units : ℚ) / 2 ^ 149 - (v.units : ℚ) / 2 ^ 149 =
        (((ofRatio t s).units : ℚ) * s - (v.units : ℚ) * s) / (s * 2 ^ 149) := by
      field_simp
      ring
    rw [e, abs_div, abs_of_pos (by positivity : (0 : ℚ) < s * 2 ^ 149), div_lt_div_iff₀
      (by positivity) hsq]
    have h1 : |((ofRatio t s).units : ℚ) * s - (v.units : ℚ) * s| < 2 ^ 140 + 2 ^ 149 := by
      have e2 : ((ofRatio t s).units : ℚ) * s - (v.units : ℚ) * s =
          (((ofRatio t s).units : ℚ) * s - (t : ℚ) * 2 ^ 149) +
            ((t : ℚ) * 2 ^ 149 - (v.units : ℚ) * s) := by ring
      rw [e2]
      calc _ ≤ |((ofRatio t s).units : ℚ) * s - (t : ℚ) * 2 ^ 149| +
            |(t : ℚ) * 2 ^ 149 - (v.units : ℚ) * s| := abs_add _ _
        _ < 2 ^ 140 + 2 ^ 149 := by linarith
    calc |((ofRatio t s).units : ℚ) * s - (v.units : ℚ) * s| * (s : ℚ)
        < (2 ^ 140 + 2 ^ 149) * (s : ℚ) := mul_lt_mul_of_pos_right h1 hsq
      _ = (1 + 1 / 512) * ((s : ℚ) * 2 ^ 149) := by norm_num; ring
  · rintro ⟨k, hk⟩
    unfold toRat at hk
    have hdvd : (one : Int) ∣ v.units * s := by
      refine ⟨k, ?_⟩
      have : ((v.units * s : Int) : ℚ) = (((one : Int) * k : Int) : ℚ) := by
        push_cast
        rw [one_cast]
        field_simp at hk
        linarith
      exact_mod_cast this
    have h5 := t4 hdvd
    unfold ofRatio
    rw [h5]
    have h6 := round_mul_right v.units 1 hs
    rw [one_mul] at h6
    rw [h6]
    exact hvalid

end F32

/-! ## Reading: basic facts -/

theorem ReadFull_append (p rest : List Byte) (n : Nat) (hn : 0 < n) (h : p.length = n) :
    ReadFull (p ++ rest) n = .ok (p, rest) := by
  subst h
  have h1 : ¬ p.length = 0 := by omega
  simp [ReadFull, h1]

theorem ReadFull_length {r : List Byte} {n : Nat} {bs r' : List Byte}
    (h : ReadFull r n = .ok (bs, r')) : r'.length + n = r.length ∧ bs.length = n := by
  unfold ReadFull at h
  split_ifs at h with h0 h1 h2
  · simp at h; obtain ⟨rfl, rfl⟩ := h; simp [h0]
  · simp at h
    obtain ⟨rfl, rfl⟩ := h
    simp
    omega

theorem readUint8_length {r : List Byte} {v : Nat} {r' : List Byte}
    (h : readUint8 r = .ok (v, r')) : r'.length + 1 = r.length := by
  unfold readUint8 at h
  split at h
  · simp at h
  · next bs r1 heq =>
    simp at h
    obtain ⟨_, rfl⟩ := h
    exact (ReadFull_length heq).1

theorem readUint16_length {r : List Byte} {v : Nat} {r' : List Byte}
    (h : readUint16 r = .ok (v, r')) : r'.length + 2 = r.length := by
  unfold readUint16 at h
  split at h
  · simp at h
  · next bs r1 heq =>
    simp at h
    obtain ⟨_, rfl⟩ := h
    exact (ReadFull_length heq).1

theorem readInt16_length {r : List Byte} {v : Int} {r' : List Byte}
    (h : readInt16 r = .ok (v, r')) : r'.length + 2 = r.length := by
  unfold readInt16 at h
  split at h
  · simp at h
  · next bs r1 heq =>
    simp at h
    obtain ⟨_, rfl⟩ := h
    exact (ReadFull_length heq).1

/-! ## The loops do not depend on the fuel -/

theorem uint8Step_length {r : List Byte} {k : Nat → UplinkMessage} {r2 : List Byte}
    {tg2 : UplinkMessage}
    (h : (match readUint8 r with
      | .error e => (.error e : Except Err (List Byte × UplinkMessage))
      | .ok (val, r1) => .ok (r1, k val)) = .ok (r2, tg2)) : r2.length ≤ r.length := by
  split at h
  · cases h
  · next v r1 heq =>
    simp only [Except.ok.injEq, Prod.mk.injEq] at h
    obtain ⟨rfl, _⟩ := h
    have := readUint8_length heq
    omega

theorem uint16Step_length {r : List Byte} {k : Nat → UplinkMessage} {r2 : List Byte}
    {tg2 : UplinkMessage}
    (h : (match readUint16 r with
      | .error e => (.error e : Except Err (List Byte × UplinkMessage))
      | .ok (val, r1) => .ok (r1, k val)) = .ok (r2, tg2)) : r2.length ≤ r.length := by
  split at h
  · cases h
  · next v r1 heq =>
    simp only [Except.ok.injEq, Prod.mk.injEq] at h
    obtain ⟨rfl, _⟩ := h
    have := readUint16_length heq
    omega

theorem int16Step_length {r : List Byte} {k : Int → UplinkMessage} {r2 : List Byte}
    {tg2 : UplinkMessage}
    (h : (match readInt16 r with
      | .error e => (.error e : Except Err (List Byte × UplinkMessage))
      | .ok (val, r1) => .ok (r1, k val)) = .ok (r2, tg2)) : r2.length ≤ r.length := by
  split at h
  · cases h
  · next v r1 heq =>
    simp only [Except.ok.injEq, Prod.mk.injEq] at h
    obtain ⟨rfl, _⟩ := h
    have := readInt16_length heq
    omega

theorem int16x3Step_length {r : List Byte} {k : Int → Int → Int → UplinkMessage}
    {r' : List Byte} {tg2 : UplinkMessage}
    (h : (match readInt16 r with
      | .error e => (.error e : Except Err (List Byte × UplinkMessage))
      | .ok (valX, r1) =>
        match readInt16 r1 with
        | .error e => .error e
        | .ok (valY, r2) =>
          match readInt16 r2 with
          | .error e => .error e
          | .ok (valZ, r3) => .ok (r3, k valX valY valZ)) = .ok (r', tg2)) :
    r'.length ≤ r.length := by
  split at h
  · cases h
  · next v1 r1 heq1 =>
    split at h
    · cases h
    · next v2 r2 heq2 =>
      split at h
      · cases h
      · next v3 r3 heq3 =>
        simp only [Except.ok.injEq, Prod.mk.injEq] at h
        obtain ⟨rfl, _⟩ := h
        have := readInt16_length heq1
        have := readInt16_length heq2
        have := readInt16_length heq3
        omega

theorem decodeGPS_length {r : List Byte} {c : Byte} {tg : UplinkMessage} {r2 : List Byte}
    {tg2 : UplinkMessage} (h : decodeGPS r c tg = .ok (r2, tg2)) : r2.length ≤ r.length := by
  unfold decodeGPS at h
  split at h
  · cases h
  · next v r1 heq =>
    simp only [Except.ok.injEq, Prod.mk.injEq] at h
    obtain ⟨rfl, _⟩ := h
    have := (ReadFull_length heq).1
    omega

theorem decodeRecord_length {tc : TypeCodes} {r : List Byte} {c t : Byte}
    {tg : UplinkMessage} {r2 : List Byte} {tg2 : UplinkMessage}
    (h : decodeRecord tc r c t tg = .ok (r2, tg2)) : r2.length ≤ r.length := by
  unfold decodeRecord at h
  by_cases h1 : t = tc.DigitalInput
  · rw [if_pos h1] at h; exact uint8Step_length h
  rw [if_neg h1] at h
  by_cases h2 : t = tc.DigitalOutput
  · rw [if_pos h2] at h; exact uint8Step_length h
  rw [if_neg h2] at h
  by_cases h3 : t = tc.AnalogInput
  · rw [if_pos h3] at h; exact int16Step_length h
  rw [if_neg h3] at h
  by_cases h4 : t = tc.AnalogOutput
  · rw [if_pos h4] at h; exact int16Step_length h
  rw [if_neg h4] at h
  by_cases h5 : t = tc.Luminosity
  · rw [if_pos h5] at h; exact uint16Step_length h
  rw [if_neg h5] at h
  by_cases h6 : t = tc.Presence
  · rw [if_pos h6] at h; exact uint8Step_length h
  rw [if_neg h6] at h
  by_cases h7 : t = tc.Temperature
  · rw [if_pos h7] at h; exact int16Step_length h
  rw [if_neg h7] at h
  by_cases h8 : t = tc.RelativeHumidity
  · rw [if_pos h8] at h; exact uint8Step_length h
  rw [if_neg h8] at h
  by_cases h9 : t = tc.Accelerometer
  · rw [if_pos h9] at h; exact int16x3Step_length h
  rw [if_neg h9] at h
  by_cases h10 : t = tc.BarometricPressure
  · rw [if_pos h10] at h; exact int16Step_length h
  rw [if_neg h10] at h
  by_cases h11 : t = tc.Gyrometer
  · rw [if_pos h11] at h; exact int16x3Step_length h
  rw [if_neg h11] at h
  by_cases h12 : t = tc.GPS
  · rw [if_pos h12] at h; exact decodeGPS_length h
  rw [if_neg h12] at h
  cases h

theorem uplinkLoop_fuel (tc : TypeCodes) :
    ∀ (f1 f2 : Nat) (r : List Byte) (tg : UplinkMessage), r.length < f1 → r.length < f2 →
      uplinkLoop tc f1 r tg = uplinkLoop tc f2 r tg := by
  intro f1
  induction f1 with
  | zero => intro f2 r tg h; omega
  | succ n ih =>
    intro f2 r tg h1 h2
    cases f2 with
    | zero => omega
    | succ m =>
      simp only [uplinkLoop]
      cases hr : ReadFull r 2 with
      | error e => cases e <;> rfl
      | ok p =>
        obtain ⟨buf, r1⟩ := p
        simp only
        have hl := (ReadFull_length hr).1
        cases hd : decodeRecord tc r1 (buf.getD 0 0) (buf.getD 1 0) tg with
        | error e => rfl
        | ok q =>
          obtain ⟨r2, tg2⟩ := q
          simp only
          have := decodeRecord_length hd
          exact ih m r2 tg2 (by omega) (by omega)

theorem downlinkLoop_fuel :
    ∀ (f1 f2 : Nat) (r : List Byte) (tg : DownlinkMessage), r.length < f1 → r.length < f2 →
      downlinkLoop f1 r tg = downlinkLoop f2 r tg := by
  intro f1
  induction f1 with
  | zero => intro f2 r tg h; omega
  | succ n ih =>
    intro f2 r tg h1 h2
    cases f2 with
    | zero => omega
    | succ m =>
      simp only [downlinkLoop]
      cases hr : ReadFull r 1 with
      | error e => cases e <;> rfl
      | ok p =>
        obtain ⟨buf, r1⟩ := p
        simp only
        have hl := (ReadFull_length hr).1
        split_ifs
        · rfl
        · cases hd : readInt16 r1 with
          | error e => rfl
          | ok q =>
            obtain ⟨v, r2⟩ := q
            simp only
            have := readInt16_length hd
            exact ih m r2 _ (by omega) (by omega)

/-! ## The switch -/

theorem SensorType.mem_all (ty : SensorType) : ty ∈ SensorType.all := by
  cases ty <;> simp [SensorType.all]

theorem TypeCodes.code_eq_iff {tc : TypeCodes} (hd : tc.Distinct) (a b : SensorType) :
    tc.code a = tc.code b ↔ a = b :=
  ⟨fun h => List.inj_on_of_nodup_map hd a.mem_all b.mem_all h, fun h => by rw [h]⟩

theorem decodeRecord_code {tc : TypeCodes} (hd : tc.Distinct) (ty : SensorType)
    (r : List Byte) (c : Byte) (tg : UplinkMessage) :
    decodeRecord tc r c (tc.code ty) tg = decodePayload ty r c tg := by
  unfold decodeRecord
  simp only [show tc.DigitalInput = tc.code .DigitalInput from rfl,
    show tc.DigitalOutput = tc.code .DigitalOutput from rfl,
    show tc.AnalogInput = tc.code .AnalogInput from rfl,
    show tc.AnalogOutput = tc.code .AnalogOutput from rfl,
    show tc.Luminosity = tc.code .Luminosity from rfl,
    show tc.Presence = tc.code .Presence from rfl,
    show tc.Temperature = tc.code .Temperature from rfl,
    show tc.RelativeHumidity = tc.code .RelativeHumidity from rfl,
    show tc.Accelerometer = tc.code .Accelerometer from rfl,
    show tc.BarometricPressure = tc.code .BarometricPressure from rfl,
    show tc.Gyrometer = tc.code .Gyrometer from rfl,
    show tc.GPS = tc.code .GPS from rfl, tc.code_eq_iff hd]
  cases ty <;> simp only [reduceCtorEq, if_true, if_false, decodePayload]

theorem decodeRecord_unknown {tc : TypeCodes} {t : Byte} (ht : tc.Unknown t)
    (r : List Byte) (c : Byte) (tg : UplinkMessage) :
    decodeRecord tc r c t tg = .error .ErrInvalidChannel := by
  unfold decodeRecord
  have h1 := ht .DigitalInput (SensorType.mem_all _)
  have h2 := ht .DigitalOutput (SensorType.mem_all _)
  have h3 := ht .AnalogInput (SensorType.mem_all _)
  have h4 := ht .AnalogOutput (SensorType.mem_all _)
  have h5 := ht .Luminosity (SensorType.mem_all _)
  have h6 := ht .Presence (SensorType.mem_all _)
  have h7 := ht .Temperature (SensorType.mem_all _)
  have h8 := ht .RelativeHumidity (SensorType.mem_all _)
  have h9 := ht .Accelerometer (SensorType.mem_all _)
  have h10 := ht .BarometricPressure (SensorType.mem_all _)
  have h11 := ht .Gyrometer (SensorType.mem_all _)
  have h12 := ht .GPS (SensorType.mem_all _)
  simp only [TypeCodes.code] at h1 h2 h3 h4 h5 h6 h7 h8 h9 h10 h11 h12
  rw [if_neg h1, if_neg h2, if_neg h3, if_neg h4, if_neg h5, if_neg h6, if_neg h7, if_neg h8,
    if_neg h9, if_neg h10, if_neg h11, if_neg h12]

/-! ## Decoding a complete record -/

theorem readUint8_cons (b : Byte) (rest : List Byte) :
    readUint8 (b :: rest) = .ok (b.val, rest) := by
  unfold readUint8
  rw [show b :: rest = [b] ++ rest from rfl, ReadFull_append [b] rest 1 (by decide) rfl]
  rfl

theorem readUint16_cons (b0 b1 : Byte) (rest : List Byte) :
    readUint16 (b0 :: b1 :: rest) = .ok (beUint16 b0 b1, rest) := by
  unfold readUint16
  rw [show b0 :: b1 :: rest = [b0, b1] ++ rest from rfl,
    ReadFull_append [b0, b1] rest 2 (by decide) rfl]
  rfl

theorem readInt16_cons (b0 b1 : Byte) (rest : List Byte) :
    readInt16 (b0 :: b1 :: rest) = .ok (toInt16 (beUint16 b0 b1), rest) := by
  unfold readInt16
  rw [show b0 :: b1 :: rest = [b0, b1] ++ rest from rfl,
    ReadFull_append [b0, b1] rest 2 (by decide) rfl]
  rfl

theorem beUint16_lt (b0 b1 : Byte) : beUint16 b0 b1 < 65536 := by
  unfold beUint16
  have := b0.isLt
  have := b1.isLt
  omega

theorem toInt16_bounds (u : Nat) : -32768 ≤ toInt16 u ∧ toInt16 u ≤ 32767 := by
  unfold toInt16
  split_ifs <;> omega

theorem toInt16_natAbs_lt (u : Nat) : (toInt16 u).natAbs < 2 ^ 24 := by
  have := toInt16_bounds u
  omega

theorem toInt16_beUint16 (b0 b1 : Byte) (l : List Byte) :
    toInt16 (beUint16 b0 b1) = signed16At (b0 :: b1 :: l) 0 := by
  have h := beUint16_lt b0 b1
  unfold toInt16 signed16At unsigned16At
  rw [Nat.mod_eq_of_lt h]
  rfl

theorem signed16At_natAbs_lt (p : List Byte) (i : Nat) : (signed16At p i).natAbs < 2 ^ 24 := by
  unfold signed16At unsigned16At
  have := (p.getD i 0).isLt
  have := (p.getD (i + 1) 0).isLt
  split_ifs <;> omega

theorem gpsField_eq (b0 b1 b2 : Byte) (l : List Byte) :
    gpsField b0 b1 b2 = signed24At (b0 :: b1 :: b2 :: l) 0 := by
  unfold gpsField sar8 toInt32 beUint32 signed24At unsigned24At
  have h0 := b0.isLt
  have h1 := b1.isLt
  have h2 := b2.isLt
  simp only [List.getD_cons_zero, List.getD_cons_succ, Fin.val_zero, add_zero, zero_add]
  split_ifs <;> omega

theorem signed24At_natAbs_le (p : List Byte) (i : Nat) : (signed24At p i).natAbs < 2 ^ 24 := by
  unfold signed24At unsigned24At
  have := (p.getD i 0).isLt
  have := (p.getD (i + 1) 0).isLt
  have := (p.getD (i + 2) 0).isLt
  split_ifs <;> omega

theorem decodePayload_complete (r : Record) (hc : r.Complete) (rest : List Byte)
    (tg : UplinkMessage) :
    decodePayload r.type (r.payload ++ rest) r.channel tg = .ok (rest, tg.set r.key r.value) := by
  obtain ⟨c, ty, p⟩ := r
  unfold Record.Complete at hc
  simp only at hc
  cases ty
  case DigitalInput =>
    obtain ⟨b, rfl⟩ := List.length_eq_one.mp hc
    simp only [decodePayload, decodeDigitalInput, List.singleton_append, readUint8_cons]
    rfl
  case DigitalOutput =>
    obtain ⟨b, rfl⟩ := List.length_eq_one.mp hc
    simp only [decodePayload, decodeDigitalOutput, List.singleton_append, readUint8_cons]
    rfl
  case Presence =>
    obtain ⟨b, rfl⟩ := List.length_eq_one.mp hc
    simp only [decodePayload, decodePresence, List.singleton_append, readUint8_cons]
    rfl
  case RelativeHumidity =>
    obtain ⟨b, rfl⟩ := List.length_eq_one.mp hc
    simp only [decodePayload, decodeRelativeHumidity, List.singleton_append, readUint8_cons]
    have hb : ((b.val : Nat) : Int).natAbs < 2 ^ 24 := by have := b.isLt; omega
    rw [show (2 : Int) = ((2 : Nat) : Int) from rfl, F32.div_ofInt hb (by decide) (by decide)]
    rfl
  case Luminosity =>
    obtain ⟨b0, b1, rfl⟩ := List.length_eq_two.mp hc
    simp only [decodePayload, decodeLuminosity, List.cons_append, List.nil_append,
      readUint16_cons]
    rfl
  case AnalogInput =>
    obtain ⟨b0, b1, rfl⟩ := List.length_eq_two.mp hc
    simp only [decodePayload, decodeAnalogInput, List.cons_append, List.nil_append,
      readInt16_cons]
    rw [show (100 : Int) = ((100 : Nat) : Int) from rfl,
      F32.div_ofInt (toInt16_natAbs_lt _) (by decide) (by decide), toInt16_beUint16 b0 b1 []]
    rfl
  case AnalogOutput =>
    obtain ⟨b0, b1, rfl⟩ := List.length_eq_two.mp hc
    simp only [decodePayload, decodeAnalogOutput, List.cons_append, List.nil_append,
      readInt16_cons]
    rw [show (100 : Int) = ((100 : Nat) : Int) from rfl,
      F32.div_ofInt (toInt16_natAbs_lt _) (by decide) (by decide), toInt16_beUint16 b0 b1 []]
    rfl
  case Temperature =>
    obtain ⟨b0, b1, rfl⟩ := List.length_eq_two.mp hc
    simp only [decodePayload, decodeTemperature, List.cons_append, List.nil_append,
      readInt16_cons]
    rw [show (10 : Int) = ((10 : Nat) : Int) from rfl,
      F32.div_ofInt (toInt16_natAbs_lt _) (by decide) (by decide), toInt16_beUint16 b0 b1 []]
    rfl
  case BarometricPressure =>
    obtain ⟨b0, b1, rfl⟩ := List.length_eq_two.mp hc
    simp only [decodePayload, decodeBarometricPressure, List.cons_append, List.nil_append,
      readInt16_cons]
    rw [show (10 : Int) = ((10 : Nat) : Int) from rfl,
      F32.div_ofInt (toInt16_natAbs_lt _) (by decide) (by decide), toInt16_beUint16 b0 b1 []]
    rfl
  case Accelerometer =>
    rcases p with _ | ⟨b0, _ | ⟨b1, _ | ⟨b2, _ | ⟨b3, _ | ⟨b4, _ | ⟨b5, _ | ⟨b6, p⟩⟩⟩⟩⟩⟩⟩ <;>
      simp [SensorType.width] at hc
    simp only [decodePayload, decodeAccelerometer, List.cons_append, List.nil_append,
      readInt16_cons]
    rw [show (1000 : Int) = ((1000 : Nat) : Int) from rfl,
      F32.div_ofInt (toInt16_natAbs_lt _) (by decide) (by decide),
      F32.div_ofInt (toInt16_natAbs_lt _) (by decide) (by decide),
      F32.div_ofInt (toInt16_natAbs_lt _) (by decide) (by decide),
      toInt16_beUint16 b0 b1 [b2, b3, b4, b5], toInt16_beUint16 b2 b3 [b4, b5],
      toInt16_beUint16 b4 b5 []]
    rfl
  case Gyrometer =>
    rcases p with _ | ⟨b0, _ | ⟨b1, _ | ⟨b2, _ | ⟨b3, _ | ⟨b4, _ | ⟨b5, _ | ⟨b6, p⟩⟩⟩⟩⟩⟩⟩ <;>
      simp [SensorType.width] at hc
    simp only [decodePayload, decodeGyrometer, List.cons_append, List.nil_append,
      readInt16_cons]
    rw [show (100 : Int) = ((100 : Nat) : Int) from rfl,
      F32.div_ofInt (toInt16_natAbs_lt _) (by decide) (by decide),
      F32.div_ofInt (toInt16_natAbs_lt _) (by decide) (by decide),
      F32.div_ofInt (toInt16_natAbs_lt _) (by decide) (by decide),
      toInt16_beUint16 b0 b1 [b2, b3, b4, b5], toInt16_beUint16 b2 b3 [b4, b5],
      toInt16_beUint16 b4 b5 []]
    rfl
  case GPS =>
    rcases p with _ | ⟨b0, _ | ⟨b1, _ | ⟨b2, _ | ⟨b3, _ | ⟨b4, _ | ⟨b5, _ | ⟨b6, _ | ⟨b7,
      _ | ⟨b8, _ | ⟨b9, p⟩⟩⟩⟩⟩⟩⟩⟩⟩⟩ <;> simp [SensorType.width] at hc
    simp only [decodePayload, decodeGPS]
    rw [ReadFull_append [b0, b1, b2, b3, b4, b5, b6, b7, b8] rest 9 (by decide) rfl]
    simp only [List.getD_cons_zero, List.getD_cons_succ]
    rw [show (10000 : Int) = ((10000 : Nat) : Int) from rfl,
      show (100 : Int) = ((100 : Nat) : Int) from rfl,
      gpsField_eq b0 b1 b2 [b3, b4, b5, b6, b7, b8], gpsField_eq b3 b4 b5 [b6, b7, b8],
      gpsField_eq b6 b7 b8 [],
      F32.div_ofInt (signed24At_natAbs_le _ _) (by decide) (by decide),
      F32.div_ofInt (signed24At_natAbs_le _ _) (by decide) (by decide),
      F32.div_ofInt (signed24At_natAbs_le _ _) (by decide) (by decide)]
    rfl

/-! ## The uplink loop on a stream of records -/

theorem uplinkLoop_nil (tc : TypeCodes) (fuel : Nat) (tg : UplinkMessage) :
    uplinkLoop tc fuel [] tg = .ok tg := by
  cases fuel <;> rfl

theorem uplinkLoop_header (tc : TypeCodes) (fuel : Nat) (c t : Byte) (rest : List Byte)
    (tg : UplinkMessage) :
    uplinkLoop tc (fuel + 1) (c :: t :: rest) tg =
      match decodeRecord tc rest c t tg with
      | .error e => .error e
      | .ok (r2, target2) => uplinkLoop tc fuel r2 target2 := by
  rw [uplinkLoop, show c :: t :: rest = [c, t] ++ rest from rfl,
    ReadFull_append [c, t] rest 2 (by decide) rfl]
  rfl

theorem uplinkLoop_record {tc : TypeCodes} (hd : tc.Distinct) (r : Record) (hc : r.Complete)
    (rest : List Byte) (tg : UplinkMessage) (fuel : Nat)
    (hf : (r.bytes tc ++ rest).length < fuel) :
    uplinkLoop tc fuel (r.bytes tc ++ rest) tg =
      uplinkLoop tc (rest.length + 1) rest (tg.set r.key r.value) := by
  cases fuel with
  | zero => omega
  | succ n =>
    simp only [Record.bytes, List.cons_append]
    rw [uplinkLoop_header, decodeRecord_code hd, decodePayload_complete r hc]
    simp only
    apply uplinkLoop_fuel
    · simp only [Record.bytes, List.cons_append, List.length_cons, List.length_append] at hf
      omega
    · omega

theorem uplinkLoop_stream {tc : TypeCodes} (hd : tc.Distinct) (rs : List Record)
    (hc : ∀ r ∈ rs, r.Complete) (rest : List Byte) (tg : UplinkMessage) :
    uplinkLoop tc ((uplinkStream tc rs ++ rest).length + 1) (uplinkStream tc rs ++ rest) tg =
      uplinkLoop tc (rest.length + 1) rest (rs.foldl (fun m r => m.set r.key r.value) tg) := by
  induction rs generalizing tg with
  | nil => rfl
  | cons r rs ih =>
    simp only [uplinkStream, List.append_assoc, List.foldl_cons]
    rw [uplinkLoop_record hd r (hc r (List.mem_cons_self _ _)) _ _ _ (by omega)]
    exact ih (fun x hx => hc x (List.mem_cons_of_mem _ hx)) _

theorem DecodeUplink_stream {tc : TypeCodes} (hd : tc.Distinct) (rs : List Record)
    (hc : ∀ r ∈ rs, r.Complete) (rest : List Byte) :
    DecodeUplink tc (uplinkStream tc rs ++ rest) =
      uplinkLoop tc (rest.length + 1) rest (uplinkMessage rs) :=
  uplinkLoop_stream hd rs hc rest []

/-! ## The downlink loop on a stream of records -/

theorem downlinkLoop_nil (fuel : Nat) (tg : DownlinkMessage) :
    downlinkLoop fuel [] tg = .ok tg := by
  cases fuel <;> rfl

theorem downlinkLoop_sentinel (fuel : Nat) (rest : List Byte) (tg : DownlinkMessage) :
    downlinkLoop (fuel + 1) (255 :: rest) tg = .ok tg := by
  rw [downlinkLoop, show (255 : Byte) :: rest = [255] ++ rest from rfl,
    ReadFull_append [255] rest 1 (by decide) rfl]
  rfl

theorem downlinkLoop_channel (fuel : Nat) (c : Byte) (hc : c ≠ 255) (rest : List Byte)
    (tg : DownlinkMessage) :
    downlinkLoop (fuel + 1) (c :: rest) tg =
      match readInt16 rest with
      | .error e => .error e
      | .ok (val, r2) =>
        downlinkLoop fuel r2 (tg.set c (.float32 (F32.div (F32.ofInt val) (F32.ofInt 100)))) := by
  rw [downlinkLoop, show c :: rest = [c] ++ rest from rfl,
    ReadFull_append [c] rest 1 (by decide) rfl]
  simp only [List.getD_cons_zero]
  rw [if_neg hc]

theorem downlinkLoop_slot (s : Slot) (hs : s.channel ≠ 255) (rest : List Byte)
    (tg : DownlinkMessage) (fuel : Nat) (hf : rest.length + 3 < fuel) :
    downlinkLoop fuel (s.channel :: s.hi :: s.lo :: rest) tg =
      downlinkLoop (rest.length + 1) rest (tg.set s.channel s.value) := by
  cases fuel with
  | zero => omega
  | succ n =>
    rw [downlinkLoop_channel n s.channel hs, readInt16_cons]
    simp only
    rw [show (100 : Int) = ((100 : Nat) : Int) from rfl,
      F32.div_ofInt (toInt16_natAbs_lt _) (by decide) (by decide), toInt16_beUint16 s.hi s.lo []]
    exact downlinkLoop_fuel _ _ _ _ (by omega) (by omega)

theorem downlinkLoop_stream (ss : List Slot) (hs : ∀ s ∈ ss, s.channel ≠ 255)
    (rest : List Byte) (tg : DownlinkMessage) :
    downlinkLoop ((downlinkStream ss ++ rest).length + 1) (downlinkStream ss ++ rest) tg =
      downlinkLoop (rest.length + 1) rest (ss.foldl (fun m s => m.set s.channel s.value) tg) := by
  induction ss generalizing tg with
  | nil => rfl
  | cons s ss ih =>
    simp only [downlinkStream, List.cons_append, List.foldl_cons]
    rw [downlinkLoop_slot s (hs s (List.mem_cons_self _ _)) _ _ _
      (by simp only [List.length_cons]; omega)]
    exact ih (fun x hx => hs x (List.mem_cons_of_mem _ hx)) _

theorem DecodeDownlink_stream (ss : List Slot) (hs : ∀ s ∈ ss, s.channel ≠ 255)
    (rest : List Byte) :
    DecodeDownlink (downlinkStream ss ++ rest) =
      downlinkLoop (rest.length + 1) rest (downlinkMessage ss) :=
  downlinkLoop_stream ss hs rest []

/-! ## Messages -/

theorem Msg.get_set_self {κ : Type} [DecidableEq κ] (m : Msg κ) (k : κ) (v : Value) :
    (m.set k v).get k = some v := by
  induction m with
  | nil => simp [Msg.set, Msg.get]
  | cons p m ih =>
    obtain ⟨k', v'⟩ := p
    unfold Msg.set
    by_cases h : k' = k
    · rw [if_pos h]; simp [Msg.get]
    · rw [if_neg h]; simp [Msg.get, h, ih]

theorem Msg.get_set_ne {κ : Type} [DecidableEq κ] (m : Msg κ) {k k' : κ} (v : Value)
    (hne : k ≠ k') : (m.set k v).get k' = m.get k' := by
  induction m with
  | nil => simp [Msg.set, Msg.get, hne]
  | cons p m ih =>
    obtain ⟨k0, v0⟩ := p
    unfold Msg.set
    by_cases h : k0 = k
    · rw [if_pos h]
      subst h
      simp [Msg.get, hne]
    · rw [if_neg h]
      by_cases h2 : k0 = k'
      · simp [Msg.get, h2]
      · simp [Msg.get, h2, ih]

theorem Msg.get_foldl_set_of_ne {κ α : Type} [DecidableEq κ] (key : α → κ) (val : α → Value)
    (l : List α) (m : Msg κ) (k : κ) (h : ∀ a ∈ l, key a ≠ k) :
    (l.foldl (fun m a => m.set (key a) (val a)) m).get k = m.get k := by
  induction l generalizing m with
  | nil => rfl
  | cons a l ih =>
    rw [List.foldl_cons, ih _ (fun x hx => h x (List.mem_cons_of_mem _ hx)),
      Msg.get_set_ne _ _ (h a (List.mem_cons_self _ _))]

theorem Msg.get_foldl_set_last {κ α : Type} [DecidableEq κ] (key : α → κ) (val : α → Value)
    (pre : List α) (a : α) (post : List α) (m : Msg κ) (h : ∀ b ∈ post, key b ≠ key a) :
    ((pre ++ a :: post).foldl (fun m a => m.set (key a) (val a)) m).get (key a) =
      some (val a) := by
  rw [List.foldl_append, List.foldl_cons, Msg.get_foldl_set_of_ne key val post _ _ h,
    Msg.get_set_self]

theorem Msg.get_foldl_set {κ α : Type} [DecidableEq κ] (key : α → κ) (val : α → Value)
    (l : List α) (k : κ) :
    Msg.get (l.foldl (fun (m : Msg κ) a => Msg.set m (key a) (val a)) []) k =
      (l.reverse.find? (fun a => decide (key a = k))).map val := by
  induction l using List.reverseRecOn with
  | nil => rfl
  | append_singleton l a ih =>
    rw [List.foldl_append, List.reverse_append]
    simp only [List.foldl_cons, List.foldl_nil, List.reverse_cons, List.reverse_nil,
      List.nil_append, List.singleton_append, List.find?_cons]
    by_cases h : key a = k
    · subst h
      simp [Msg.get_set_self]
    · rw [Msg.get_set_ne _ _ h, ih]
      simp [h]

/-! ## Truncated streams and unknown types -/

theorem uplinkLoop_unknown {tc : TypeCodes} {t : Byte} (ht : tc.Unknown t) (fuel : Nat)
    (c : Byte) (rest : List Byte) (tg : UplinkMessage) :
    uplinkLoop tc (fuel + 1) (c :: t :: rest) tg = .error .ErrInvalidChannel := by
  rw [uplinkLoop_header, decodeRecord_unknown ht]

theorem downlinkLoop_lone_channel (fuel : Nat) (c : Byte) (hc : c ≠ 255) (tg : DownlinkMessage) :
    downlinkLoop (fuel + 1) [c] tg = .error .EOF := by
  rw [downlinkLoop_channel fuel c hc]
  rfl

theorem downlinkLoop_half_value (fuel : Nat) (c : Byte) (hc : c ≠ 255) (b : Byte)
    (tg : DownlinkMessage) :
    downlinkLoop (fuel + 1) [c, b] tg = .error .ErrUnexpectedEOF := by
  rw [downlinkLoop_channel fuel c hc]
  rfl

theorem DecodeDownlink_truncated (ss : List Slot) (hs : ∀ s ∈ ss, s.channel ≠ 255) (c : Byte)
    (hc : c ≠ 255) :
    DecodeDownlink (downlinkStream ss ++ [c]) = .error .EOF ∧
      ∀ b : Byte, DecodeDownlink (downlinkStream ss ++ [c, b]) = .error .ErrUnexpectedEOF := by
  constructor
  · rw [DecodeDownlink_stream ss hs]
    exact downlinkLoop_lone_channel _ c hc _
  · intro b
    rw [DecodeDownlink_stream ss hs]
    exact downlinkLoop_half_value _ c hc b _

theorem DecodeUplink_single {tc : TypeCodes} (hd : tc.Distinct) (r : Record) (hc : r.Complete) :
    DecodeUplink tc (r.bytes tc) = .ok [(r.key, r.value)] := by
  have h := DecodeUplink_stream hd [r] (by simpa using hc) []
  simp only [uplinkStream, List.append_nil] at h
  rw [h]
  rfl

theorem unsigned16At_writeUint16 (v : Fin 65536) : unsigned16At (writeUint16 v.val) 0 = v.val := by
  have := v.isLt
  simp only [unsigned16At, writeUint16, toByte, List.getD_cons_zero, List.getD_cons_succ]
  omega

/-! ## The round trip of the scaled types -/

theorem toInt16_floatToUint16 {f : F32} (h1 : -32768 ≤ F32.trunc f) (h2 : F32.trunc f ≤ 32767) :
    toInt16 (floatToUint16 f) = F32.trunc f := by
  unfold toInt16 floatToUint16 floatToInt32
  generalize F32.trunc f = t at h1 h2
  have hc : -2147483648 ≤ t ∧ t ≤ 2147483647 := by omega
  rw [if_pos hc]
  split_ifs <;> omega

theorem floatToUint16_lt (f : F32) : floatToUint16 f < 65536 := by
  unfold floatToUint16
  omega

theorem signed16At_writeUint16 {w : Nat} (hw : w < 65536) (l : List Byte) :
    signed16At (writeUint16 w ++ l) 0 = toInt16 w := by
  simp only [signed16At, unsigned16At, writeUint16, toByte, toInt16, List.cons_append,
    List.nil_append, List.getD_cons_zero, List.getD_cons_succ, zero_add]
  split_ifs <;> omega

theorem signed16At_encode {f : F32} (h1 : -32768 ≤ F32.trunc f) (h2 : F32.trunc f ≤ 32767)
    (l : List Byte) : signed16At (writeUint16 (floatToUint16 f) ++ l) 0 = F32.trunc f := by
  rw [signed16At_writeUint16 (floatToUint16_lt f), toInt16_floatToUint16 h1 h2]

theorem toByte_floatToUint8 {f : F32} (h1 : 0 ≤ F32.trunc f) (h2 : F32.trunc f ≤ 255) :
    (((toByte (floatToUint8 f)).val : Nat) : Int) = F32.trunc f := by
  unfold toByte floatToUint8 floatToInt32
  generalize F32.trunc f = t at h1 h2
  have hc : -2147483648 ≤ t ∧ t ≤ 2147483647 := by omega
  rw [if_pos hc]
  simp only
  omega

/-- A value within the range of a 16-bit signed wire integer at the scale `s` comes back from
the wire as the round trip says. -/
theorem roundTrip16 {s : Nat} (hs : 0 < s) (hs' : s < 2 ^ 24) (v : F32)
    (hv : v.InRange (-32768 / s) (32767 / s)) (l : List Byte) :
    F32.RoundTrip s v
      (F32.ofRatio (signed16At (writeUint16 (floatToUint16 (F32.mul v (F32.ofInt s))) ++ l) 0)
        s) := by
  have hv' : v.InRange (-((32768 : Nat) : ℚ) / s) (((32767 : Nat) : ℚ) / s) := by
    simpa using hv
  obtain ⟨h1, h2, h3⟩ := F32.roundTrip_of_range hs hs' (le_refl _) (le_refl _) v hv'
  rw [signed16At_encode (by simpa using h1) (by simpa using h2)]
  exact h3

/-- A value within the range of an 8-bit unsigned wire integer at the scale `s` comes back from
the wire as the round trip says. -/
theorem roundTrip8 {s : Nat} (hs : 0 < s) (hs' : s < 2 ^ 24) (v : F32)
    (hv : v.InRange 0 (255 / s)) :
    F32.RoundTrip s v
      (F32.ofRatio ((toByte (floatToUint8 (F32.mul v (F32.ofInt s)))).val : Nat) s) := by
  have hv' : v.InRange (-((0 : Nat) : ℚ) / s) (((255 : Nat) : ℚ) / s) := by
    simpa using hv
  obtain ⟨h1, h2, h3⟩ := F32.roundTrip_of_range hs hs' (by norm_num) (by norm_num) v hv'
  rw [toByte_floatToUint8 (by simpa using h1) (by simpa using h2)]
  exact h3

theorem F32.toRat_mk (u : Int) : F32.toRat ⟨u⟩ = (u : ℚ) / 2 ^ 149 := rfl

/-! ## Keys -/

set_option maxRecDepth 100000 in
theorem decimalValue_repr : ∀ c : Byte, decimalValue (Nat.repr c.val).data = c.val := by
  decide

set_option maxRecDepth 100000 in
theorem underscore_not_mem_repr : ∀ c : Byte, '_' ∉ (Nat.repr c.val).data := by
  decide

theorem repr_byte_injective {a b : Byte} (h : Nat.repr a.val = Nat.repr b.val) : a = b := by
  have h1 := decimalValue_repr a
  rw [h, decimalValue_repr b] at h1
  exact Fin.ext h1.symm

theorem append_cons_inj_of_not_mem {α : Type} {x : α} :
    ∀ {l1 l2 r1 r2 : List α}, x ∉ r1 → x ∉ r2 → l1 ++ x :: r1 = l2 ++ x :: r2 →
      l1 = l2 ∧ r1 = r2 := by
  intro l1
  induction l1 with
  | nil =>
    intro l2 r1 r2 h1 h2 h
    cases l2 with
    | nil => simpa using h
    | cons y l2 =>
      simp only [List.nil_append, List.cons_append, List.cons.injEq] at h
      obtain ⟨rfl, rfl⟩ := h
      exact absurd (by simp) h1
  | cons a l1 ih =>
    intro l2 r1 r2 h1 h2 h
    cases l2 with
    | nil =>
      simp only [List.nil_append, List.cons_append, List.cons.injEq] at h
      obtain ⟨rfl, rfl⟩ := h
      exact absurd (by simp) h2
    | cons y l2 =>
      simp only [List.cons_append, List.cons.injEq] at h
      obtain ⟨rfl, h⟩ := h
      obtain ⟨e1, e2⟩ := ih h1 h2 h
      exact ⟨by rw [e1], e2⟩

theorem SensorType.name_injective {a b : SensorType} (h : a.name = b.name) : a = b := by
  revert h
  cases a <;> cases b <;> decide

/-- The key of a type and a channel determines both. -/
theorem uplinkKey_injective {ty ty' : SensorType} {c c' : Byte}
    (h : uplinkKey ty c = uplinkKey ty' c') : ty = ty' ∧ c = c' := by
  unfold uplinkKey at h
  rw [String.ext_iff] at h
  simp only [String.data_append] at h
  rw [List.append_assoc, List.append_assoc] at h
  simp only [List.singleton_append] at h
  obtain ⟨h1, h2⟩ := append_cons_inj_of_not_mem (underscore_not_mem_repr c)
    (underscore_not_mem_repr c') h
  exact ⟨SensorType.name_injective (String.ext_iff.mpr h1),
    repr_byte_injective (String.ext_iff.mpr h2)⟩

theorem Record.key_eq_iff (r1 r2 : Record) :
    r1.key = r2.key ↔ r1.type = r2.type ∧ r1.channel = r2.channel := by
  constructor
  · exact uplinkKey_injective
  · rintro ⟨h1, h2⟩
    unfold Record.key
    rw [h1, h2]

/-! ## The number of entries of a message -/

theorem Msg.length_set_of_get_none {κ : Type} [DecidableEq κ] (m : Msg κ) (k : κ) (v : Value)
    (h : m.get k = none) : (m.set k v).length = m.length + 1 := by
  induction m with
  | nil => rfl
  | cons p m ih =>
    obtain ⟨k', v'⟩ := p
    unfold Msg.get at h
    by_cases hk : k' = k
    · rw [if_pos hk] at h
      cases h
    · rw [if_neg hk] at h
      unfold Msg.set
      rw [if_neg hk]
      simp only [List.length_cons, ih h]

theorem Msg.length_set_of_get_some {κ : Type} [DecidableEq κ] (m : Msg κ) (k : κ) (v : Value)
    (h : m.get k ≠ none) : (m.set k v).length = m.length := by
  induction m with
  | nil => exact absurd rfl h
  | cons p m ih =>
    obtain ⟨k', v'⟩ := p
    unfold Msg.set
    by_cases hk : k' = k
    · rw [if_pos hk]
      rfl
    · rw [if_neg hk]
      unfold Msg.get at h
      rw [if_neg hk] at h
      simp only [List.length_cons, ih h]

theorem Msg.length_foldl_set {κ α : Type} [DecidableEq κ] (key : α → κ) (val : α → Value)
    (l : List α) (h : (l.map key).Nodup) :
    (l.foldl (fun (m : Msg κ) a => Msg.set m (key a) (val a)) []).length = l.length := by
  induction l using List.reverseRecOn with
  | nil => rfl
  | append_singleton l a ih =>
    rw [List.map_append, List.nodup_append] at h
    obtain ⟨h1, -, h3⟩ := h
    rw [List.foldl_append, List.foldl_cons, List.foldl_nil, List.length_append,
      List.length_singleton]
    rw [Msg.length_set_of_get_none, ih h1]
    rw [Msg.get_foldl_set]
    have : l.reverse.find? (fun b => decide (key b = key a)) = none := by
      rw [List.find?_eq_none]
      intro b hb
      simp only [decide_eq_true_eq]
      intro hkey
      exact h3 (List.mem_map_of_mem key (List.mem_reverse.mp hb)) (by simp [hkey])
    rw [this]
    rfl

/-! ## Messages as maps -/

theorem Msg.keys_set {κ : Type} [DecidableEq κ] (m : Msg κ) (k : κ) (v : Value) (k' : κ) :
    k' ∈ (m.set k v).map Prod.fst ↔ k' = k ∨ k' ∈ m.map Prod.fst := by
  induction m with
  | nil => simp [Msg.set]
  | cons p m ih =>
    obtain ⟨k0, v0⟩ := p
    unfold Msg.set
    by_cases h : k0 = k
    · rw [if_pos h]
      subst h
      simp
    · rw [if_neg h]
      simp only [List.map_cons, List.mem_cons, ih]
      tauto

theorem Msg.nodup_keys_set {κ : Type} [DecidableEq κ] (m : Msg κ) (k : κ) (v : Value)
    (h : (m.map Prod.fst).Nodup) : ((m.set k v).map Prod.fst).Nodup := by
  induction m with
  | nil => simp [Msg.set]
  | cons p m ih =>
    obtain ⟨k0, v0⟩ := p
    rw [List.map_cons, List.nodup_cons] at h
    unfold Msg.set
    by_cases hk : k0 = k
    · rw [if_pos hk]
      subst hk
      rw [List.map_cons, List.nodup_cons]
      exact h
    · rw [if_neg hk, List.map_cons, List.nodup_cons]
      refine ⟨?_, ih h.2⟩
      rw [Msg.keys_set]
      rintro (h1 | h1)
      · exact hk h1
      · exact h.1 h1

theorem Msg.nodup_keys_foldl {κ α : Type} [DecidableEq κ] (key : α → κ) (val : α → Value)
    (l : List α) (m : Msg κ) (h : (m.map Prod.fst).Nodup) :
    ((l.foldl (fun (m : Msg κ) a => Msg.set m (key a) (val a)) m).map Prod.fst).Nodup := by
  induction l generalizing m with
  | nil => exact h
  | cons a l ih => exact ih _ (Msg.nodup_keys_set m _ _ h)

theorem Msg.mem_iff_get {κ : Type} [DecidableEq κ] (m : Msg κ) (h : (m.map Prod.fst).Nodup)
    (k : κ) (v : Value) : (k, v) ∈ m ↔ m.get k = some v := by
  induction m with
  | nil => simp [Msg.get]
  | cons p m ih =>
    obtain ⟨k0, v0⟩ := p
    rw [List.map_cons, List.nodup_cons] at h
    unfold Msg.get
    by_cases hk : k0 = k
    · rw [if_pos hk]
      subst hk
      simp only [List.mem_cons, Prod.mk.injEq, true_and, Option.some.injEq]
      constructor
      · rintro (h1 | h1)
        · exact h1.symm
        · exact absurd (List.mem_map_of_mem Prod.fst h1) h.1
      · intro h1
        exact Or.inl h1.symm
    · rw [if_neg hk, ← ih h.2]
      simp only [List.mem_cons, Prod.mk.injEq]
      constructor
      · rintro (⟨h1, -⟩ | h1)
        · exact absurd h1.symm hk
        · exact h1
      · intro h1
        exact Or.inr h1

/-- Two messages with the same value for every key hold the same pairs. -/
theorem Msg.perm_of_get_eq {κ : Type} [DecidableEq κ] (m m' : Msg κ)
    (h : (m.map Prod.fst).Nodup) (h' : (m'.map Prod.fst).Nodup)
    (hget : ∀ k, m.get k = m'.get k) : List.Perm m m' := by
  rw [List.perm_ext_iff_of_nodup (List.Nodup.of_map _ h) (List.Nodup.of_map _ h')]
  rintro ⟨k, v⟩
  rw [Msg.mem_iff_get m h, Msg.mem_iff_get m' h', hget]

theorem uplinkMessage_nodup (rs : List Record) : ((uplinkMessage rs).map Prod.fst).Nodup :=
  Msg.nodup_keys_foldl Record.key Record.value rs [] List.nodup_nil

theorem DecodeUplink_uplinkStream {tc : TypeCodes} (hd : tc.Distinct) (rs : List Record)
    (hc : ∀ r ∈ rs, r.Complete) : DecodeUplink tc (uplinkStream tc rs) = .ok (uplinkMessage rs) := by
  have h := DecodeUplink_stream hd rs hc []
  rw [List.append_nil] at h
  rw [h]
  rfl

/-- Removing a record that a later record of the same key follows does not change the value of
any key. -/
theorem uplinkMessage_remove (pre : List Record) (r1 : Record) (mid : List Record) (r2 : Record)
    (post : List Record) (hk : r1.key = r2.key) (k : String) :
    (uplinkMessage (pre ++ r1 :: (mid ++ r2 :: post))).get k =
      (uplinkMessage (pre ++ (mid ++ r2 :: post))).get k := by
  unfold uplinkMessage
  rw [Msg.get_foldl_set, Msg.get_foldl_set]
  congr 1
  simp only [List.reverse_append, List.reverse_cons, List.append_assoc, List.find?_append,
    List.singleton_append, List.find?_cons, List.find?_nil]
  by_cases h2 : r2.key = k
  · simp [h2]
  · have h1 : ¬ r1.key = k := by rw [hk]; exact h2
    simp [h1, h2]

/-! ## Streams that are cut short -/

theorem ReadFull_error_of_lt {r : List Byte} {n : Nat} (h : r.length < n) :
    ∃ e, ReadFull r n = .error e := by
  unfold ReadFull
  have h0 : ¬ n = 0 := by omega
  rw [if_neg h0]
  by_cases h1 : r.length = 0
  · rw [if_pos h1]; exact ⟨_, rfl⟩
  · rw [if_neg h1, if_pos h]; exact ⟨_, rfl⟩

theorem ReadFull_eof {r : List Byte} {n : Nat} (h : ReadFull r n = .error .EOF) : r = [] := by
  unfold ReadFull at h
  split_ifs at h with h0 h1 h2
  · exact List.length_eq_zero.mp h1
  · cases h

theorem ReadFull_two {r buf r1 : List Byte} (h : ReadFull r 2 = .ok (buf, r1)) :
    r = [buf.getD 0 0, buf.getD 1 0] ++ r1 := by
  rcases r with _ | ⟨a, _ | ⟨b, r⟩⟩
  · cases h
  · cases h
  · rw [show a :: b :: r = [a, b] ++ r from rfl, ReadFull_append [a, b] r 2 (by decide) rfl] at h
    simp only [Except.ok.injEq, Prod.mk.injEq] at h
    obtain ⟨rfl, rfl⟩ := h
    rfl

theorem readUint8_error_of_lt {r : List Byte} (h : r.length < 1) :
    ∃ e, readUint8 r = .error e := by
  obtain ⟨e, he⟩ := ReadFull_error_of_lt h
  exact ⟨e, by rw [readUint8, he]⟩

theorem readUint16_error_of_lt {r : List Byte} (h : r.length < 2) :
    ∃ e, readUint16 r = .error e := by
  obtain ⟨e, he⟩ := ReadFull_error_of_lt h
  exact ⟨e, by rw [readUint16, he]⟩

theorem readInt16_error_of_lt {r : List Byte} (h : r.length < 2) :
    ∃ e, readInt16 r = .error e := by
  obtain ⟨e, he⟩ := ReadFull_error_of_lt h
  exact ⟨e, by rw [readInt16, he]⟩

theorem uint8Step_short {r : List Byte} (k : Nat → UplinkMessage) (h : r.length < 1) :
    ∃ e, (match readUint8 r with
      | .error e => (.error e : Except Err (List Byte × UplinkMessage))
      | .ok (val, r1) => .ok (r1, k val)) = .error e := by
  obtain ⟨e, he⟩ := readUint8_error_of_lt h
  exact ⟨e, by rw [he]⟩

theorem uint16Step_short {r : List Byte} (k : Nat → UplinkMessage) (h : r.length < 2) :
    ∃ e, (match readUint16 r with
      | .error e => (.error e : Except Err (List Byte × UplinkMessage))
      | .ok (val, r1) => .ok (r1, k val)) = .error e := by
  obtain ⟨e, he⟩ := readUint16_error_of_lt h
  exact ⟨e, by rw [he]⟩

theorem int16Step_short {r : List Byte} (k : Int → UplinkMessage) (h : r.length < 2) :
    ∃ e, (match readInt16 r with
      | .error e => (.error e : Except Err (List Byte × UplinkMessage))
      | .ok (val, r1) => .ok (r1, k val)) = .error e := by
  obtain ⟨e, he⟩ := readInt16_error_of_lt h
  exact ⟨e, by rw [he]⟩

theorem int16x3Step_short {r : List Byte} (k : Int → Int → Int → UplinkMessage)
    (h : r.length < 6) :
    ∃ e, (match readInt16 r with
      | .error e => (.error e : Except Err (List Byte × UplinkMessage))
      | .ok (valX, r1) =>
        match readInt16 r1 with
        | .error e => .error e
        | .ok (valY, r2) =>
          match readInt16 r2 with
          | .error e => .error e
          | .ok (valZ, r3) => .ok (r3, k valX valY valZ)) = .error e := by
  cases h1 : readInt16 r with
  | error e => exact ⟨e, rfl⟩
  | ok p1 =>
    obtain ⟨v1, r1⟩ := p1
    have l1 := readInt16_length h1
    simp only
    cases h2 : readInt16 r1 with
    | error e => exact ⟨e, rfl⟩
    | ok p2 =>
      obtain ⟨v2, r2⟩ := p2
      have l2 := readInt16_length h2
      simp only
      obtain ⟨e, he⟩ := readInt16_error_of_lt (r := r2) (by omega)
      exact ⟨e, by rw [he]⟩

theorem decodePayload_short (ty : SensorType) {r : List Byte} (c : Byte) (tg : UplinkMessage)
    (h : r.length < ty.width) : ∃ e, decodePayload ty r c tg = .error e := by
  cases ty
  case DigitalInput => exact uint8Step_short _ h
  case DigitalOutput => exact uint8Step_short _ h
  case AnalogInput => exact int16Step_short _ h
  case AnalogOutput => exact int16Step_short _ h
  case Luminosity => exact uint16Step_short _ h
  case Presence => exact uint8Step_short _ h
  case Temperature => exact int16Step_short _ h
  case RelativeHumidity => exact uint8Step_short _ h
  case Accelerometer => exact int16x3Step_short _ h
  case BarometricPressure => exact int16Step_short _ h
  case Gyrometer => exact int16x3Step_short _ h
  case GPS =>
    obtain ⟨e, he⟩ := ReadFull_error_of_lt (n := 9) h
    exact ⟨e, by simp only [decodePayload, decodeGPS, he]⟩

/-- A type byte is the code of a type or of none. -/
theorem TypeCodes.code_or_unknown (tc : TypeCodes) (t : Byte) :
    (∃ ty, t = tc.code ty) ∨ tc.Unknown t := by
  by_cases h : ∃ ty, t = tc.code ty
  · exact Or.inl h
  · right
    intro ty _ hty
    exact h ⟨ty, hty⟩

/-- What a successful decoding of a record read: a complete payload of a known type. -/
theorem decodeRecord_ok {tc : TypeCodes} (hd : tc.Distinct) {r : List Byte} {c t : Byte}
    {tg : UplinkMessage} {r2 : List Byte} {tg2 : UplinkMessage}
    (h : decodeRecord tc r c t tg = .ok (r2, tg2)) :
    ∃ rec : Record, rec.Complete ∧ rec.channel = c ∧ t = tc.code rec.type ∧
      r = rec.payload ++ r2 ∧ tg2 = tg.set rec.key rec.value := by
  rcases tc.code_or_unknown t with ⟨ty, rfl⟩ | hu
  · rw [decodeRecord_code hd] at h
    have hlen : ty.width ≤ r.length := by
      by_contra hlt
      obtain ⟨e, he⟩ := decodePayload_short ty c tg (not_le.mp hlt)
      rw [he] at h
      cases h
    have hcomp : (Record.mk c ty (r.take ty.width)).Complete := by
      unfold Record.Complete
      simp only [List.length_take]
      omega
    have hfw := decodePayload_complete ⟨c, ty, r.take ty.width⟩ hcomp (r.drop ty.width) tg
    simp only [List.take_append_drop] at hfw
    rw [hfw] at h
    simp only [Except.ok.injEq, Prod.mk.injEq] at h
    obtain ⟨h1, h2⟩ := h
    refine ⟨⟨c, ty, r.take ty.width⟩, hcomp, rfl, rfl, ?_, h2.symm⟩
    rw [← h1]
    exact (List.take_append_drop _ _).symm
  · rw [decodeRecord_unknown hu] at h
    cases h

theorem uplinkStream_append (tc : TypeCodes) (rs1 rs2 : List Record) :
    uplinkStream tc (rs1 ++ rs2) = uplinkStream tc rs1 ++ uplinkStream tc rs2 := by
  induction rs1 with
  | nil => rfl
  | cons r rs ih =>
    show r.bytes tc ++ uplinkStream tc (rs ++ rs2) =
      (r.bytes tc ++ uplinkStream tc rs) ++ uplinkStream tc rs2
    rw [ih, List.append_assoc]

/-- A successful run of the uplink loop read a stream of complete records, and stored them. -/
theorem uplinkLoop_ok_records {tc : TypeCodes} (hd : tc.Distinct) :
    ∀ (fuel : Nat) (r : List Byte) (tg m : UplinkMessage), r.length < fuel →
      uplinkLoop tc fuel r tg = .ok m →
      ∃ rs : List Record, (∀ x ∈ rs, x.Complete) ∧ r = uplinkStream tc rs ∧
        m = rs.foldl (fun m x => m.set x.key x.value) tg := by
  intro fuel
  induction fuel with
  | zero => intro r tg m h; omega
  | succ n ih =>
    intro r tg m hlen h
    rw [uplinkLoop] at h
    cases hr : ReadFull r 2 with
    | error e =>
      rw [hr] at h
      cases e
      · simp only [Except.ok.injEq] at h
        exact ⟨[], by simp, by rw [ReadFull_eof hr]; rfl, h.symm⟩
      · cases h
      · cases h
    | ok p =>
      obtain ⟨buf, r1⟩ := p
      rw [hr] at h
      simp only at h
      obtain ⟨hl1, hl2⟩ := ReadFull_length hr
      cases hdec : decodeRecord tc r1 (buf.getD 0 0) (buf.getD 1 0) tg with
      | error e =>
        rw [hdec] at h
        cases h
      | ok q =>
        obtain ⟨r2, tg2⟩ := q
        rw [hdec] at h
        simp only at h
        have hl3 := decodeRecord_length hdec
        obtain ⟨rec, hc, hch, hty, hr1, htg⟩ := decodeRecord_ok hd hdec
        obtain ⟨rs, hrs1, hrs2, hrs3⟩ := ih r2 tg2 m (by omega) h
        refine ⟨rec :: rs, ?_, ?_, ?_⟩
        · intro x hx
          rcases List.mem_cons.mp hx with rfl | hx
          · exact hc
          · exact hrs1 x hx
        · have hbuf := ReadFull_two hr
          rw [hbuf, hr1, hrs2]
          simp only [uplinkStream, Record.bytes, hch, ← hty, List.cons_append, List.nil_append]
        · rw [hrs3, htg]
          rfl

/-! ## The reader after the uplink loop -/

theorem uplinkLoopReader_snd (tc : TypeCodes) :
    ∀ (fuel : Nat) (r : List Byte) (tg : UplinkMessage),
      uplinkLoop tc fuel r tg =
        match uplinkLoopReader tc fuel r tg with
        | .error e => .error e
        | .ok (_, m) => .ok m := by
  intro fuel
  induction fuel with
  | zero => intro r tg; rfl
  | succ n ih =>
    intro r tg
    rw [uplinkLoop, uplinkLoopReader]
    cases hr : ReadFull r 2 with
    | error e => cases e <;> rfl
    | ok p =>
      obtain ⟨buf, r1⟩ := p
      simp only
      cases hdec : decodeRecord tc r1 (buf.getD 0 0) (buf.getD 1 0) tg with
      | error e => rfl
      | ok q =>
        obtain ⟨r2, tg2⟩ := q
        simp only
        exact ih r2 tg2

theorem uplinkLoopReader_rest (tc : TypeCodes) :
    ∀ (fuel : Nat) (r : List Byte) (tg : UplinkMessage) (rest : List Byte) (m : UplinkMessage),
      r.length < fuel → uplinkLoopReader tc fuel r tg = .ok (rest, m) → rest = [] := by
  intro fuel
  induction fuel with
  | zero => intro r tg rest m h; omega
  | succ n ih =>
    intro r tg rest m hlen h
    rw [uplinkLoopReader] at h
    cases hr : ReadFull r 2 with
    | error e =>
      rw [hr] at h
      cases e
      · simp only [Except.ok.injEq, Prod.mk.injEq] at h
        rw [← h.1]
        exact ReadFull_eof hr
      · cases h
      · cases h
    | ok p =>
      obtain ⟨buf, r1⟩ := p
      rw [hr] at h
      simp only at h
      have hl1 := (ReadFull_length hr).1
      cases hdec : decodeRecord tc r1 (buf.getD 0 0) (buf.getD 1 0) tg with
      | error e =>
        rw [hdec] at h
        cases h
      | ok q =>
        obtain ⟨r2, tg2⟩ := q
        rw [hdec] at h
        simp only at h
        have hl3 := decodeRecord_length hdec
        exact ih r2 tg2 rest m (by omega) h

/-- When `DecodeUplink` returns a message, the reader is empty. -/
theorem DecodeUplinkReader_of_ok (tc : TypeCodes) (r : List Byte) (m : UplinkMessage)
    (h : DecodeUplink tc r = .ok m) : DecodeUplinkReader tc r = .ok ([], m) := by
  unfold DecodeUplink at h
  unfold DecodeUplinkReader
  rw [uplinkLoopReader_snd] at h
  cases hq : uplinkLoopReader tc (r.length + 1) r [] with
  | error e =>
    rw [hq] at h
    cases h
  | ok q =>
    obtain ⟨rest, m'⟩ := q
    rw [hq] at h
    simp only [Except.ok.injEq] at h
    rw [uplinkLoopReader_rest tc _ r [] rest m' (by omega) hq, h]

theorem DecodeUplink_ok_records {tc : TypeCodes} (hd : tc.Distinct) {r : List Byte}
    {m : UplinkMessage} (h : DecodeUplink tc r = .ok m) :
    ∃ rs : List Record, (∀ x ∈ rs, x.Complete) ∧ r = uplinkStream tc rs ∧ m = uplinkMessage rs :=
  uplinkLoop_ok_records hd _ r [] m (by omega) h

theorem Except.ok_or_error {ε α : Type} (x : Except ε α) : (∃ a, x = .ok a) ∨ ∃ e, x = .error e := by
  cases x with
  | ok a => exact Or.inl ⟨a, rfl⟩
  | error e => exact Or.inr ⟨e, rfl⟩

/-! ## Concatenation of streams, sequences of calls -/

theorem Msg.get_foldl_set_union {κ α : Type} [DecidableEq κ] (key : α → κ) (val : α → Value)
    (l : List α) (m : Msg κ) (k : κ) :
    Msg.get (l.foldl (fun (m : Msg κ) a => Msg.set m (key a) (val a)) m) k =
      match Msg.get (l.foldl (fun (m : Msg κ) a => Msg.set m (key a) (val a)) []) k with
      | some v => some v
      | none => Msg.get m k := by
  induction l using List.reverseRecOn with
  | nil => rfl
  | append_singleton l a ih =>
    rw [List.foldl_append, List.foldl_append]
    simp only [List.foldl_cons, List.foldl_nil]
    by_cases h : key a = k
    · subst h
      rw [Msg.get_set_self, Msg.get_set_self]
    · rw [Msg.get_set_ne _ _ h, Msg.get_set_ne _ _ h, ih]

theorem Msg.get_foldl_set_findSome {κ α : Type} [DecidableEq κ] (key : α → κ) (val : α → Value)
    (l : List α) (k : κ) :
    Msg.get (l.foldl (fun (m : Msg κ) a => Msg.set m (key a) (val a)) []) k =
      l.reverse.findSome? (fun a => Msg.get [(key a, val a)] k) := by
  induction l using List.reverseRecOn with
  | nil => rfl
  | append_singleton l a ih =>
    rw [List.foldl_append, List.reverse_append]
    simp only [List.foldl_cons, List.foldl_nil, List.reverse_cons, List.reverse_nil,
      List.nil_append, List.singleton_append, List.findSome?_cons]
    by_cases h : key a = k
    · subst h
      simp [Msg.get_set_self, Msg.get]
    · rw [Msg.get_set_ne _ _ h, ih]
      simp [Msg.get, h]

theorem uplinkMessage_append (rs1 rs2 : List Record) (k : String) :
    (uplinkMessage (rs1 ++ rs2)).get k =
      match (uplinkMessage rs2).get k with
      | some v => some v
      | none => (uplinkMessage rs1).get k := by
  unfold uplinkMessage
  rw [List.foldl_append]
  exact Msg.get_foldl_set_union _ _ rs2 _ k

theorem AddCall.run_eq (tc : TypeCodes) (e : List Byte) (call : AddCall) :
    call.run tc e = e ++ call.record.bytes tc := by
  cases call <;>
    simp [AddCall.run, AddCall.record, Record.bytes, TypeCodes.code, AddDigitalInput,
      AddDigitalOutput, AddAnalogInput, AddAnalogOutput, AddLuminosity, AddPresence,
      AddTemperature, AddRelativeHumidity, AddAccelerometer, AddBarometricPressure, AddGyrometer,
      AddGPS]

theorem AddCall.record_complete (call : AddCall) : call.record.Complete := by
  cases call <;> rfl

theorem AddCall.foldl_run (tc : TypeCodes) (calls : List AddCall) (e : List Byte) :
    calls.foldl (AddCall.run tc) e = e ++ uplinkStream tc (calls.map AddCall.record) := by
  induction calls generalizing e with
  | nil => simp [uplinkStream]
  | cons call calls ih =>
    rw [List.foldl_cons, ih, AddCall.run_eq]
    simp [uplinkStream]

theorem AddCall.message_eq {tc : TypeCodes} (hd : tc.Distinct) (call : AddCall) :
    call.message tc = [(call.record.key, call.record.value)] := by
  unfold AddCall.message Bytes NewEncoder
  rw [AddCall.run_eq, List.nil_append, DecodeUplink_single hd _ call.record_complete]

/-! ## Values outside the wire range -/

theorem floatToUint16_of_int32 {f : F32}
    (h : -2147483648 ≤ F32.trunc f ∧ F32.trunc f ≤ 2147483647) :
    floatToUint16 f = (F32.trunc f % 65536).toNat := by
  unfold floatToUint16 floatToInt32
  rw [if_pos h]

theorem floatToUint8_of_int32 {f : F32}
    (h : -2147483648 ≤ F32.trunc f ∧ F32.trunc f ≤ 2147483647) :
    floatToUint8 f = (F32.trunc f % 256).toNat := by
  unfold floatToUint8 floatToInt32
  rw [if_pos h]

theorem writeUint24_mod (t : Int) :
    writeUint24 (t % 4294967296).toNat = writeUint24 (t % 16777216).toNat := by
  unfold writeUint24 toByte
  simp only [List.cons.injEq, Fin.mk.injEq, and_true]
  refine ⟨?_, ?_, ?_⟩ <;> omega

theorem writeUint24_floatToUint32 {f : F32}
    (h : -9223372036854775808 ≤ F32.trunc f ∧ F32.trunc f ≤ 9223372036854775807) :
    writeUint24 (floatToUint32 f) = writeUint24 (F32.trunc f % 16777216).toNat := by
  unfold floatToUint32 floatToInt64
  rw [if_pos h, writeUint24_mod]

/-! ## The round trip of a 24-bit wire integer -/

namespace F32

/-- The `float32` nearest to a whole number of at most `2^23`, divided by `s`: times `s`, it is
within `2^148` units of the whole number. -/
theorem roundMag_close24 {T s : Nat} (hs : 0 < s) (hs' : s < 2 ^ 24) (hT : T ≤ 2 ^ 23) :
    roundMag (T * one) s * s ≤ T * one + 2 ^ 148 ∧
      T * one ≤ roundMag (T * one) s * s + 2 ^ 148 := by
  unfold roundMag
  obtain ⟨_, h2⟩ := dropBits_spec (T * one / s)
  generalize dropBits (T * one / s) = e at h2
  have hD : 0 < s * 2 ^ e := by positivity
  obtain ⟨e1, e2⟩ := rne_error (T * one) hD
  have hbound : s * 2 ^ e ≤ 2 ^ 149 := by
    rcases Nat.eq_zero_or_pos e with h0 | hpos
    · rw [h0, pow_zero, mul_one]
      calc s ≤ 2 ^ 24 := le_of_lt hs'
        _ ≤ 2 ^ 149 := Nat.pow_le_pow_right (by norm_num) (by norm_num)
    · have h3 := h2 hpos
      have h4 : T * one / s * s ≤ T * one := Nat.div_mul_le_self _ _
      have h5 : 2 ^ 23 * 2 ^ e * s ≤ T * one := le_trans (Nat.mul_le_mul_right s h3) h4
      have h6 : T * one ≤ 2 ^ 23 * 2 ^ 149 := by
        unfold one
        exact Nat.mul_le_mul_right _ hT
      have h8 : 2 ^ 23 * (s * 2 ^ e) ≤ 2 ^ 23 * 2 ^ 149 := by
        calc 2 ^ 23 * (s * 2 ^ e) = 2 ^ 23 * 2 ^ e * s := by ring
          _ ≤ T * one := h5
          _ ≤ 2 ^ 23 * 2 ^ 149 := h6
      exact Nat.le_of_mul_le_mul_left h8 (by positivity)
  have h9 : rne (T * one) (s * 2 ^ e) * 2 ^ e * s = rne (T * one) (s * 2 ^ e) * (s * 2 ^ e) := by
    ring
  rw [h9]
  have h10 : (2 : Nat) ^ 149 = 2 * 2 ^ 148 := by norm_num
  omega

/-- The `float32` nearest to `t / s`, for a 24-bit `t`: times `s`, it is within `2^148` units
of `t`. -/
theorem ofRatio_close24 {t : Int} {s : Nat} (hs : 0 < s) (hs' : s < 2 ^ 24)
    (h1 : -8388608 ≤ t) (h2 : t ≤ 8388607) :
    |(ofRatio t s).units * (s : Int) - t * (one : Int)| ≤ 2 ^ 148 := by
  unfold ofRatio
  obtain ⟨T, rfl | rfl⟩ := Int.eq_nat_or_neg t
  · have hT : T ≤ 2 ^ 23 := by norm_num; omega
    obtain ⟨e1, e2⟩ := roundMag_close24 hs hs' hT
    have h3 : ((T : Int) * (one : Int)) = ((T * one : Nat) : Int) := by push_cast; rfl
    rw [h3, round_natCast]
    simp only
    rw [abs_le]
    have e1' : ((roundMag (T * one) s * s : Nat) : Int) ≤ ((T * one + 2 ^ 148 : Nat) : Int) := by
      exact_mod_cast e1
    have e2' : ((T * one : Nat) : Int) ≤ ((roundMag (T * one) s * s + 2 ^ 148 : Nat) : Int) := by
      exact_mod_cast e2
    push_cast at e1' e2' ⊢
    constructor <;> linarith
  · have hT : T ≤ 2 ^ 23 := by norm_num; omega
    obtain ⟨e1, e2⟩ := roundMag_close24 hs hs' hT
    have h3 : (-(T : Int) * (one : Int)) = -((T * one : Nat) : Int) := by push_cast; ring
    rw [h3, round_neg_natCast]
    simp only
    rw [abs_le]
    have e1' : ((roundMag (T * one) s * s : Nat) : Int) ≤ ((T * one + 2 ^ 148 : Nat) : Int) := by
      exact_mod_cast e1
    have e2' : ((T * one : Nat) : Int) ≤ ((roundMag (T * one) s * s + 2 ^ 148 : Nat) : Int) := by
      exact_mod_cast e2
    push_cast at e1' e2' ⊢
    constructor <;> linarith

set_option maxRecDepth 10000 in
/-- The round trip of a value through a 24-bit signed wire integer, at the scale `s`. -/
theorem roundTrip24_of_range {s : Nat} (hs : 0 < s) (hs' : s < 2 ^ 24) (v : F32)
    (hv : v.InRange (-8388608 / s) (8388607 / s)) :
    -8388608 ≤ trunc (mul v (ofInt (s : Int))) ∧ trunc (mul v (ofInt (s : Int))) ≤ 8388607 ∧
      RoundTrip24 s v (ofRatio (trunc (mul v (ofInt (s : Int)))) s) := by
  obtain ⟨⟨hvalid, _⟩, hlo, hhi⟩ := hv
  have hsq : (0 : ℚ) < s := by exact_mod_cast hs
  have hO : (0 : ℚ) < 2 ^ 149 := by positivity
  unfold toRat at hlo hhi
  have hlo' : -(((8388608 : Nat) : Int) * (one : Int)) ≤ v.units * s := by
    rw [div_le_div_iff₀ hsq hO] at hlo
    have : ((-(((8388608 : Nat) : Int) * (one : Int)) : Int) : ℚ) ≤ ((v.units * s : Int) : ℚ) := by
      push_cast
      rw [one_cast]
      linarith
    exact_mod_cast this
  have hhi' : v.units * s ≤ ((8388607 : Nat) : Int) * (one : Int) := by
    rw [div_le_div_iff₀ hO hsq] at hhi
    have : ((v.units * s : Int) : ℚ) ≤ ((((8388607 : Nat) : Int) * (one : Int) : Int) : ℚ) := by
      push_cast
      rw [one_cast]
      linarith
    exact_mod_cast this
  rw [mul_ofInt v hs']
  obtain ⟨t1, t2, t3, t4⟩ := trunc_round (by norm_num) (by norm_num) hlo' hhi'
  generalize trunc (round (v.units * s) 1) = t at t1 t2 t3 t4
  have t1' : -8388608 ≤ t := by exact_mod_cast t1
  have t2' : t ≤ 8388607 := by exact_mod_cast t2
  refine ⟨t1', t2', ?_⟩
  have hclose := ofRatio_close24 (t := t) hs hs' t1' t2'
  have t3q : |(t : ℚ) * 2 ^ 149 - (v.units : ℚ) * s| < 2 ^ 149 := by
    have : (((|t * (one : Int) - v.units * s| : Int)) : ℚ) < ((one : Int) : ℚ) :=
      Int.cast_lt.mpr t3
    rw [Int.cast_abs] at this
    push_cast at this
    rw [one_cast] at this
    exact this
  have hcq : |((ofRatio t s).units : ℚ) * s - (t : ℚ) * 2 ^ 149| ≤ 2 ^ 148 := by
    have : (((|(ofRatio t s).units * (s : Int) - t * (one : Int)| : Int)) : ℚ) ≤
        (((2 : Int) ^ 148 : Int) : ℚ) := Int.cast_le.mpr hclose
    rw [Int.cast_abs] at this
    push_cast at this
    rw [one_cast] at this
    exact this
  refine ⟨⟨t, rfl, ?_⟩, ?_, ?_⟩
  · unfold toRat
    have e : (t : ℚ) / s - (v.units : ℚ) / 2 ^ 149 =
        ((t : ℚ) * 2 ^ 149 - (v.units : ℚ) * s) / (s * 2 ^ 149) := by
      field_simp
      ring
    rw [e, abs_div, abs_of_pos (by positivity : (0 : ℚ) < s * 2 ^ 149), div_lt_div_iff₀
      (by positivity) hsq]
    calc |(t : ℚ) * 2 ^ 149 - (v.units : ℚ) * s| * (s : ℚ) < 2 ^ 149 * (s : ℚ) :=
          mul_lt_mul_of_pos_right t3q hsq
      _ = 1 * ((s : ℚ) * 2 ^ 149) := by ring
  · unfold toRat
    have e : ((ofRatio t s).units : ℚ) / 2 ^ 149 - (v.units : ℚ) / 2 ^ 149 =
        (((ofRatio t s).units : ℚ) * s - (v.units : ℚ) * s) / (s * 2 ^ 149) := by
      field_simp
      ring
    rw [e, abs_div, abs_of_pos (by positivity : (0 : ℚ) < s * 2 ^ 149), div_lt_div_iff₀
      (by positivity) hsq]
    have h1 : |((ofRatio t s).units : ℚ) * s - (v.units : ℚ) * s| < 2 ^ 148 + 2 ^ 149 := by
      have e2 : ((ofRatio t s).units : ℚ) * s - (v.units : ℚ) * s =
          (((ofRatio t s).units : ℚ) * s - (t : ℚ) * 2 ^ 149) +
            ((t : ℚ) * 2 ^ 149 - (v.units : ℚ) * s) := by ring
      rw [e2]
      calc _ ≤ |((ofRatio t s).units : ℚ) * s - (t : ℚ) * 2 ^ 149| +
            |(t : ℚ) * 2 ^ 149 - (v.units : ℚ) * s| := abs_add _ _
        _ < 2 ^ 148 + 2 ^ 149 := by linarith
    calc |((ofRatio t s).units : ℚ) * s - (v.units : ℚ) * s| * (s : ℚ)
        < (2 ^ 148 + 2 ^ 149) * (s : ℚ) := mul_lt_mul_of_pos_right h1 hsq
      _ = (3 / 2) * ((s : ℚ) * 2 ^ 149) := by norm_num; ring
  · rintro ⟨k, hk⟩
    unfold toRat at hk
    have hdvd : (one : Int) ∣ v.units * s := by
      refine ⟨k, ?_⟩
      have : ((v.units * s : Int) : ℚ) = (((one : Int) * k : Int) : ℚ) := by
        push_cast
        rw [one_cast]
        field_simp at hk
        linarith
      exact_mod_cast this
    have h5 := t4 hdvd
    unfold ofRatio
    rw [h5]
    have h6 := round_mul_right v.units 1 hs
    rw [one_mul] at h6
    rw [h6]
    exact hvalid

end F32

theorem signed24At_writeUint24 {f : F32} (h1 : -8388608 ≤ F32.trunc f)
    (h2 : F32.trunc f ≤ 8388607) : signed24At (writeUint24 (floatToUint32 f)) 0 = F32.trunc f := by
  unfold floatToUint32 floatToInt64
  generalize F32.trunc f = t at h1 h2
  have hc : -9223372036854775808 ≤ t ∧ t ≤ 9223372036854775807 := by omega
  rw [if_pos hc]
  simp only [signed24At, unsigned24At, writeUint24, toByte, List.getD_cons_zero,
    List.getD_cons_succ, zero_add]
  split_ifs <;> omega

theorem signed24At_triple (a b c : Nat) :
    signed24At (writeUint24 a ++ writeUint24 b ++ writeUint24 c) 0 = signed24At (writeUint24 a) 0 ∧
    signed24At (writeUint24 a ++ writeUint24 b ++ writeUint24 c) 3 = signed24At (writeUint24 b) 0 ∧
    signed24At (writeUint24 a ++ writeUint24 b ++ writeUint24 c) 6 = signed24At (writeUint24 c) 0 :=
  ⟨rfl, rfl, rfl⟩

/-- A value within the range of a 24-bit signed wire integer at the scale `s` comes back from
the wire as the round trip says. -/
theorem roundTrip24 {s : Nat} (hs : 0 < s) (hs' : s < 2 ^ 24) (v : F32)
    (hv : v.InRange (-8388608 / s) (8388607 / s)) :
    signed24At (writeUint24 (floatToUint32 (F32.mul v (F32.ofInt s)))) 0 =
        F32.trunc (F32.mul v (F32.ofInt s)) ∧
      F32.RoundTrip24 s v
        (F32.ofRatio (signed24At (writeUint24 (floatToUint32 (F32.mul v (F32.ofInt s)))) 0) s) := by
  obtain ⟨h1, h2, h3⟩ := F32.roundTrip24_of_range hs hs' v hv
  rw [signed24At_writeUint24 h1 h2]
  exact ⟨rfl, h3⟩

/-! ## Rounding is monotone -/

namespace F32

theorem rne_mono {a b D : Nat} (h : a ≤ b) : rne a D ≤ rne b D := by
  rcases Nat.eq_zero_or_pos D with h0 | hD
  · subst h0
    unfold rne
    simp
    split_ifs <;> omega
  have hq : a / D ≤ b / D := Nat.div_le_div_right h
  rcases Nat.lt_or_eq_of_le hq with hlt | heq
  · have h1 := rne_le a D
    have h2 := le_rne b D
    omega
  · have ha := Nat.div_add_mod a D
    have hb := Nat.div_add_mod b D
    have hr : a % D ≤ b % D := by
      rw [heq] at ha
      omega
    unfold rne
    rw [heq]
    generalize a % D = ra at hr
    generalize b % D = rb at hr
    generalize b / D = q
    split_ifs <;> omega

theorem dropBits_mono {a b : Nat} (h : a ≤ b) : dropBits a ≤ dropBits b := by
  by_contra hc
  push_neg at hc
  obtain ⟨_, ha⟩ := dropBits_spec a
  obtain ⟨hb, _⟩ := dropBits_spec b
  have h1 := ha (by omega)
  have h2 : b < 2 ^ 24 * 2 ^ dropBits b := by
    rw [Nat.div_lt_iff_lt_mul (by positivity)] at hb
    exact hb
  have h3 : 2 ^ (dropBits b + 1) ≤ 2 ^ dropBits a := Nat.pow_le_pow_right (by norm_num) hc
  have h4 : (2 : Nat) ^ 24 * 2 ^ dropBits b = 2 ^ 23 * 2 ^ (dropBits b + 1) := by
    rw [pow_succ]
    norm_num
    ring
  have h5 : 2 ^ 23 * 2 ^ (dropBits b + 1) ≤ 2 ^ 23 * 2 ^ dropBits a := Nat.mul_le_mul_left _ h3
  omega

/-- Rounding to the nearest `float32` is monotone on magnitudes. -/
theorem roundMag_mono {n1 n2 d : Nat} (h : n1 ≤ n2) :
    roundMag n1 d ≤ roundMag n2 d := by
  unfold roundMag
  have hq : n1 / d ≤ n2 / d := Nat.div_le_div_right h
  have he := dropBits_mono hq
  obtain ⟨s1, _⟩ := dropBits_spec (n1 / d)
  obtain ⟨_, s2⟩ := dropBits_spec (n2 / d)
  generalize dropBits (n1 / d) = e1 at he s1
  generalize dropBits (n2 / d) = e2 at he s2
  rcases Nat.lt_or_eq_of_le he with hlt | heq
  · have h1 : rne n1 (d * 2 ^ e1) ≤ 2 ^ 24 := by
      have := rne_le n1 (d * 2 ^ e1)
      rw [← Nat.div_div_eq_div_mul] at this
      omega
    have h2 : 2 ^ 23 ≤ rne n2 (d * 2 ^ e2) := by
      have h3 := le_rne n2 (d * 2 ^ e2)
      rw [← Nat.div_div_eq_div_mul] at h3
      have h4 := s2 (by omega)
      have h5 : 2 ^ 23 ≤ n2 / d / 2 ^ e2 := by
        rw [Nat.le_div_iff_mul_le (by positivity)]
        exact h4
      omega
    have h6 : 2 ^ (e1 + 1) ≤ 2 ^ e2 := Nat.pow_le_pow_right (by norm_num) hlt
    calc rne n1 (d * 2 ^ e1) * 2 ^ e1 ≤ 2 ^ 24 * 2 ^ e1 := Nat.mul_le_mul_right _ h1
      _ = 2 ^ 23 * 2 ^ (e1 + 1) := by rw [pow_succ]; norm_num; ring
      _ ≤ 2 ^ 23 * 2 ^ e2 := Nat.mul_le_mul_left _ h6
      _ ≤ rne n2 (d * 2 ^ e2) * 2 ^ e2 := Nat.mul_le_mul_right _ h2
  · rw [heq]
    exact Nat.mul_le_mul_right _ (rne_mono h)

/-- Rounding to the nearest `float32` is monotone. -/
theorem round_mono {a b : Int} {d : Nat} (h : a ≤ b) :
    (round a d).units ≤ (round b d).units := by
  obtain ⟨N, rfl | rfl⟩ := Int.eq_nat_or_neg a <;> obtain ⟨M, rfl | rfl⟩ := Int.eq_nat_or_neg b
  · rw [round_natCast, round_natCast]
    have : N ≤ M := by exact_mod_cast h
    simp only
    exact_mod_cast roundMag_mono this
  · have hN : N = 0 := by omega
    have hM : M = 0 := by omega
    subst hN hM
    rfl
  · rw [round_neg_natCast, round_natCast]
    simp only
    have h1 : (0 : Int) ≤ (roundMag N d : Nat) := Int.natCast_nonneg _
    have h2 : (0 : Int) ≤ (roundMag M d : Nat) := Int.natCast_nonneg _
    omega
  · rw [round_neg_natCast, round_neg_natCast]
    simp only
    have : M ≤ N := by omega
    have h1 : ((roundMag M d : Nat) : Int) ≤ (roundMag N d : Nat) := by
      exact_mod_cast roundMag_mono this
    omega

/-- The `float32` nearest to `t / s` grows with `t`. -/
theorem ofRatio_mono {t1 t2 : Int} (s : Nat) (h : t1 ≤ t2) :
    (ofRatio t1 s).units ≤ (ofRatio t2 s).units := by
  unfold ofRatio
  apply round_mono
  have := one_pos
  exact Int.mul_le_mul_of_nonneg_right h (by positivity)

end F32

/-! ## The values of a message are within the bounds of their types -/

theorem F32.between_ofRatio {lo hi t : Int} (s : Nat) (h1 : lo ≤ t) (h2 : t ≤ hi) :
    (F32.ofRatio t s).Between lo hi s :=
  ⟨F32.ofRatio_mono s h1, F32.ofRatio_mono s h2⟩

theorem signed16At_bounds (p : List Byte) (i : Nat) :
    -32768 ≤ signed16At p i ∧ signed16At p i ≤ 32767 := by
  unfold signed16At unsigned16At
  have := (p.getD i 0).isLt
  have := (p.getD (i + 1) 0).isLt
  split_ifs <;> omega

theorem signed24At_bounds (p : List Byte) (i : Nat) :
    -8388608 ≤ signed24At p i ∧ signed24At p i ≤ 8388607 := by
  unfold signed24At unsigned24At
  have := (p.getD i 0).isLt
  have := (p.getD (i + 1) 0).isLt
  have := (p.getD (i + 2) 0).isLt
  split_ifs <;> omega

theorem unsigned16At_le (p : List Byte) (i : Nat) : unsigned16At p i ≤ 65535 := by
  unfold unsigned16At
  have := (p.getD i 0).isLt
  have := (p.getD (i + 1) 0).isLt
  omega

/-- The value of a record is within the bound of its type. -/
theorem Record.value_bounds (r : Record) : r.type.Bounds r.value := by
  obtain ⟨c, ty, p⟩ := r
  have hb : (p.getD 0 0).val ≤ 255 := by have := (p.getD 0 0).isLt; omega
  have s0 := signed16At_bounds p 0
  have s2 := signed16At_bounds p 2
  have s4 := signed16At_bounds p 4
  have g0 := signed24At_bounds p 0
  have g3 := signed24At_bounds p 3
  have g6 := signed24At_bounds p 6
  cases ty
  case DigitalInput => exact hb
  case DigitalOutput => exact hb
  case AnalogInput => exact F32.between_ofRatio 100 s0.1 s0.2
  case AnalogOutput => exact F32.between_ofRatio 100 s0.1 s0.2
  case Luminosity => exact unsigned16At_le p 0
  case Presence => exact hb
  case Temperature => exact F32.between_ofRatio 10 s0.1 s0.2
  case RelativeHumidity =>
    exact F32.between_ofRatio 2 (Int.natCast_nonneg _) (by exact_mod_cast hb)
  case Accelerometer =>
    exact ⟨F32.between_ofRatio 1000 s0.1 s0.2, F32.between_ofRatio 1000 s2.1 s2.2,
      F32.between_ofRatio 1000 s4.1 s4.2⟩
  case BarometricPressure => exact F32.between_ofRatio 10 s0.1 s0.2
  case Gyrometer =>
    exact ⟨F32.between_ofRatio 100 s0.1 s0.2, F32.between_ofRatio 100 s2.1 s2.2,
      F32.between_ofRatio 100 s4.1 s4.2⟩
  case GPS =>
    exact ⟨F32.between_ofRatio 10000 g0.1 g0.2, F32.between_ofRatio 10000 g3.1 g3.2,
      F32.between_ofRatio 100 g6.1 g6.2⟩

theorem Msg.mem_set {κ : Type} [DecidableEq κ] (m : Msg κ) (k : κ) (v : Value) (p : κ × Value)
    (h : p ∈ m.set k v) : p ∈ m ∨ p = (k, v) := by
  induction m with
  | nil =>
    simp only [Msg.set, List.mem_singleton] at h
    exact Or.inr h
  | cons q m ih =>
    obtain ⟨k0, v0⟩ := q
    unfold Msg.set at h
    by_cases hk : k0 = k
    · rw [if_pos hk] at h
      rcases List.mem_cons.mp h with h1 | h1
      · exact Or.inr h1
      · exact Or.inl (List.mem_cons_of_mem _ h1)
    · rw [if_neg hk] at h
      rcases List.mem_cons.mp h with h1 | h1
      · exact Or.inl (by rw [h1]; exact List.mem_cons_self _ _)
      · rcases ih h1 with h2 | h2
        · exact Or.inl (List.mem_cons_of_mem _ h2)
        · exact Or.inr h2

theorem Msg.mem_foldl_set {κ α : Type} [DecidableEq κ] (key : α → κ) (val : α → Value)
    (l : List α) (m : Msg κ) (p : κ × Value)
    (h : p ∈ l.foldl (fun (m : Msg κ) a => Msg.set m (key a) (val a)) m) :
    p ∈ m ∨ ∃ a ∈ l, p = (key a, val a) := by
  induction l generalizing m with
  | nil => exact Or.inl h
  | cons a l ih =>
    rw [List.foldl_cons] at h
    rcases ih _ h with h1 | ⟨b, hb, h1⟩
    · rcases Msg.mem_set m _ _ p h1 with h2 | h2
      · exact Or.inl h2
      · exact Or.inr ⟨a, List.mem_cons_self _ _, h2⟩
    · exact Or.inr ⟨b, List.mem_cons_of_mem _ hb, h1⟩

theorem Msg.mem_of_get {κ : Type} [DecidableEq κ] (m : Msg κ) (k : κ) (v : Value)
    (h : m.get k = some v) : (k, v) ∈ m := by
  induction m with
  | nil => simp [Msg.get] at h
  | cons q m ih =>
    obtain ⟨k0, v0⟩ := q
    unfold Msg.get at h
    by_cases hk : k0 = k
    · rw [if_pos hk] at h
      simp only [Option.some.injEq] at h
      rw [hk, h]
      exact List.mem_cons_self _ _
    · rw [if_neg hk] at h
      exact List.mem_cons_of_mem _ (ih h)

theorem readInt16_bounds {r r2 : List Byte} {val : Int} (h : readInt16 r = .ok (val, r2)) :
    -32768 ≤ val ∧ val ≤ 32767 := by
  unfold readInt16 at h
  cases hr : ReadFull r 2 with
  | error e => rw [hr] at h; cases h
  | ok q =>
    obtain ⟨bs, r1⟩ := q
    rw [hr] at h
    simp only [Except.ok.injEq, Prod.mk.injEq] at h
    rw [← h.1]
    exact toInt16_bounds _

theorem downlinkLoop_bounds :
    ∀ (fuel : Nat) (r : List Byte) (tg m : DownlinkMessage),
      downlinkLoop fuel r tg = .ok m →
      (∀ p ∈ tg, ∃ f, p.2 = .float32 f ∧ f.Between (-32768) 32767 100) →
      ∀ p ∈ m, ∃ f, p.2 = .float32 f ∧ f.Between (-32768) 32767 100 := by
  intro fuel
  induction fuel with
  | zero =>
    intro r tg m h htg
    simp only [downlinkLoop, Except.ok.injEq] at h
    rw [← h]
    exact htg
  | succ n ih =>
    intro r tg m h htg
    rw [downlinkLoop] at h
    cases hr : ReadFull r 1 with
    | error e =>
      rw [hr] at h
      cases e
      · simp only [Except.ok.injEq] at h
        rw [← h]
        exact htg
      · cases h
      · cases h
    | ok q =>
      obtain ⟨buf, r1⟩ := q
      rw [hr] at h
      simp only at h
      by_cases hs : buf.getD 0 0 = 255
      · rw [if_pos hs] at h
        simp only [Except.ok.injEq] at h
        rw [← h]
        exact htg
      · rw [if_neg hs] at h
        cases hv : readInt16 r1 with
        | error e => rw [hv] at h; cases h
        | ok q2 =>
          obtain ⟨val, r2⟩ := q2
          rw [hv] at h
          simp only at h
          refine ih r2 _ m h ?_
          intro p hp
          rcases Msg.mem_set tg _ _ p hp with h1 | h1
          · exact htg p h1
          · obtain ⟨b1, b2⟩ := readInt16_bounds hv
            refine ⟨_, by rw [h1], ?_⟩
            rw [show (100 : Int) = ((100 : Nat) : Int) from rfl,
              F32.div_ofInt (by omega) (by decide) (by decide)]
            exact F32.between_ofRatio 100 b1 b2

/-! ## The bytes of a wire integer -/

theorem writeUint16_bytes {w : Nat} (hw : w < 65536) :
    ∃ hi lo : Byte, writeUint16 w = [hi, lo] ∧ hi.val * 256 + lo.val = w := by
  refine ⟨toByte (w / 256), toByte w, rfl, ?_⟩
  simp only [toByte]
  omega

theorem writeUint24_bytes (w : Nat) :
    ∃ b2 b1 b0 : Byte, writeUint24 w = [b2, b1, b0] ∧
      b2.val * 65536 + b1.val * 256 + b0.val = w % 16777216 := by
  refine ⟨toByte (w / 65536), toByte (w / 256), toByte w, rfl, ?_⟩
  simp only [toByte]
  omega

theorem toByte_val_floatToUint8 (f : F32) : (toByte (floatToUint8 f)).val = floatToUint8 f := by
  unfold toByte floatToUint8
  simp only
  omega

/-! ## The claims -/

/-- C1, as amended: on the stream of any sequence of complete records of known types,
`DecodeUplink` returns no error and a message in which the key `<type_name>_<channel>` of every
record is present and has the value that the decode rule of the type gives for the last record
of the stream with that key; in particular a record whose key no later record has is held with
its own value. No other key is present. -/
theorem DecodeUplink_records (tc : TypeCodes) (hd : tc.Distinct) (rs : List Record)
    (hc : ∀ r ∈ rs, r.Complete) :
    ∃ m, DecodeUplink tc (uplinkStream tc rs) = .ok m ∧
      (∀ k : String, m.get k =
        (rs.reverse.find? (fun r => decide (r.key = k))).map Record.value) ∧
      (∀ r ∈ rs, ∃ r' ∈ rs, r'.key = r.key ∧ m.get r.key = some r'.value) ∧
      (∀ (pre : List Record) (r : Record) (post : List Record), rs = pre ++ r :: post →
        (∀ r' ∈ post, r'.key ≠ r.key) → m.get r.key = some r.value) := by
  have hget : ∀ k : String, (uplinkMessage rs).get k =
      (rs.reverse.find? (fun r => decide (r.key = k))).map Record.value :=
    fun k => Msg.get_foldl_set Record.key Record.value rs k
  refine ⟨uplinkMessage rs, ?_, hget, ?_, ?_⟩
  · have h := DecodeUplink_stream hd rs hc []
    rw [List.append_nil] at h
    rw [h]
    rfl
  · intro r hr
    rw [hget]
    cases hf : rs.reverse.find? (fun r' => decide (r'.key = r.key)) with
    | none =>
      have := List.find?_eq_none.mp hf r (List.mem_reverse.mpr hr)
      simp at this
    | some r' =>
      refine ⟨r', List.mem_reverse.mp (List.mem_of_find?_eq_some hf), ?_, rfl⟩
      simpa using List.find?_some hf
  · intro pre r post hrs hpost
    subst hrs
    exact Msg.get_foldl_set_last Record.key Record.value pre r post [] hpost

set_option maxRecDepth 100000 in
/-- The witness of C1: the two records of the claim, `[3, AnalogInput, 0x15, 0x4A]` and
`[7, Temperature, 0xFF, 0x64]`, give `analog_input_3 = 54.5` and `temperature_7 = -15.6`. -/
theorem DecodeUplink_records_witness :
    lppCodes.Distinct ∧
    (∀ r ∈ [Record.mk 3 .AnalogInput [0x15, 0x4A], Record.mk 7 .Temperature [0xFF, 0x64]],
      r.Complete) ∧
    (∃ m, DecodeUplink lppCodes [3, 2, 0x15, 0x4A, 7, 103, 0xFF, 0x64] = .ok m ∧
      m.get "analog_input_3" = some (.float32 (F32.ofRatio 545 10)) ∧
      m.get "temperature_7" = some (.float32 (F32.ofRatio (-156) 10))) := by
  refine ⟨by decide, by decide, ?_⟩
  obtain ⟨m, h1, -, -, h4⟩ := DecodeUplink_records lppCodes (by decide)
    [Record.mk 3 .AnalogInput [0x15, 0x4A], Record.mk 7 .Temperature [0xFF, 0x64]] (by decide)
  refine ⟨m, h1, ?_, ?_⟩
  · exact (h4 [] (Record.mk 3 .AnalogInput [0x15, 0x4A])
      [Record.mk 7 .Temperature [0xFF, 0x64]] rfl (by decide)).trans (by decide)
  · exact (h4 [Record.mk 3 .AnalogInput [0x15, 0x4A]] (Record.mk 7 .Temperature [0xFF, 0x64])
      [] rfl (by decide)).trans (by decide)

set_option maxRecDepth 100000 in
/-- C1 fails as stated: when two records have the same type and channel, the message does not
hold the value of the first one. On `[1, DigitalInput, 5, 1, DigitalInput, 6]` the key
`digital_input_1` has the value 6, while the rule gives 5 for the first record. -/
theorem DecodeUplink_records_counterexample :
    ¬ ∀ (tc : TypeCodes), tc.Distinct → ∀ rs : List Record, (∀ r ∈ rs, r.Complete) →
      ∃ m, DecodeUplink tc (uplinkStream tc rs) = .ok m ∧
        ∀ r ∈ rs, m.get r.key = some r.value := by
  intro h
  obtain ⟨m, h1, h2⟩ := h lppCodes (by decide)
    [Record.mk 1 .DigitalInput [5], Record.mk 1 .DigitalInput [6]] (by decide)
  have h3 : DecodeUplink lppCodes
      (uplinkStream lppCodes [Record.mk 1 .DigitalInput [5], Record.mk 1 .DigitalInput [6]]) =
      .ok [("digital_input_1", .uint8 6)] := by decide
  rw [h3] at h1
  injection h1 with h1
  subst h1
  have h4 := h2 (Record.mk 1 .DigitalInput [5]) (by simp)
  revert h4
  decide

/-- C2: for every channel and every nine payload bytes, `DecodeUplink` of the GPS record stores
under `gps_<channel>` the three quotients `lat / 10000`, `lon / 10000`, `alt / 100` (the nearest
`float32`), where `lat`, `lon`, `alt` are the signed 24-bit big-endian values of the three byte
groups: the unsigned value, less `2^24` when the top bit of the group is set. -/
theorem DecodeUplink_gps (tc : TypeCodes) (hd : tc.Distinct) (c b0 b1 b2 b3 b4 b5 b6 b7 b8 : Byte) :
    DecodeUplink tc [c, tc.GPS, b0, b1, b2, b3, b4, b5, b6, b7, b8] =
      .ok [("gps_" ++ Nat.repr c.val,
        .floats [F32.ofRatio (signed24At [b0, b1, b2] 0) 10000,
          F32.ofRatio (signed24At [b3, b4, b5] 0) 10000,
          F32.ofRatio (signed24At [b6, b7, b8] 0) 100])] ∧
    (∀ x y z : Byte, signed24At [x, y, z] 0 =
      if x.val < 128 then (x.val * 65536 + y.val * 256 + z.val : Int)
      else (x.val * 65536 + y.val * 256 + z.val : Int) - 16777216) := by
  constructor
  · exact DecodeUplink_single hd ⟨c, .GPS, [b0, b1, b2, b3, b4, b5, b6, b7, b8]⟩ rfl
  · intro x y z
    have := x.isLt
    have := y.isLt
    have := z.isLt
    simp only [signed24At, unsigned24At, List.getD_cons_zero, List.getD_cons_succ]
    split_ifs <;> omega

set_option maxRecDepth 100000 in
/-- The witness of C2: the two GPS payloads of the test, which give `[52.3655, 4.8885, 21.54]`
and `[42.3519, -87.9094, 10]`. -/
theorem DecodeUplink_gps_witness :
    lppCodes.Distinct ∧
    DecodeUplink lppCodes [12, 136, 0x07, 0xFD, 0x87, 0x00, 0xBE, 0xF5, 0x00, 0x08, 0x6A] =
      .ok [("gps_12",
        .floats [F32.ofRatio 523655 10000, F32.ofRatio 48885 10000, F32.ofRatio 2154 100])] ∧
    DecodeUplink lppCodes [1, 136, 0x06, 0x76, 0x5F, 0xF2, 0x96, 0x0A, 0x00, 0x03, 0xE8] =
      .ok [("gps_1",
        .floats [F32.ofRatio 423519 10000, F32.ofRatio (-879094) 10000, F32.ofRatio 10 1])] :=
  ⟨by decide,
    (DecodeUplink_gps lppCodes (by decide) 12 0x07 0xFD 0x87 0x00 0xBE 0xF5 0x00 0x08 0x6A).1.trans
      (by decide),
    (DecodeUplink_gps lppCodes (by decide) 1 0x06 0x76 0x5F 0xF2 0x96 0x0A 0x00 0x03 0xE8).1.trans
      (by decide)⟩

set_option maxRecDepth 100000 in
/-- C3, at the failing inputs: a complete header of a known type with no payload byte after it
makes `DecodeUplink` fail with `io.EOF`, not `io.ErrUnexpectedEOF`, and so does an accelerometer
record cut after its first or second value; a header or a payload cut elsewhere (the stream of
the test) gives `io.ErrUnexpectedEOF`. -/
theorem DecodeUplink_truncated :
    (∀ (tc : TypeCodes) (c : Byte), DecodeUplink tc [c, tc.DigitalInput] = .error .EOF) ∧
      DecodeUplink lppCodes [12, 136] = .error .EOF ∧
      DecodeUplink lppCodes [9, 113, 254, 88] = .error .EOF ∧
      DecodeUplink lppCodes [9, 113, 254, 88, 0, 15] = .error .EOF ∧
      DecodeUplink lppCodes [12] = .error .ErrUnexpectedEOF ∧
      DecodeUplink lppCodes [12, 136, 7, 253, 135, 0, 190] = .error .ErrUnexpectedEOF := by
  refine ⟨?_, by decide, by decide, by decide, by decide, by decide⟩
  intro tc c
  unfold DecodeUplink
  simp only [List.length_cons, List.length_nil]
  rw [uplinkLoop_header]
  simp only [decodeRecord, if_true]
  rfl

/-- C4, at the failing input: a channel byte other than `0xFF` with no byte after it makes
`DecodeDownlink` fail with `io.EOF`, not `io.ErrUnexpectedEOF`; with one byte after it (the
stream of the test) the error is `io.ErrUnexpectedEOF`. -/
theorem DecodeDownlink_lone_channel :
    (∀ c : Byte, DecodeDownlink [c] = if c = 255 then .ok [] else .error .EOF) ∧
      DecodeDownlink [12] = .error .EOF ∧ DecodeDownlink [12, 1] = .error .ErrUnexpectedEOF := by
  refine ⟨?_, by decide, by decide⟩
  intro c
  by_cases h : c = 255
  · rw [if_pos h, h]; rfl
  · rw [if_neg h]
    exact downlinkLoop_lone_channel _ c h _

/-- C5: on a stream made of complete records of known types followed by a complete header whose
type byte is the code of no type, `DecodeUplink` fails with `ErrInvalidChannel`, whatever
follows the header; and that error is neither of the two end-of-input errors. -/
theorem DecodeUplink_unknown_type (tc : TypeCodes) (hd : tc.Distinct) (rs : List Record)
    (hc : ∀ r ∈ rs, r.Complete) (c t : Byte) (ht : tc.Unknown t) (rest : List Byte) :
    DecodeUplink tc (uplinkStream tc rs ++ c :: t :: rest) = .error .ErrInvalidChannel ∧
      Err.ErrInvalidChannel ≠ Err.ErrUnexpectedEOF ∧ Err.ErrInvalidChannel ≠ Err.EOF := by
  refine ⟨?_, by decide, by decide⟩
  rw [DecodeUplink_stream hd rs hc]
  exact uplinkLoop_unknown ht _ c rest _

/-- The witness of C5: the stream `[1, 255, 255]` of the test, and the same header after a
complete record. -/
theorem DecodeUplink_unknown_type_witness :
    lppCodes.Distinct ∧ lppCodes.Unknown 255 ∧
    (∀ r ∈ [Record.mk 3 .AnalogInput [21, 74]], r.Complete) ∧
    (DecodeUplink lppCodes ([] ++ 1 :: 255 :: [255]) = .error .ErrInvalidChannel ∧
      Err.ErrInvalidChannel ≠ Err.ErrUnexpectedEOF ∧ Err.ErrInvalidChannel ≠ Err.EOF) ∧
    (DecodeUplink lppCodes (uplinkStream lppCodes [Record.mk 3 .AnalogInput [21, 74]] ++
        1 :: 255 :: [255]) = .error .ErrInvalidChannel ∧
      Err.ErrInvalidChannel ≠ Err.ErrUnexpectedEOF ∧ Err.ErrInvalidChannel ≠ Err.EOF) :=
  ⟨by decide, by decide, by decide,
    DecodeUplink_unknown_type lppCodes (by decide) [] (by decide) 1 255 (by decide) [255],
    DecodeUplink_unknown_type lppCodes (by decide) [Record.mk 3 .AnalogInput [21, 74]]
      (by decide) 1 255 (by decide) [255]⟩

/-- C6: on a stream made only of complete downlink records with a channel other than `0xFF`,
`DecodeDownlink` returns no error and the message in which every channel has the value of the
last record with that channel, the signed big-endian 16-bit integer of its two bytes divided by
100, and no other channel has a value. The two value bytes are arbitrary: `0xFF` among them is
data. -/
theorem DecodeDownlink_records (ss : List Slot) (hs : ∀ s ∈ ss, s.channel ≠ 255) :
    ∃ m, DecodeDownlink (downlinkStream ss) = .ok m ∧
      ∀ c : Byte, m.get c =
        (ss.reverse.find? (fun s => decide (s.channel = c))).map
          (fun s => Value.float32 (F32.ofRatio (signed16At [s.hi, s.lo] 0) 100)) := by
  refine ⟨downlinkMessage ss, ?_, ?_⟩
  · have h := DecodeDownlink_stream ss hs []
    rw [List.append_nil] at h
    rw [h]
    rfl
  · intro c
    exact Msg.get_foldl_set Slot.channel Slot.value ss c

set_option maxRecDepth 100000 in
/-- The witness of C6: the stream of the test, which ends with the sentinel, gives 1.0 on
channel 1 and -54.5 on channel 2. -/
theorem DecodeDownlink_records_witness :
    (∀ s ∈ [Slot.mk 1 0 100, Slot.mk 2 234 182], s.channel ≠ 255) ∧
    (∃ m, DecodeDownlink (downlinkStream [Slot.mk 1 0 100, Slot.mk 2 234 182]) = .ok m ∧
      ∀ c : Byte, m.get c =
        ([Slot.mk 1 0 100, Slot.mk 2 234 182].reverse.find? (fun s => decide (s.channel = c))).map
          (fun s => Value.float32 (F32.ofRatio (signed16At [s.hi, s.lo] 0) 100))) ∧
    DecodeDownlink [1, 0, 100, 2, 234, 182, 255] =
      .ok [(1, .float32 (F32.ofRatio 1 1)), (2, .float32 (F32.ofRatio (-545) 10))] :=
  ⟨by decide, DecodeDownlink_records [Slot.mk 1 0 100, Slot.mk 2 234 182] (by decide), by decide⟩

/-- C7: on a stream made of complete downlink records with a channel other than `0xFF`, then a
byte `0xFF`, then any bytes, `DecodeDownlink` returns no error and the message it returns for
the records alone; `0xFF` is not a key of it; and a stream that starts with `0xFF` gives the
empty message. -/
theorem DecodeDownlink_sentinel (ss : List Slot) (hs : ∀ s ∈ ss, s.channel ≠ 255)
    (rest : List Byte) :
    (∃ m, DecodeDownlink (downlinkStream ss ++ 255 :: rest) = .ok m ∧
      DecodeDownlink (downlinkStream ss) = .ok m ∧ m.get 255 = none) ∧
    DecodeDownlink (255 :: rest) = .ok [] := by
  refine ⟨⟨downlinkMessage ss, ?_, ?_, ?_⟩, ?_⟩
  · rw [DecodeDownlink_stream ss hs]
    exact downlinkLoop_sentinel _ _ _
  · have h := DecodeDownlink_stream ss hs []
    rw [List.append_nil] at h
    rw [h]
    rfl
  · exact Msg.get_foldl_set_of_ne Slot.channel Slot.value ss [] 255 hs
  · exact downlinkLoop_sentinel _ _ _

/-- The witness of C7: two records, the sentinel, and a truncated record after it. -/
theorem DecodeDownlink_sentinel_witness :
    (∀ s ∈ [Slot.mk 1 0 100, Slot.mk 2 234 182], s.channel ≠ 255) ∧
    ((∃ m, DecodeDownlink (downlinkStream [Slot.mk 1 0 100, Slot.mk 2 234 182] ++ 255 :: [7, 1])
        = .ok m ∧
      DecodeDownlink (downlinkStream [Slot.mk 1 0 100, Slot.mk 2 234 182]) = .ok m ∧
      m.get 255 = none) ∧
    DecodeDownlink (255 :: [7, 1]) = .ok []) :=
  ⟨by decide, DecodeDownlink_sentinel [Slot.mk 1 0 100, Slot.mk 2 234 182] (by decide) [7, 1]⟩

/-- C8: on the empty byte stream `DecodeUplink` returns no error and a message with no entries,
and so does `DecodeDownlink`. -/
theorem decode_empty_stream (tc : TypeCodes) :
    DecodeUplink tc [] = .ok [] ∧ DecodeDownlink [] = .ok [] :=
  ⟨rfl, rfl⟩

/-- C9: for every channel and every value of the integer-valued types, decoding what a fresh
encoder wrote gives the value back: after `AddDigitalInput`, `AddDigitalOutput`, `AddPresence`
(any bytes `c`, `v`) or `AddLuminosity` (any 16-bit `v`), `DecodeUplink` of `Bytes()` succeeds
with exactly one entry, under the key of the type and the channel, whose value is `v`. -/
theorem DecodeUplink_encode_integer (tc : TypeCodes) (hd : tc.Distinct) (c v : Byte)
    (w : Fin 65536) :
    DecodeUplink tc (Bytes (AddDigitalInput tc NewEncoder c v)) =
      .ok [("digital_input_" ++ Nat.repr c.val, .uint8 v.val)] ∧
    DecodeUplink tc (Bytes (AddDigitalOutput tc NewEncoder c v)) =
      .ok [("digital_output_" ++ Nat.repr c.val, .uint8 v.val)] ∧
    DecodeUplink tc (Bytes (AddPresence tc NewEncoder c v)) =
      .ok [("presence_" ++ Nat.repr c.val, .uint8 v.val)] ∧
    DecodeUplink tc (Bytes (AddLuminosity tc NewEncoder c w)) =
      .ok [("luminosity_" ++ Nat.repr c.val, .uint16 w.val)] := by
  refine ⟨?_, ?_, ?_, ?_⟩
  · exact DecodeUplink_single hd ⟨c, .DigitalInput, [v]⟩ rfl
  · exact DecodeUplink_single hd ⟨c, .DigitalOutput, [v]⟩ rfl
  · exact DecodeUplink_single hd ⟨c, .Presence, [v]⟩ rfl
  · have h := DecodeUplink_single hd ⟨c, .Luminosity, writeUint16 w.val⟩ rfl
    simp only [Record.value, unsigned16At_writeUint16] at h
    exact h

/-- The witness of C9: channel 5, the bytes 0 and 255, and the 16-bit values 500 and 65535, with
the type codes of the format. -/
theorem DecodeUplink_encode_integer_witness :
    lppCodes.Distinct ∧
    (DecodeUplink lppCodes (Bytes (AddDigitalInput lppCodes NewEncoder 5 255)) =
      .ok [("digital_input_" ++ Nat.repr (5 : Byte).val, .uint8 (255 : Byte).val)] ∧
    DecodeUplink lppCodes (Bytes (AddDigitalOutput lppCodes NewEncoder 5 255)) =
      .ok [("digital_output_" ++ Nat.repr (5 : Byte).val, .uint8 (255 : Byte).val)] ∧
    DecodeUplink lppCodes (Bytes (AddPresence lppCodes NewEncoder 5 255)) =
      .ok [("presence_" ++ Nat.repr (5 : Byte).val, .uint8 (255 : Byte).val)] ∧
    DecodeUplink lppCodes (Bytes (AddLuminosity lppCodes NewEncoder 5 65535)) =
      .ok [("luminosity_" ++ Nat.repr (5 : Byte).val, .uint16 (65535 : Fin 65536).val)]) ∧
    DecodeUplink lppCodes (Bytes (AddLuminosity lppCodes NewEncoder 5 500)) =
      .ok [("luminosity_5", .uint16 500)] :=
  ⟨by decide, DecodeUplink_encode_integer lppCodes (by decide) 5 255 65535, by decide⟩

/-- C10, as amended: for every channel and every `float32` value within the wire range of a
scaled type, negative values included, `DecodeUplink` applied to the bytes that the matching
`Add<Type>` wrote on a fresh encoder succeeds with one entry, whose value `v'` is the `float32`
nearest to `k / scale` for the wire integer `k`, which is less than one step away from `v`; so
`v'` is within `(1 + 2^-9)` steps of `v`, and `v' = v` when `v` is an exact multiple of the
step. -/
theorem DecodeUplink_encode_scaled (tc : TypeCodes) (hd : tc.Distinct) (c : Byte) :
    (∀ v : F32, v.InRange (-327.68) 327.67 → ∃ v',
      DecodeUplink tc (Bytes (AddAnalogInput tc NewEncoder c v)) =
        .ok [("analog_input_" ++ Nat.repr c.val, .float32 v')] ∧ F32.RoundTrip 100 v v') ∧
    (∀ v : F32, v.InRange (-327.68) 327.67 → ∃ v',
      DecodeUplink tc (Bytes (AddAnalogOutput tc NewEncoder c v)) =
        .ok [("analog_output_" ++ Nat.repr c.val, .float32 v')] ∧ F32.RoundTrip 100 v v') ∧
    (∀ v : F32, v.InRange (-3276.8) 3276.7 → ∃ v',
      DecodeUplink tc (Bytes (AddTemperature tc NewEncoder c v)) =
        .ok [("temperature_" ++ Nat.repr c.val, .float32 v')] ∧ F32.RoundTrip 10 v v') ∧
    (∀ v : F32, v.InRange (-3276.8) 3276.7 → ∃ v',
      DecodeUplink tc (Bytes (AddBarometricPressure tc NewEncoder c v)) =
        .ok [("barometric_pressure_" ++ Nat.repr c.val, .float32 v')] ∧
        F32.RoundTrip 10 v v') ∧
    (∀ v : F32, v.InRange 0 127.5 → ∃ v',
      DecodeUplink tc (Bytes (AddRelativeHumidity tc NewEncoder c v)) =
        .ok [("relative_humidity_" ++ Nat.repr c.val, .float32 v')] ∧ F32.RoundTrip 2 v v') ∧
    (∀ x y z : F32, x.InRange (-32.768) 32.767 → y.InRange (-32.768) 32.767 →
      z.InRange (-32.768) 32.767 → ∃ x' y' z',
      DecodeUplink tc (Bytes (AddAccelerometer tc NewEncoder c x y z)) =
        .ok [("accelerometer_" ++ Nat.repr c.val, .floats [x', y', z'])] ∧
        F32.RoundTrip 1000 x x' ∧ F32.RoundTrip 1000 y y' ∧ F32.RoundTrip 1000 z z') ∧
    (∀ x y z : F32, x.InRange (-327.68) 327.67 → y.InRange (-327.68) 327.67 →
      z.InRange (-327.68) 327.67 → ∃ x' y' z',
      DecodeUplink tc (Bytes (AddGyrometer tc NewEncoder c x y z)) =
        .ok [("gyrometer_" ++ Nat.repr c.val, .floats [x', y', z'])] ∧
        F32.RoundTrip 100 x x' ∧ F32.RoundTrip 100 y y' ∧ F32.RoundTrip 100 z z') := by
  have r100 : ∀ v : F32, v.InRange (-327.68) 327.67 →
      v.InRange (-32768 / ((100 : Nat) : ℚ)) (32767 / ((100 : Nat) : ℚ)) := by
    intro v hv
    have e1 : (-32768 / ((100 : Nat) : ℚ)) = -327.68 := by norm_num
    have e2 : (32767 / ((100 : Nat) : ℚ)) = 327.67 := by norm_num
    rw [e1, e2]
    exact hv
  have r10 : ∀ v : F32, v.InRange (-3276.8) 3276.7 →
      v.InRange (-32768 / ((10 : Nat) : ℚ)) (32767 / ((10 : Nat) : ℚ)) := by
    intro v hv
    have e1 : (-32768 / ((10 : Nat) : ℚ)) = -3276.8 := by norm_num
    have e2 : (32767 / ((10 : Nat) : ℚ)) = 3276.7 := by norm_num
    rw [e1, e2]
    exact hv
  have r1000 : ∀ v : F32, v.InRange (-32.768) 32.767 →
      v.InRange (-32768 / ((1000 : Nat) : ℚ)) (32767 / ((1000 : Nat) : ℚ)) := by
    intro v hv
    have e1 : (-32768 / ((1000 : Nat) : ℚ)) = -32.768 := by norm_num
    have e2 : (32767 / ((1000 : Nat) : ℚ)) = 32.767 := by norm_num
    rw [e1, e2]
    exact hv
  have r2 : ∀ v : F32, v.InRange 0 127.5 → v.InRange 0 (255 / ((2 : Nat) : ℚ)) := by
    intro v hv
    have e2 : (255 / ((2 : Nat) : ℚ)) = 127.5 := by norm_num
    rw [e2]
    exact hv
  refine ⟨?_, ?_, ?_, ?_, ?_, ?_, ?_⟩
  · intro v hv
    exact ⟨_, DecodeUplink_single hd ⟨c, .AnalogInput, _⟩ rfl,
      roundTrip16 (by norm_num) (by norm_num) v (r100 v hv) []⟩
  · intro v hv
    exact ⟨_, DecodeUplink_single hd ⟨c, .AnalogOutput, _⟩ rfl,
      roundTrip16 (by norm_num) (by norm_num) v (r100 v hv) []⟩
  · intro v hv
    exact ⟨_, DecodeUplink_single hd ⟨c, .Temperature, _⟩ rfl,
      roundTrip16 (by norm_num) (by norm_num) v (r10 v hv) []⟩
  · intro v hv
    exact ⟨_, DecodeUplink_single hd ⟨c, .BarometricPressure, _⟩ rfl,
      roundTrip16 (by norm_num) (by norm_num) v (r10 v hv) []⟩
  · intro v hv
    exact ⟨_, DecodeUplink_single hd ⟨c, .RelativeHumidity, [_]⟩ rfl,
      roundTrip8 (by norm_num) (by norm_num) v (r2 v hv)⟩
  · intro x y z hx hy hz
    exact ⟨_, _, _, DecodeUplink_single hd ⟨c, .Accelerometer, _⟩ rfl,
      roundTrip16 (by norm_num) (by norm_num) x (r1000 x hx)
        (writeUint16 (floatToUint16 (F32.mul y (F32.ofInt 1000))) ++
          writeUint16 (floatToUint16 (F32.mul z (F32.ofInt 1000)))),
      roundTrip16 (by norm_num) (by norm_num) y (r1000 y hy)
        (writeUint16 (floatToUint16 (F32.mul z (F32.ofInt 1000)))),
      roundTrip16 (by norm_num) (by norm_num) z (r1000 z hz) []⟩
  · intro x y z hx hy hz
    exact ⟨_, _, _, DecodeUplink_single hd ⟨c, .Gyrometer, _⟩ rfl,
      roundTrip16 (by norm_num) (by norm_num) x (r100 x hx)
        (writeUint16 (floatToUint16 (F32.mul y (F32.ofInt 100))) ++
          writeUint16 (floatToUint16 (F32.mul z (F32.ofInt 100)))),
      roundTrip16 (by norm_num) (by norm_num) y (r100 y hy)
        (writeUint16 (floatToUint16 (F32.mul z (F32.ofInt 100)))),
      roundTrip16 (by norm_num) (by norm_num) z (r100 z hz) []⟩

set_option maxRecDepth 100000 in
/-- The witness of C10: the `float32` nearest to -15.6 is within the range of a temperature, and
its round trip on channel 7 gives a value that the amended claim describes. -/
theorem DecodeUplink_encode_scaled_witness :
    lppCodes.Distinct ∧ (F32.ofRatio (-156) 10).InRange (-3276.8) 3276.7 ∧
    ∃ v', DecodeUplink lppCodes (Bytes (AddTemperature lppCodes NewEncoder 7
        (F32.ofRatio (-156) 10))) =
      .ok [("temperature_" ++ Nat.repr (7 : Byte).val, .float32 v')] ∧
      F32.RoundTrip 10 (F32.ofRatio (-156) 10) v' := by
  have h1 : F32.ofRatio (-156) 10 = ⟨-8178893 * 2 ^ 130⟩ := by decide
  have hr : (F32.ofRatio (-156) 10).InRange (-3276.8) 3276.7 := by
    refine ⟨by decide, ?_, ?_⟩
    · rw [h1, F32.toRat_mk]
      norm_num
    · rw [h1, F32.toRat_mk]
      norm_num
  exact ⟨by decide, hr, (DecodeUplink_encode_scaled lppCodes (by decide) 7).2.2.1 _ hr⟩

set_option maxRecDepth 100000 in
/-- C10 fails as stated: the `float32` nearest to 16.22 (16.2199993...) is within the range of
an analog input; times 100 it rounds to the `float32` 1621.9998..., so the wire integer is 1621
(bytes `06 55`), and the decoder returns the `float32` nearest to 16.21 (16.2099990...), which
is not less than 0.01 away from the value. -/
theorem DecodeUplink_encode_scaled_counterexample :
    (F32.ofRatio 1622 100).InRange (-327.68) 327.67 ∧
    Bytes (AddAnalogInput lppCodes NewEncoder 3 (F32.ofRatio 1622 100)) = [3, 2, 0x06, 0x55] ∧
    DecodeUplink lppCodes (Bytes (AddAnalogInput lppCodes NewEncoder 3 (F32.ofRatio 1622 100))) =
      .ok [("analog_input_3", .float32 (F32.ofRatio 1621 100))] ∧
    ¬ |(F32.ofRatio 1621 100).toRat - (F32.ofRatio 1622 100).toRat| < 1 / 100 := by
  have h1 : F32.ofRatio 1622 100 = ⟨8503951 * 2 ^ 130⟩ := by decide
  have h2 : F32.ofRatio 1621 100 = ⟨8498708 * 2 ^ 130⟩ := by decide
  refine ⟨⟨by decide, ?_, ?_⟩, by decide, by decide, ?_⟩
  · rw [h1, F32.toRat_mk]
    norm_num
  · rw [h1, F32.toRat_mk]
    norm_num
  · rw [h1, h2, F32.toRat_mk, F32.toRat_mk]
    norm_num [abs_lt]

/-- C11, as amended: for every channel and every `float32` latitude, longitude and altitude
whose scaled value lies between `-2^23` and `2^23 - 1` (latitude and longitude in
`[-838.8608, 838.8607]`, altitude in `[-83886.08, 83886.07]`), negative values included,
`AddGPS` writes 9 payload bytes that read, three by three as big-endian two's-complement
integers, as the integer parts of the scaled values, and `DecodeUplink` returns under
`gps_<channel>` a triple in which each component is the `float32` nearest to `k / scale` for
the wire integer `k`, which is less than one step away from the input; the component is
within 3/2 steps of the input and equals it when the input is an exact multiple of the step. -/
theorem DecodeUplink_encode_gps (tc : TypeCodes) (hd : tc.Distinct) (c : Byte)
    (lat lon alt : F32) (hlat : lat.InRange (-838.8608) 838.8607)
    (hlon : lon.InRange (-838.8608) 838.8607) (halt : alt.InRange (-83886.08) 83886.07) :
    (∃ p : List Byte, Bytes (AddGPS tc NewEncoder c lat lon alt) = c :: tc.GPS :: p ∧
      p.length = 9 ∧
      signed24At p 0 = F32.trunc (F32.mul lat (F32.ofInt 10000)) ∧
      signed24At p 3 = F32.trunc (F32.mul lon (F32.ofInt 10000)) ∧
      signed24At p 6 = F32.trunc (F32.mul alt (F32.ofInt 100))) ∧
    ∃ lat' lon' alt',
      DecodeUplink tc (Bytes (AddGPS tc NewEncoder c lat lon alt)) =
        .ok [("gps_" ++ Nat.repr c.val, .floats [lat', lon', alt'])] ∧
      F32.RoundTrip24 10000 lat lat' ∧ F32.RoundTrip24 10000 lon lon' ∧
      F32.RoundTrip24 100 alt alt' := by
  have r1 : ∀ v : F32, v.InRange (-838.8608) 838.8607 →
      v.InRange (-8388608 / ((10000 : Nat) : ℚ)) (8388607 / ((10000 : Nat) : ℚ)) := by
    intro v hv
    have e1 : (-8388608 / ((10000 : Nat) : ℚ)) = -838.8608 := by norm_num
    have e2 : (8388607 / ((10000 : Nat) : ℚ)) = 838.8607 := by norm_num
    rw [e1, e2]
    exact hv
  have r2 : alt.InRange (-8388608 / ((100 : Nat) : ℚ)) (8388607 / ((100 : Nat) : ℚ)) := by
    have e1 : (-8388608 / ((100 : Nat) : ℚ)) = -83886.08 := by norm_num
    have e2 : (8388607 / ((100 : Nat) : ℚ)) = 83886.07 := by norm_num
    rw [e1, e2]
    exact halt
  obtain ⟨a1, a2⟩ := roundTrip24 (show 0 < 10000 by decide) (by decide) lat (r1 lat hlat)
  obtain ⟨b1, b2⟩ := roundTrip24 (show 0 < 10000 by decide) (by decide) lon (r1 lon hlon)
  obtain ⟨c1, c2⟩ := roundTrip24 (show 0 < 100 by decide) (by decide) alt r2
  obtain ⟨t0, t3, t6⟩ := signed24At_triple
    (floatToUint32 (F32.mul lat (F32.ofInt ((10000 : Nat) : Int))))
    (floatToUint32 (F32.mul lon (F32.ofInt ((10000 : Nat) : Int))))
    (floatToUint32 (F32.mul alt (F32.ofInt ((100 : Nat) : Int))))
  refine ⟨⟨writeUint24 (floatToUint32 (F32.mul lat (F32.ofInt ((10000 : Nat) : Int)))) ++
      writeUint24 (floatToUint32 (F32.mul lon (F32.ofInt ((10000 : Nat) : Int)))) ++
      writeUint24 (floatToUint32 (F32.mul alt (F32.ofInt ((100 : Nat) : Int)))),
      rfl, rfl, ?_, ?_, ?_⟩, ?_⟩
  · rw [t0]; exact a1
  · rw [t3]; exact b1
  · rw [t6]; exact c1
  · refine ⟨_, _, _, DecodeUplink_single hd ⟨c, .GPS,
      writeUint24 (floatToUint32 (F32.mul lat (F32.ofInt ((10000 : Nat) : Int)))) ++
      writeUint24 (floatToUint32 (F32.mul lon (F32.ofInt ((10000 : Nat) : Int)))) ++
      writeUint24 (floatToUint32 (F32.mul alt (F32.ofInt ((100 : Nat) : Int))))⟩ rfl, ?_, ?_, ?_⟩
    · show F32.RoundTrip24 10000 lat (F32.ofRatio (signed24At _ 0) 10000)
      rw [t0]; exact a2
    · show F32.RoundTrip24 10000 lon (F32.ofRatio (signed24At _ 3) 10000)
      rw [t3]; exact b2
    · show F32.RoundTrip24 100 alt (F32.ofRatio (signed24At _ 6) 100)
      rw [t6]; exact c2

set_option maxRecDepth 100000 in
/-- The witness of C11: latitude 42.5, longitude -87.25, altitude 10 on channel 1. -/
theorem DecodeUplink_encode_gps_witness :
    lppCodes.Distinct ∧ (F32.ofRatio 85 2).InRange (-838.8608) 838.8607 ∧
    (F32.ofRatio (-349) 4).InRange (-838.8608) 838.8607 ∧
    (F32.ofInt 10).InRange (-83886.08) 83886.07 ∧
    ∃ lat' lon' alt',
      DecodeUplink lppCodes (Bytes (AddGPS lppCodes NewEncoder 1 (F32.ofRatio 85 2)
          (F32.ofRatio (-349) 4) (F32.ofInt 10))) =
        .ok [("gps_" ++ Nat.repr (1 : Byte).val, .floats [lat', lon', alt'])] ∧
      F32.RoundTrip24 10000 (F32.ofRatio 85 2) lat' ∧
      F32.RoundTrip24 10000 (F32.ofRatio (-349) 4) lon' ∧
      F32.RoundTrip24 100 (F32.ofInt 10) alt' := by
  have h1 : F32.ofRatio 85 2 = ⟨85 * 2 ^ 148⟩ := by decide
  have h2 : F32.ofRatio (-349) 4 = ⟨-349 * 2 ^ 147⟩ := by decide
  have h3 : F32.ofInt 10 = ⟨10 * 2 ^ 149⟩ := by decide
  have r1 : (F32.ofRatio 85 2).InRange (-838.8608) 838.8607 := by
    refine ⟨by decide, ?_, ?_⟩
    · rw [h1, F32.toRat_mk]
      norm_num
    · rw [h1, F32.toRat_mk]
      norm_num
  have r2 : (F32.ofRatio (-349) 4).InRange (-838.8608) 838.8607 := by
    refine ⟨by decide, ?_, ?_⟩
    · rw [h2, F32.toRat_mk]
      norm_num
    · rw [h2, F32.toRat_mk]
      norm_num
  have r3 : (F32.ofInt 10).InRange (-83886.08) 83886.07 := by
    refine ⟨by decide, ?_, ?_⟩
    · rw [h3, F32.toRat_mk]
      norm_num
    · rw [h3, F32.toRat_mk]
      norm_num
  exact ⟨by decide, r1, r2, r3, (DecodeUplink_encode_gps lppCodes (by decide) 1 _ _ _ r1 r2 r3).2⟩

set_option maxRecDepth 100000 in
/-- C11 fails as stated: the altitude 83886.078125 is a `float32` and times 100 it is
8388607.8125, below `2^23`; the product rounds to the `float32` `2^23`, which `AddGPS` writes as
`80 00 00`, and `DecodeUplink` returns the `float32` nearest to -83886.08. And the `float32`
nearest to 16.22 is written as 1621 and comes back as the `float32` nearest to 16.21, which is
not less than 0.01 away from it. -/
theorem DecodeUplink_encode_gps_counterexample :
    (F32.ofRatio 10737418 128).Valid ∧
    |(F32.ofRatio 10737418 128).toRat * 100| < 2 ^ 23 ∧
    Bytes (AddGPS lppCodes NewEncoder 1 (F32.ofInt 0) (F32.ofInt 0) (F32.ofRatio 10737418 128)) =
      [1, 136, 0, 0, 0, 0, 0, 0, 0x80, 0x00, 0x00] ∧
    DecodeUplink lppCodes (Bytes (AddGPS lppCodes NewEncoder 1 (F32.ofInt 0) (F32.ofInt 0)
        (F32.ofRatio 10737418 128))) =
      .ok [("gps_1", .floats [F32.ofInt 0, F32.ofInt 0, F32.ofRatio (-8388608) 100])] ∧
    (F32.ofRatio (-8388608) 100).toRat < -83886 ∧
    DecodeUplink lppCodes (Bytes (AddGPS lppCodes NewEncoder 1 (F32.ofInt 0) (F32.ofInt 0)
        (F32.ofRatio 1622 100))) =
      .ok [("gps_1", .floats [F32.ofInt 0, F32.ofInt 0, F32.ofRatio 1621 100])] ∧
    ¬ |(F32.ofRatio 1621 100).toRat - (F32.ofRatio 1622 100).toRat| < 1 / 100 := by
  have h0 : F32.ofRatio 10737418 128 = ⟨10737418 * 2 ^ 142⟩ := by decide
  have h1 : F32.ofRatio 1622 100 = ⟨8503951 * 2 ^ 130⟩ := by decide
  have h2 : F32.ofRatio 1621 100 = ⟨8498708 * 2 ^ 130⟩ := by decide
  have h3 : F32.ofRatio (-8388608) 100 = ⟨-10737418 * 2 ^ 142⟩ := by decide
  refine ⟨by decide, ?_, by decide, by decide, ?_, by decide, ?_⟩
  · rw [h0, F32.toRat_mk, abs_lt]
    constructor <;> norm_num
  · rw [h3, F32.toRat_mk]
    norm_num
  · rw [h1, h2, F32.toRat_mk, F32.toRat_mk]
    norm_num [abs_lt]



/-- C12, as amended: for every channel other than 255 and every `float32` value `v` with
`-327.68 ≤ v ≤ 327.67`, `AddPort` on a fresh encoder writes exactly three bytes, the channel
and the two bytes of the scaled value with no type code, and `DecodeDownlink` applied to them
returns a message whose only entry maps the channel to the `float32` `v'` nearest to `k / 100`
for the wire integer `k`, which is less than one step away from `v`; `v'` is within
`(1 + 2^-9)` steps of `v` and is `v` when `v` is an exact multiple of the step. On channel 255
the three bytes decode to the empty message. -/
theorem DecodeDownlink_AddPort (c : Byte) (hc : c ≠ 255) (v : F32)
    (hv : v.InRange (-327.68) 327.67) :
    (∃ hi lo : Byte, Bytes (AddPort NewEncoder c v) = [c, hi, lo] ∧
      (hi.val * 256 + lo.val : Nat) = floatToUint16 (F32.mul v (F32.ofInt 100))) ∧
    (∃ v', DecodeDownlink (Bytes (AddPort NewEncoder c v)) = .ok [(c, .float32 v')] ∧
      F32.RoundTrip 100 v v') ∧
    DecodeDownlink (Bytes (AddPort NewEncoder 255 v)) = .ok [] := by
  have hlt := floatToUint16_lt (F32.mul v (F32.ofInt 100))
  refine ⟨⟨toByte (floatToUint16 (F32.mul v (F32.ofInt 100)) / 256),
    toByte (floatToUint16 (F32.mul v (F32.ofInt 100))), rfl, ?_⟩,
    ⟨F32.ofRatio (signed16At (writeUint16 (floatToUint16 (F32.mul v (F32.ofInt 100))) ++ []) 0)
      100, ?_, ?_⟩, ?_⟩
  · simp only [toByte]
    omega
  · have h := DecodeDownlink_stream
      [Slot.mk c (toByte (floatToUint16 (F32.mul v (F32.ofInt 100)) / 256))
        (toByte (floatToUint16 (F32.mul v (F32.ofInt 100))))]
      (by simpa using hc) []
    simp only [downlinkStream, List.append_nil] at h
    show DecodeDownlink [c, _, _] = _
    rw [h]
    rfl
  · have e1 : (-32768 : ℚ) / ((100 : Nat) : ℚ) = -327.68 := by norm_num
    have e2 : (32767 : ℚ) / ((100 : Nat) : ℚ) = 327.67 := by norm_num
    exact roundTrip16 (show 0 < 100 by decide) (by decide) v (by rw [e1, e2]; exact hv) []
  · exact downlinkLoop_sentinel _ _ _

set_option maxRecDepth 100000 in
/-- The witness of C12: -1.25 on channel 4. -/
theorem DecodeDownlink_AddPort_witness :
    (4 : Byte) ≠ 255 ∧ (F32.ofRatio (-125) 100).InRange (-327.68) 327.67 ∧
    ∃ v', DecodeDownlink (Bytes (AddPort NewEncoder 4 (F32.ofRatio (-125) 100))) =
      .ok [(4, .float32 v')] ∧ F32.RoundTrip 100 (F32.ofRatio (-125) 100) v' := by
  have h1 : F32.ofRatio (-125) 100 = ⟨-5 * 2 ^ 147⟩ := by decide
  have hr : (F32.ofRatio (-125) 100).InRange (-327.68) 327.67 := by
    refine ⟨by decide, ?_, ?_⟩
    · rw [h1, F32.toRat_mk]
      norm_num
    · rw [h1, F32.toRat_mk]
      norm_num
  exact ⟨by decide, hr, (DecodeDownlink_AddPort 4 (by decide) _ hr).2.1⟩

set_option maxRecDepth 100000 in
/-- C12 fails as stated: on channel 255 the value 1.5 is within the range and `AddPort` writes
`FF 00 96`, but `DecodeDownlink` takes the channel byte for the end marker and returns the
empty message, with no entry for the channel. -/
theorem DecodeDownlink_AddPort_counterexample :
    (F32.ofRatio 150 100).InRange (-327.68) 327.67 ∧
    Bytes (AddPort NewEncoder 255 (F32.ofRatio 150 100)) = [0xFF, 0x00, 0x96] ∧
    DecodeDownlink (Bytes (AddPort NewEncoder 255 (F32.ofRatio 150 100))) = .ok [] ∧
    Msg.get ([] : DownlinkMessage) 255 = none := by
  have h1 : F32.ofRatio 150 100 = ⟨3 * 2 ^ 148⟩ := by decide
  refine ⟨⟨by decide, ?_, ?_⟩, by decide, by decide, rfl⟩
  · rw [h1, F32.toRat_mk]
    norm_num
  · rw [h1, F32.toRat_mk]
    norm_num



/-- C13: when a stream of complete records contains a record and, later, a record of the same
type and channel, `DecodeUplink` returns a message that is the one it returns for the stream
without the earlier record (the same value for every key, that is the same pairs); and when no
record after the later one has that type and channel, the key holds the value decoded from the
later record. -/
theorem DecodeUplink_duplicate (tc : TypeCodes) (hd : tc.Distinct) (pre : List Record)
    (r1 : Record) (mid : List Record) (r2 : Record) (post : List Record)
    (hc : ∀ r ∈ pre ++ r1 :: (mid ++ r2 :: post), r.Complete)
    (ht : r1.type = r2.type) (hch : r1.channel = r2.channel) :
    ∃ m m', DecodeUplink tc (uplinkStream tc (pre ++ r1 :: (mid ++ r2 :: post))) = .ok m ∧
      DecodeUplink tc (uplinkStream tc (pre ++ (mid ++ r2 :: post))) = .ok m' ∧
      (∀ k : String, m.get k = m'.get k) ∧ List.Perm m m' ∧
      ((∀ r ∈ post, ¬ (r.type = r2.type ∧ r.channel = r2.channel)) →
        m.get r2.key = some r2.value) := by
  have hk : r1.key = r2.key := (Record.key_eq_iff r1 r2).mpr ⟨ht, hch⟩
  have hc' : ∀ r ∈ pre ++ (mid ++ r2 :: post), r.Complete := by
    intro r hr
    apply hc
    simp only [List.mem_append, List.mem_cons] at hr ⊢
    tauto
  have hget := uplinkMessage_remove pre r1 mid r2 post hk
  refine ⟨_, _, DecodeUplink_uplinkStream hd _ hc, DecodeUplink_uplinkStream hd _ hc', hget,
    Msg.perm_of_get_eq _ _ (uplinkMessage_nodup _) (uplinkMessage_nodup _) hget, ?_⟩
  intro hpost
  have e : pre ++ r1 :: (mid ++ r2 :: post) = (pre ++ r1 :: mid) ++ r2 :: post := by simp
  rw [e]
  exact Msg.get_foldl_set_last Record.key Record.value (pre ++ r1 :: mid) r2 post []
    (fun r hr hkey => hpost r hr ((Record.key_eq_iff r r2).mp hkey))

set_option maxRecDepth 100000 in
/-- The witness of C13: two temperature records on channel 7 around an analog input; the
message holds the later temperature, -15.6, and is the message of the stream without the
earlier record. -/
theorem DecodeUplink_duplicate_witness :
    lppCodes.Distinct ∧
    (∃ m m', DecodeUplink lppCodes (uplinkStream lppCodes ([] ++ Record.mk 7 .Temperature [0, 10] ::
        ([Record.mk 3 .AnalogInput [0x15, 0x4A]] ++ Record.mk 7 .Temperature [0xFF, 0x64] :: [])))
        = .ok m ∧
      DecodeUplink lppCodes (uplinkStream lppCodes ([] ++
        ([Record.mk 3 .AnalogInput [0x15, 0x4A]] ++ Record.mk 7 .Temperature [0xFF, 0x64] :: [])))
        = .ok m' ∧
      (∀ k : String, m.get k = m'.get k) ∧ List.Perm m m' ∧
      ((∀ r ∈ ([] : List Record), ¬ (r.type = (Record.mk 7 .Temperature [0xFF, 0x64]).type ∧
          r.channel = (Record.mk 7 .Temperature [0xFF, 0x64]).channel)) →
        m.get (Record.mk 7 .Temperature [0xFF, 0x64]).key =
          some (Record.mk 7 .Temperature [0xFF, 0x64]).value)) ∧
    DecodeUplink lppCodes [7, 103, 0, 10, 3, 2, 0x15, 0x4A, 7, 103, 0xFF, 0x64] =
      .ok [("temperature_7", .float32 (F32.ofRatio (-156) 10)),
        ("analog_input_3", .float32 (F32.ofRatio 545 10))] :=
  ⟨by decide,
    DecodeUplink_duplicate lppCodes (by decide) [] (Record.mk 7 .Temperature [0, 10])
      [Record.mk 3 .AnalogInput [0x15, 0x4A]] (Record.mk 7 .Temperature [0xFF, 0x64]) []
      (by decide) rfl rfl,
    by decide⟩


/-- C14: the key of a record determines its type and its channel, and conversely; with distinct
type codes, two records have the same key if and only if they have the same type code and the
same channel; and a stream of `n` complete records whose (type, channel) pairs are pairwise
distinct decodes to a message with exactly `n` entries. -/
theorem uplinkKey_injective_entries (tc : TypeCodes) (hd : tc.Distinct) :
    (∀ r1 r2 : Record, r1.key = r2.key ↔ r1.type = r2.type ∧ r1.channel = r2.channel) ∧
    (∀ r1 r2 : Record,
      r1.key = r2.key ↔ tc.code r1.type = tc.code r2.type ∧ r1.channel = r2.channel) ∧
    (∀ rs : List Record, (∀ r ∈ rs, r.Complete) →
      (rs.map (fun r => (r.type, r.channel))).Nodup →
      ∃ m, DecodeUplink tc (uplinkStream tc rs) = .ok m ∧ m.length = rs.length) := by
  refine ⟨Record.key_eq_iff, ?_, ?_⟩
  · intro r1 r2
    rw [Record.key_eq_iff, tc.code_eq_iff hd]
  · intro rs hc hn
    refine ⟨_, DecodeUplink_uplinkStream hd rs hc, ?_⟩
    apply Msg.length_foldl_set
    have e : rs.map Record.key =
        (rs.map (fun r => (r.type, r.channel))).map (fun p => uplinkKey p.1 p.2) := by
      rw [List.map_map]
      rfl
    rw [e]
    apply List.Nodup.map _ hn
    rintro ⟨a, b⟩ ⟨a', b'⟩ h
    obtain ⟨h1, h2⟩ := uplinkKey_injective h
    simp only at h1 h2
    rw [h1, h2]

set_option maxRecDepth 100000 in
/-- The witness of C14: three complete records with distinct (type, channel) pairs, two of the
same type and two on the same channel, give three entries. -/
theorem uplinkKey_injective_entries_witness :
    lppCodes.Distinct ∧
    (∀ r ∈ [Record.mk 1 .DigitalInput [5], Record.mk 2 .DigitalInput [6],
      Record.mk 1 .Presence [7]], r.Complete) ∧
    ([Record.mk 1 .DigitalInput [5], Record.mk 2 .DigitalInput [6],
      Record.mk 1 .Presence [7]].map (fun r => (r.type, r.channel))).Nodup ∧
    ∃ m, DecodeUplink lppCodes (uplinkStream lppCodes [Record.mk 1 .DigitalInput [5],
      Record.mk 2 .DigitalInput [6], Record.mk 1 .Presence [7]]) = .ok m ∧
      m.length = [Record.mk 1 .DigitalInput [5], Record.mk 2 .DigitalInput [6],
        Record.mk 1 .Presence [7]].length :=
  ⟨by decide, by decide, by decide,
    (uplinkKey_injective_entries lppCodes (by decide)).2.2 _ (by decide) (by decide)⟩



/-- C15: an error of `DecodeUplink` or `DecodeDownlink` comes with no message. After any
number of complete records, a lone channel byte, a header whose payload is shorter than the
width of its type, and (uplink) a header with an unknown type code each give the pair of a nil
message and an error, not the message of the records already decoded; for every stream the
message is nil exactly when the error is not, and a returned message comes with a nil error. -/
theorem decode_error_no_message (tc : TypeCodes) (hd : tc.Distinct) (rs : List Record)
    (hrs : ∀ r ∈ rs, r.Complete) (ss : List Slot) (hss : ∀ s ∈ ss, s.channel ≠ 255) (c : Byte) :
    goReturn (DecodeUplink tc (uplinkStream tc rs ++ [c])) = (none, some .ErrUnexpectedEOF) ∧
    (∀ (ty : SensorType) (p : List Byte), p.length < ty.width →
      ∃ e, goReturn (DecodeUplink tc (uplinkStream tc rs ++ c :: tc.code ty :: p)) =
        (none, some e)) ∧
    (∀ (t : Byte) (rest : List Byte), tc.Unknown t →
      goReturn (DecodeUplink tc (uplinkStream tc rs ++ c :: t :: rest)) =
        (none, some .ErrInvalidChannel)) ∧
    (c ≠ 255 →
      goReturn (DecodeDownlink (downlinkStream ss ++ [c])) = (none, some .EOF) ∧
      ∀ b : Byte, goReturn (DecodeDownlink (downlinkStream ss ++ [c, b])) =
        (none, some .ErrUnexpectedEOF)) ∧
    (∀ r : List Byte, ((goReturn (DecodeUplink tc r)).1 = none ↔
        (goReturn (DecodeUplink tc r)).2 ≠ none) ∧
      ((goReturn (DecodeDownlink r)).1 = none ↔ (goReturn (DecodeDownlink r)).2 ≠ none)) ∧
    (∀ (r : List Byte) (m : UplinkMessage), (goReturn (DecodeUplink tc r)).1 = some m →
      goReturn (DecodeUplink tc r) = (some m, none)) ∧
    (∀ (r : List Byte) (m : DownlinkMessage), (goReturn (DecodeDownlink r)).1 = some m →
      goReturn (DecodeDownlink r) = (some m, none)) := by
  refine ⟨?_, ?_, ?_, ?_, ?_, ?_, ?_⟩
  · rw [DecodeUplink_stream hd rs hrs]
    rfl
  · intro ty p hp
    obtain ⟨e, he⟩ := decodePayload_short ty c (uplinkMessage rs) hp
    refine ⟨e, ?_⟩
    rw [DecodeUplink_stream hd rs hrs, uplinkLoop_header, decodeRecord_code hd, he]
    rfl
  · intro t rest ht
    rw [DecodeUplink_stream hd rs hrs, uplinkLoop_unknown ht]
    rfl
  · intro hc
    obtain ⟨h1, h2⟩ := DecodeDownlink_truncated ss hss c hc
    refine ⟨?_, fun b => ?_⟩
    · rw [h1]; rfl
    · rw [h2 b]; rfl
  · intro r
    constructor
    · cases DecodeUplink tc r <;> simp [goReturn]
    · cases DecodeDownlink r <;> simp [goReturn]
  · intro r m h
    cases hx : DecodeUplink tc r with
    | error e => rw [hx] at h; simp [goReturn] at h
    | ok a =>
      rw [hx] at h
      simp only [goReturn, Option.some.injEq] at h
      rw [← h]; rfl
  · intro r m h
    cases hx : DecodeDownlink r with
    | error e => rw [hx] at h; simp [goReturn] at h
    | ok a =>
      rw [hx] at h
      simp only [goReturn, Option.some.injEq] at h
      rw [← h]; rfl

set_option maxRecDepth 100000 in
/-- The witness of C15: after a complete temperature record, a cut accelerometer record gives no
message and an error, where the temperature alone gives a message. -/
theorem decode_error_no_message_witness :
    lppCodes.Distinct ∧
    goReturn (DecodeUplink lppCodes [3, 103, 0x01, 0x10]) =
      (some [("temperature_3", .float32 (F32.ofRatio 272 10))], none) ∧
    goReturn (DecodeUplink lppCodes [3, 103, 0x01, 0x10, 6, 113, 0x04, 0xD2, 0x01]) =
      (none, some .ErrUnexpectedEOF) ∧
    goReturn (DecodeUplink lppCodes [3, 103, 0x01, 0x10, 6]) = (none, some .ErrUnexpectedEOF) := by
  have h := decode_error_no_message lppCodes (by decide) [Record.mk 3 .Temperature [0x01, 0x10]]
    (by decide) [] (by decide) 6
  exact ⟨by decide, by decide, by decide, h.1⟩



set_option maxRecDepth 100000 in
/-- C16: every typed `Add` operation leaves the contents `e` of the buffer in place and appends
exactly the channel byte, the type code of its type and the payload of that type: the value
byte for digital input, digital output and presence, the byte `uint8(rh * 2)` for relative
humidity, the two bytes of the 16-bit wire integer, high byte first, for analog input, analog
output, luminosity, temperature and barometric pressure, three such pairs for accelerometer and
gyrometer, and for GPS three triples, each the low 24 bits of the 32-bit wire integer, high
byte first. `AddPort` appends the channel byte and the two bytes of the 16-bit wire integer,
high byte first, with no type code. The bytes of some values are computed: 54.5 as an analog
input is `15 4A`, the temperature -15.6 is `FF 64`, the humidity 50 is `64`, the position
(42.5, -87.25, 10) is `06 7C 28 F2 AF CC 00 03 E8`, and -1.25 through `AddPort` is `FF 83`. -/
theorem Add_appends (tc : TypeCodes) (e : List Byte) (c : Byte) :
    (∀ v : Byte, AddDigitalInput tc e c v = e ++ [c, tc.DigitalInput, v]) ∧
    (∀ v : Byte, AddDigitalOutput tc e c v = e ++ [c, tc.DigitalOutput, v]) ∧
    (∀ v : Byte, AddPresence tc e c v = e ++ [c, tc.Presence, v]) ∧
    (∀ v : F32, ∃ b : Byte,
      AddRelativeHumidity tc e c v = e ++ [c, tc.RelativeHumidity, b] ∧
        b.val = floatToUint8 (F32.mul v (F32.ofInt 2))) ∧
    (∀ v : F32, ∃ hi lo : Byte,
      AddAnalogInput tc e c v = e ++ [c, tc.AnalogInput, hi, lo] ∧
        hi.val * 256 + lo.val = floatToUint16 (F32.mul v (F32.ofInt 100))) ∧
    (∀ v : F32, ∃ hi lo : Byte,
      AddAnalogOutput tc e c v = e ++ [c, tc.AnalogOutput, hi, lo] ∧
        hi.val * 256 + lo.val = floatToUint16 (F32.mul v (F32.ofInt 100))) ∧
    (∀ v : F32, ∃ hi lo : Byte,
      AddTemperature tc e c v = e ++ [c, tc.Temperature, hi, lo] ∧
        hi.val * 256 + lo.val = floatToUint16 (F32.mul v (F32.ofInt 10))) ∧
    (∀ v : F32, ∃ hi lo : Byte,
      AddBarometricPressure tc e c v = e ++ [c, tc.BarometricPressure, hi, lo] ∧
        hi.val * 256 + lo.val = floatToUint16 (F32.mul v (F32.ofInt 10))) ∧
    (∀ v : Fin 65536, ∃ hi lo : Byte,
      AddLuminosity tc e c v = e ++ [c, tc.Luminosity, hi, lo] ∧
        hi.val * 256 + lo.val = v.val) ∧
    (∀ x y z : F32, ∃ x1 x0 y1 y0 z1 z0 : Byte,
      AddAccelerometer tc e c x y z = e ++ [c, tc.Accelerometer, x1, x0, y1, y0, z1, z0] ∧
        x1.val * 256 + x0.val = floatToUint16 (F32.mul x (F32.ofInt 1000)) ∧
        y1.val * 256 + y0.val = floatToUint16 (F32.mul y (F32.ofInt 1000)) ∧
        z1.val * 256 + z0.val = floatToUint16 (F32.mul z (F32.ofInt 1000))) ∧
    (∀ x y z : F32, ∃ x1 x0 y1 y0 z1 z0 : Byte,
      AddGyrometer tc e c x y z = e ++ [c, tc.Gyrometer, x1, x0, y1, y0, z1, z0] ∧
        x1.val * 256 + x0.val = floatToUint16 (F32.mul x (F32.ofInt 100)) ∧
        y1.val * 256 + y0.val = floatToUint16 (F32.mul y (F32.ofInt 100)) ∧
        z1.val * 256 + z0.val = floatToUint16 (F32.mul z (F32.ofInt 100))) ∧
    (∀ x y z : F32, ∃ x2 x1 x0 y2 y1 y0 z2 z1 z0 : Byte,
      AddGPS tc e c x y z = e ++ [c, tc.GPS, x2, x1, x0, y2, y1, y0, z2, z1, z0] ∧
        x2.val * 65536 + x1.val * 256 + x0.val = floatToUint32 (F32.mul x (F32.ofInt 10000)) % 16777216 ∧
        y2.val * 65536 + y1.val * 256 + y0.val = floatToUint32 (F32.mul y (F32.ofInt 10000)) % 16777216 ∧
        z2.val * 65536 + z1.val * 256 + z0.val = floatToUint32 (F32.mul z (F32.ofInt 100)) % 16777216) ∧
    (∀ v : F32, ∃ hi lo : Byte,
      AddPort e c v = e ++ [c, hi, lo] ∧
        hi.val * 256 + lo.val = floatToUint16 (F32.mul v (F32.ofInt 100))) ∧
    (AddAnalogInput tc e c (F32.ofRatio 545 10) = e ++ [c, tc.AnalogInput, 0x15, 0x4A] ∧
      AddTemperature tc e c (F32.ofRatio (-156) 10) = e ++ [c, tc.Temperature, 0xFF, 0x64] ∧
      AddRelativeHumidity tc e c (F32.ofInt 50) = e ++ [c, tc.RelativeHumidity, 100] ∧
      AddGPS tc e c (F32.ofRatio 85 2) (F32.ofRatio (-349) 4) (F32.ofInt 10) =
        e ++ [c, tc.GPS, 0x06, 0x7C, 0x28, 0xF2, 0xAF, 0xCC, 0x00, 0x03, 0xE8] ∧
      AddPort e c (F32.ofRatio (-125) 100) = e ++ [c, 0xFF, 0x83]) := by
  refine ⟨?_, ?_, ?_, ?_, ?_, ?_, ?_, ?_, ?_, ?_, ?_, ?_, ?_, ?_⟩
  · intro v
    rfl
  · intro v
    rfl
  · intro v
    rfl
  · intro v
    exact ⟨_, rfl, toByte_val_floatToUint8 _⟩
  · intro v
    obtain ⟨hi, lo, h1, h2⟩ := writeUint16_bytes (floatToUint16_lt (F32.mul v (F32.ofInt 100)))
    refine ⟨hi, lo, ?_, h2⟩
    rw [AddAnalogInput, h1]
    simp
  · intro v
    obtain ⟨hi, lo, h1, h2⟩ := writeUint16_bytes (floatToUint16_lt (F32.mul v (F32.ofInt 100)))
    refine ⟨hi, lo, ?_, h2⟩
    rw [AddAnalogOutput, h1]
    simp
  · intro v
    obtain ⟨hi, lo, h1, h2⟩ := writeUint16_bytes (floatToUint16_lt (F32.mul v (F32.ofInt 10)))
    refine ⟨hi, lo, ?_, h2⟩
    rw [AddTemperature, h1]
    simp
  · intro v
    obtain ⟨hi, lo, h1, h2⟩ := writeUint16_bytes (floatToUint16_lt (F32.mul v (F32.ofInt 10)))
    refine ⟨hi, lo, ?_, h2⟩
    rw [AddBarometricPressure, h1]
    simp
  · intro v
    obtain ⟨hi, lo, h1, h2⟩ := writeUint16_bytes v.isLt
    refine ⟨hi, lo, ?_, h2⟩
    rw [AddLuminosity, h1]
    simp
  · intro x y z
    obtain ⟨x1, x0, hx, hx'⟩ := writeUint16_bytes (floatToUint16_lt (F32.mul x (F32.ofInt 1000)))
    obtain ⟨y1, y0, hy, hy'⟩ := writeUint16_bytes (floatToUint16_lt (F32.mul y (F32.ofInt 1000)))
    obtain ⟨z1, z0, hz, hz'⟩ := writeUint16_bytes (floatToUint16_lt (F32.mul z (F32.ofInt 1000)))
    refine ⟨x1, x0, y1, y0, z1, z0, ?_, hx', hy', hz'⟩
    rw [AddAccelerometer, hx, hy, hz]
    simp
  · intro x y z
    obtain ⟨x1, x0, hx, hx'⟩ := writeUint16_bytes (floatToUint16_lt (F32.mul x (F32.ofInt 100)))
    obtain ⟨y1, y0, hy, hy'⟩ := writeUint16_bytes (floatToUint16_lt (F32.mul y (F32.ofInt 100)))
    obtain ⟨z1, z0, hz, hz'⟩ := writeUint16_bytes (floatToUint16_lt (F32.mul z (F32.ofInt 100)))
    refine ⟨x1, x0, y1, y0, z1, z0, ?_, hx', hy', hz'⟩
    rw [AddGyrometer, hx, hy, hz]
    simp
  · intro x y z
    obtain ⟨x2, x1, x0, hx, hx'⟩ := writeUint24_bytes (floatToUint32 (F32.mul x (F32.ofInt 10000)))
    obtain ⟨y2, y1, y0, hy, hy'⟩ := writeUint24_bytes (floatToUint32 (F32.mul y (F32.ofInt 10000)))
    obtain ⟨z2, z1, z0, hz, hz'⟩ := writeUint24_bytes (floatToUint32 (F32.mul z (F32.ofInt 100)))
    refine ⟨x2, x1, x0, y2, y1, y0, z2, z1, z0, ?_, hx', hy', hz'⟩
    rw [AddGPS, hx, hy, hz]
    simp
  · intro v
    obtain ⟨hi, lo, h1, h2⟩ := writeUint16_bytes (floatToUint16_lt (F32.mul v (F32.ofInt 100)))
    refine ⟨hi, lo, ?_, h2⟩
    rw [AddPort, h1]
    simp
  · have h1 : writeUint16 (floatToUint16 (F32.mul (F32.ofRatio 545 10) (F32.ofInt 100))) =
        [0x15, 0x4A] := by decide
    have h2 : writeUint16 (floatToUint16 (F32.mul (F32.ofRatio (-156) 10) (F32.ofInt 10))) =
        [0xFF, 0x64] := by decide
    have h3 : toByte (floatToUint8 (F32.mul (F32.ofInt 50) (F32.ofInt 2))) = 100 := by decide
    have h4 : writeUint24 (floatToUint32 (F32.mul (F32.ofRatio 85 2) (F32.ofInt 10000))) =
        [0x06, 0x7C, 0x28] := by decide
    have h5 : writeUint24 (floatToUint32 (F32.mul (F32.ofRatio (-349) 4) (F32.ofInt 10000))) =
        [0xF2, 0xAF, 0xCC] := by decide
    have h6 : writeUint24 (floatToUint32 (F32.mul (F32.ofInt 10) (F32.ofInt 100))) =
        [0x00, 0x03, 0xE8] := by decide
    have h7 : writeUint16 (floatToUint16 (F32.mul (F32.ofRatio (-125) 100) (F32.ofInt 100))) =
        [0xFF, 0x83] := by decide
    refine ⟨?_, ?_, ?_, ?_, ?_⟩
    · rw [AddAnalogInput, h1]
      simp
    · rw [AddTemperature, h2]
      simp
    · rw [AddRelativeHumidity, h3]
    · rw [AddGPS, h4, h5, h6]
      simp
    · rw [AddPort, h7]
      simp

set_option maxRecDepth 100000 in
/-- The witness of C16: on a buffer that holds `07 08`, `AddAnalogInput(3, 54.5)` appends
`03 02 15 4A`, the wire integer being 5450, and `AddGPS(1, 42.5, -87.25, 10)` appends the
triples of 425000, of -872500 (as 24 bits) and of 1000. -/
theorem Add_appends_witness :
    floatToUint16 (F32.mul (F32.ofRatio 545 10) (F32.ofInt 100)) = 5450 ∧
    AddAnalogInput lppCodes [7, 8] 3 (F32.ofRatio 545 10) = [7, 8, 3, 2, 0x15, 0x4A] ∧
    (∃ hi lo : Byte,
      AddAnalogInput lppCodes [7, 8] 3 (F32.ofRatio 545 10) =
        [7, 8] ++ [3, lppCodes.AnalogInput, hi, lo] ∧
        hi.val * 256 + lo.val = floatToUint16 (F32.mul (F32.ofRatio 545 10) (F32.ofInt 100))) ∧
    AddGPS lppCodes [7, 8] 1 (F32.ofRatio 85 2) (F32.ofRatio (-349) 4) (F32.ofInt 10) =
      [7, 8, 1, 136, 0x06, 0x7C, 0x28, 0xF2, 0xAF, 0xCC, 0x00, 0x03, 0xE8] ∧
    AddPort [7, 8] 4 (F32.ofRatio (-125) 100) = [7, 8, 4, 0xFF, 0x83] :=
  ⟨by decide, by decide, (Add_appends lppCodes [7, 8] 3).2.2.2.2.1 (F32.ofRatio 545 10),
    by decide, by decide⟩

set_option maxRecDepth 100000 in
/-- C17, as amended: encoding never fails, and while the integer part of `v * scale` is within
the range of the signed integer that the conversion goes through (32 bits; 64 bits for GPS),
`Add<Type>` writes as payload that integer reduced modulo `2^16` (modulo `2^8` for relative
humidity, modulo `2^24` for each component of GPS), big-endian. `AddTemperature(c, 3276.8)`
writes the payload `80 00`, as `AddTemperature(c, -3276.8)` does, and it decodes to the
`float32` nearest to -3276.8. -/
theorem Add_wraps (tc : TypeCodes) (hd : tc.Distinct) (e : List Byte) (c : Byte) :
    (∀ v : F32, -2147483648 ≤ F32.trunc (F32.mul v (F32.ofInt 100)) ∧ F32.trunc (F32.mul v (F32.ofInt 100)) ≤ 2147483647 →
      AddAnalogInput tc e c v =
        e ++ [c, tc.AnalogInput] ++ writeUint16 (F32.trunc (F32.mul v (F32.ofInt 100)) % 65536).toNat) ∧
    (∀ v : F32, -2147483648 ≤ F32.trunc (F32.mul v (F32.ofInt 100)) ∧ F32.trunc (F32.mul v (F32.ofInt 100)) ≤ 2147483647 →
      AddAnalogOutput tc e c v =
        e ++ [c, tc.AnalogOutput] ++ writeUint16 (F32.trunc (F32.mul v (F32.ofInt 100)) % 65536).toNat) ∧
    (∀ v : F32, -2147483648 ≤ F32.trunc (F32.mul v (F32.ofInt 10)) ∧ F32.trunc (F32.mul v (F32.ofInt 10)) ≤ 2147483647 →
      AddTemperature tc e c v =
        e ++ [c, tc.Temperature] ++ writeUint16 (F32.trunc (F32.mul v (F32.ofInt 10)) % 65536).toNat) ∧
    (∀ v : F32, -2147483648 ≤ F32.trunc (F32.mul v (F32.ofInt 10)) ∧ F32.trunc (F32.mul v (F32.ofInt 10)) ≤ 2147483647 →
      AddBarometricPressure tc e c v =
        e ++ [c, tc.BarometricPressure] ++ writeUint16 (F32.trunc (F32.mul v (F32.ofInt 10)) % 65536).toNat) ∧
    (∀ v : F32, -2147483648 ≤ F32.trunc (F32.mul v (F32.ofInt 2)) ∧ F32.trunc (F32.mul v (F32.ofInt 2)) ≤ 2147483647 →
      AddRelativeHumidity tc e c v =
        e ++ [c, tc.RelativeHumidity, toByte (F32.trunc (F32.mul v (F32.ofInt 2)) % 256).toNat]) ∧
    (∀ x y z : F32, (-2147483648 ≤ F32.trunc (F32.mul x (F32.ofInt 1000)) ∧ F32.trunc (F32.mul x (F32.ofInt 1000)) ≤ 2147483647) →
      (-2147483648 ≤ F32.trunc (F32.mul y (F32.ofInt 1000)) ∧ F32.trunc (F32.mul y (F32.ofInt 1000)) ≤ 2147483647) →
      (-2147483648 ≤ F32.trunc (F32.mul z (F32.ofInt 1000)) ∧ F32.trunc (F32.mul z (F32.ofInt 1000)) ≤ 2147483647) →
      AddAccelerometer tc e c x y z =
        e ++ [c, tc.Accelerometer] ++ writeUint16 (F32.trunc (F32.mul x (F32.ofInt 1000)) % 65536).toNat
          ++ writeUint16 (F32.trunc (F32.mul y (F32.ofInt 1000)) % 65536).toNat
          ++ writeUint16 (F32.trunc (F32.mul z (F32.ofInt 1000)) % 65536).toNat) ∧
    (∀ x y z : F32, (-2147483648 ≤ F32.trunc (F32.mul x (F32.ofInt 100)) ∧ F32.trunc (F32.mul x (F32.ofInt 100)) ≤ 2147483647) →
      (-2147483648 ≤ F32.trunc (F32.mul y (F32.ofInt 100)) ∧ F32.trunc (F32.mul y (F32.ofInt 100)) ≤ 2147483647) →
      (-2147483648 ≤ F32.trunc (F32.mul z (F32.ofInt 100)) ∧ F32.trunc (F32.mul z (F32.ofInt 100)) ≤ 2147483647) →
      AddGyrometer tc e c x y z =
        e ++ [c, tc.Gyrometer] ++ writeUint16 (F32.trunc (F32.mul x (F32.ofInt 100)) % 65536).toNat
          ++ writeUint16 (F32.trunc (F32.mul y (F32.ofInt 100)) % 65536).toNat
          ++ writeUint16 (F32.trunc (F32.mul z (F32.ofInt 100)) % 65536).toNat) ∧
    (∀ x y z : F32, (-9223372036854775808 ≤ F32.trunc (F32.mul x (F32.ofInt 10000)) ∧ F32.trunc (F32.mul x (F32.ofInt 10000)) ≤ 9223372036854775807) →
      (-9223372036854775808 ≤ F32.trunc (F32.mul y (F32.ofInt 10000)) ∧ F32.trunc (F32.mul y (F32.ofInt 10000)) ≤ 9223372036854775807) →
      (-9223372036854775808 ≤ F32.trunc (F32.mul z (F32.ofInt 100)) ∧ F32.trunc (F32.mul z (F32.ofInt 100)) ≤ 9223372036854775807) →
      AddGPS tc e c x y z =
        e ++ [c, tc.GPS] ++ writeUint24 (F32.trunc (F32.mul x (F32.ofInt 10000)) % 16777216).toNat
          ++ writeUint24 (F32.trunc (F32.mul y (F32.ofInt 10000)) % 16777216).toNat
          ++ writeUint24 (F32.trunc (F32.mul z (F32.ofInt 100)) % 16777216).toNat) ∧
    (AddTemperature tc e c (F32.ofRatio 32768 10) = e ++ [c, tc.Temperature, 0x80, 0x00] ∧
      AddTemperature tc e c (F32.ofRatio (-32768) 10) = e ++ [c, tc.Temperature, 0x80, 0x00] ∧
      DecodeUplink tc (Bytes (AddTemperature tc NewEncoder c (F32.ofRatio 32768 10))) =
        .ok [("temperature_" ++ Nat.repr c.val, .float32 (F32.ofRatio (-32768) 10))]) := by
  refine ⟨?_, ?_, ?_, ?_, ?_, ?_, ?_, ?_, ?_⟩
  · intro v hv
    rw [AddAnalogInput, floatToUint16_of_int32 hv]
  · intro v hv
    rw [AddAnalogOutput, floatToUint16_of_int32 hv]
  · intro v hv
    rw [AddTemperature, floatToUint16_of_int32 hv]
  · intro v hv
    rw [AddBarometricPressure, floatToUint16_of_int32 hv]
  · intro v hv
    rw [AddRelativeHumidity, floatToUint8_of_int32 hv]
  · intro x y z hx hy hz
    rw [AddAccelerometer, floatToUint16_of_int32 hx, floatToUint16_of_int32 hy,
      floatToUint16_of_int32 hz]
  · intro x y z hx hy hz
    rw [AddGyrometer, floatToUint16_of_int32 hx, floatToUint16_of_int32 hy,
      floatToUint16_of_int32 hz]
  · intro x y z hx hy hz
    rw [AddGPS, writeUint24_floatToUint32 hx, writeUint24_floatToUint32 hy,
      writeUint24_floatToUint32 hz]
  · have h1 : writeUint16 (floatToUint16 (F32.mul (F32.ofRatio 32768 10) (F32.ofInt 10))) =
        [0x80, 0x00] := by decide
    have h2 : writeUint16 (floatToUint16 (F32.mul (F32.ofRatio (-32768) 10) (F32.ofInt 10))) =
        [0x80, 0x00] := by decide
    refine ⟨?_, ?_, ?_⟩
    · rw [AddTemperature, h1]
      simp
    · rw [AddTemperature, h2]
      simp
    · rw [AddTemperature, h1]
      have h3 := DecodeUplink_single hd ⟨c, .Temperature, [0x80, 0x00]⟩ rfl
      have h4 : signed16At [0x80, 0x00] 0 = -32768 := by decide
      have h5 : (Record.mk c .Temperature [0x80, 0x00]).value =
          .float32 (F32.ofRatio (-32768) 10) := by
        show Value.float32 (F32.ofRatio (signed16At [0x80, 0x00] 0) 10) = _
        rw [h4]
      rw [h5] at h3
      exact h3

set_option maxRecDepth 100000 in
/-- The witness of C17: 5000 degrees is outside the wire range of a temperature; its scaled
integer 50000 is written as it is (`C3 50`), which is the wire integer -15536. -/
theorem Add_wraps_witness :
    lppCodes.Distinct ∧
    (-2147483648 ≤ F32.trunc (F32.mul (F32.ofInt 5000) (F32.ofInt 10)) ∧
      F32.trunc (F32.mul (F32.ofInt 5000) (F32.ofInt 10)) ≤ 2147483647) ∧
    AddTemperature lppCodes [] 1 (F32.ofInt 5000) =
      [] ++ [1, lppCodes.Temperature] ++
        writeUint16 (F32.trunc (F32.mul (F32.ofInt 5000) (F32.ofInt 10)) % 65536).toNat ∧
    AddTemperature lppCodes [] 1 (F32.ofInt 5000) = [1, 103, 0xC3, 0x50] :=
  ⟨by decide, by decide,
    (Add_wraps lppCodes (by decide) [] 1).2.2.1 (F32.ofInt 5000) (by decide), by decide⟩

set_option maxRecDepth 100000 in
/-- C17 fails as stated for values whose scaled integer does not fit the signed 32-bit
conversion: for the temperature `10^10`, a `float32`, the product by 10 rounds to 99999997952,
whose residue modulo `2^16` is 57344 (`E0 00`); the conversion returns `-2^31` and
`AddTemperature` writes `00 00` (a saturating processor gives `2^31 - 1` and `FF FF`). -/
theorem Add_wraps_counterexample :
    (F32.ofInt 10000000000).Valid ∧
    F32.trunc (F32.mul (F32.ofInt 10000000000) (F32.ofInt 10)) = 99999997952 ∧
    writeUint16 ((99999997952 : Int) % 65536).toNat = [0xE0, 0x00] ∧
    AddTemperature lppCodes NewEncoder 1 (F32.ofInt 10000000000) = [1, 103, 0x00, 0x00] ∧
    writeUint16 (floatToInt32Sat (F32.mul (F32.ofInt 10000000000) (F32.ofInt 10)) % 65536).toNat =
      [0xFF, 0xFF] := by
  refine ⟨by decide, by decide, by decide, by decide, by decide⟩



set_option maxRecDepth 100000 in
/-- C18, as amended: for every input stream, every value of a message that `DecodeUplink` or
`DecodeDownlink` returns is within the bound of its type, the ends of a scaled range being the
`float32` nearest to the range of the wire integer divided by the scale: temperature and
barometric pressure between the `float32` nearest to -3276.8 and to 3276.7, analog input and
output, gyrometer components and downlink values between those nearest to -327.68 and 327.67,
accelerometer components to -32.768 and 32.767, relative humidity between 0 and 127.5,
luminosity at most 65535, digital input, digital output and presence at most 255, GPS latitude
and longitude between the `float32` nearest to -838.8608 and 838.8607 and altitude to -83886.08
and 83886.07. The ends are given as exact numbers. -/
theorem decoded_values_bounded (tc : TypeCodes) (hd : tc.Distinct) (r : List Byte) :
    (∀ m, DecodeUplink tc r = .ok m → ∀ k v, m.get k = some v →
      ∃ ty c, k = uplinkKey ty c ∧ ty.Bounds v) ∧
    (∀ m, DecodeDownlink r = .ok m → ∀ c v, m.get c = some v →
      ∃ f, v = .float32 f ∧ f.Between (-32768) 32767 100) ∧
    ((F32.ofRatio (-32768) 10).toRat = -13421773 / 2 ^ 12 ∧
      (F32.ofRatio 32767 10).toRat = 13421363 / 2 ^ 12 ∧
      (F32.ofRatio (-32768) 100).toRat = -5368709 / 2 ^ 14 ∧
      (F32.ofRatio 32767 100).toRat = 10737091 / 2 ^ 15 ∧
      (F32.ofRatio (-32768) 1000).toRat = -8589935 / 2 ^ 18 ∧
      (F32.ofRatio 32767 1000).toRat = 1073709 / 2 ^ 15 ∧
      (F32.ofRatio 0 2).toRat = 0 ∧
      (F32.ofRatio 255 2).toRat = 127.5 ∧
      (F32.ofRatio (-8388608) 10000).toRat = -13743895 / 2 ^ 14 ∧
      (F32.ofRatio 8388607 10000).toRat = 6871947 / 2 ^ 13 ∧
      (F32.ofRatio (-8388608) 100).toRat = -5368709 / 2 ^ 6 ∧
      (F32.ofRatio 8388607 100).toRat = 10737417 / 2 ^ 7) := by
  refine ⟨?_, ?_, ?_⟩
  · intro m hm k v hk
    obtain ⟨rs, -, -, rfl⟩ := DecodeUplink_ok_records hd hm
    rcases Msg.mem_foldl_set (fun x : Record => x.key) (fun x : Record => x.value) rs [] (k, v)
      (Msg.mem_of_get _ k v hk) with h | ⟨x, -, hx⟩
    · cases h
    · simp only [Prod.mk.injEq] at hx
      refine ⟨x.type, x.channel, hx.1, ?_⟩
      rw [hx.2]
      exact x.value_bounds
  · intro m hm c v hc
    obtain ⟨f, hf, hb⟩ := downlinkLoop_bounds _ r [] m hm (fun p hp => by cases hp) (c, v)
      (Msg.mem_of_get _ c v hc)
    exact ⟨f, hf, hb⟩
  · have h1 : F32.ofRatio (-32768) 10 = ⟨-13421773 * 2 ^ 137⟩ := by decide
    have h2 : F32.ofRatio 32767 10 = ⟨13421363 * 2 ^ 137⟩ := by decide
    have h3 : F32.ofRatio (-32768) 100 = ⟨-5368709 * 2 ^ 135⟩ := by decide
    have h4 : F32.ofRatio 32767 100 = ⟨10737091 * 2 ^ 134⟩ := by decide
    have h5 : F32.ofRatio (-32768) 1000 = ⟨-8589935 * 2 ^ 131⟩ := by decide
    have h6 : F32.ofRatio 32767 1000 = ⟨1073709 * 2 ^ 134⟩ := by decide
    have h7 : F32.ofRatio 0 2 = ⟨0⟩ := by decide
    have h8 : F32.ofRatio 255 2 = ⟨255 * 2 ^ 148⟩ := by decide
    have h9 : F32.ofRatio (-8388608) 10000 = ⟨-13743895 * 2 ^ 135⟩ := by decide
    have h10 : F32.ofRatio 8388607 10000 = ⟨6871947 * 2 ^ 136⟩ := by decide
    have h11 : F32.ofRatio (-8388608) 100 = ⟨-5368709 * 2 ^ 143⟩ := by decide
    have h12 : F32.ofRatio 8388607 100 = ⟨10737417 * 2 ^ 142⟩ := by decide
    rw [h1, h2, h3, h4, h5, h6, h7, h8, h9, h10, h11, h12]
    simp only [F32.toRat_mk]
    refine ⟨?_, ?_, ?_, ?_, ?_, ?_, ?_, ?_, ?_, ?_, ?_, ?_⟩ <;> norm_num

set_option maxRecDepth 100000 in
/-- The witness of C18: the temperature of the lowest wire integer. -/
theorem decoded_values_bounded_witness :
    lppCodes.Distinct ∧
    DecodeUplink lppCodes [1, 103, 0x80, 0x00] =
      .ok [("temperature_1", .float32 (F32.ofRatio (-32768) 10))] ∧
    Msg.get [("temperature_1", Value.float32 (F32.ofRatio (-32768) 10))] "temperature_1" =
      some (.float32 (F32.ofRatio (-32768) 10)) ∧
    ∃ ty c, "temperature_1" = uplinkKey ty c ∧
      ty.Bounds (.float32 (F32.ofRatio (-32768) 10)) :=
  ⟨by decide, by decide, by decide,
    (decoded_values_bounded lppCodes (by decide) [1, 103, 0x80, 0x00]).1
      [("temperature_1", .float32 (F32.ofRatio (-32768) 10))] (by decide) "temperature_1"
      (.float32 (F32.ofRatio (-32768) 10)) (by decide)⟩

set_option maxRecDepth 100000 in
/-- C18 fails as stated at the ends of the ranges, which are not `float32` numbers: the
temperature of the wire integer -32768 is the `float32` nearest to -3276.8, which is
-3276.800048828125, below -3276.8; the downlink value of the wire integer 32767 is the
`float32` nearest to 327.67, which is 327.6700134..., above 327.67. -/
theorem decoded_values_bounded_counterexample :
    DecodeUplink lppCodes [1, 103, 0x80, 0x00] =
      .ok [("temperature_1", .float32 (F32.ofRatio (-32768) 10))] ∧
    (F32.ofRatio (-32768) 10).toRat < -3276.8 ∧
    DecodeDownlink [1, 0x7F, 0xFF] = .ok [(1, .float32 (F32.ofRatio 32767 100))] ∧
    327.67 < (F32.ofRatio 32767 100).toRat := by
  have h1 : F32.ofRatio (-32768) 10 = ⟨-13421773 * 2 ^ 137⟩ := by decide
  have h4 : F32.ofRatio 32767 100 = ⟨10737091 * 2 ^ 134⟩ := by decide
  refine ⟨by decide, ?_, by decide, ?_⟩
  · rw [h1, F32.toRat_mk]
    norm_num
  · rw [h4, F32.toRat_mk]
    norm_num



/-- C19, as amended: with the payload widths of the code (1 byte for DigitalOutput, the others
as the claim lists them), `DecodeUplink` returns a message if and only if the stream is a
concatenation of records, each a channel byte, the code of a known type and a payload of the
width of that type; on every other stream it returns an error; and when it returns a message
the reader has no byte left. -/
theorem DecodeUplink_ok_iff (tc : TypeCodes) (hd : tc.Distinct) (r : List Byte) :
    ((∃ m, DecodeUplink tc r = .ok m) ↔
      ∃ rs : List Record, (∀ x ∈ rs, x.payload.length = x.type.width) ∧ r = uplinkStream tc rs) ∧
    ((¬ ∃ rs : List Record, (∀ x ∈ rs, x.payload.length = x.type.width) ∧
        r = uplinkStream tc rs) → ∃ e, DecodeUplink tc r = .error e) ∧
    (∀ m, DecodeUplink tc r = .ok m → DecodeUplinkReader tc r = .ok ([], m)) ∧
    SensorType.all.map SensorType.width = [1, 1, 2, 2, 2, 1, 2, 1, 6, 2, 6, 9] := by
  have hiff : (∃ m, DecodeUplink tc r = .ok m) ↔
      ∃ rs : List Record, (∀ x ∈ rs, x.payload.length = x.type.width) ∧
        r = uplinkStream tc rs := by
    constructor
    · rintro ⟨m, hm⟩
      obtain ⟨rs, h1, h2, -⟩ := DecodeUplink_ok_records hd hm
      exact ⟨rs, h1, h2⟩
    · rintro ⟨rs, h1, rfl⟩
      exact ⟨_, DecodeUplink_uplinkStream hd rs h1⟩
  refine ⟨hiff, ?_, DecodeUplinkReader_of_ok tc r, rfl⟩
  intro hno
  rcases Except.ok_or_error (DecodeUplink tc r) with ⟨m, hm⟩ | he
  · exact absurd (hiff.mp ⟨m, hm⟩) hno
  · exact he

set_option maxRecDepth 100000 in
/-- The witness of C19: a digital output with its one payload byte followed by a temperature
decodes, and the reader is left empty. -/
theorem DecodeUplink_ok_iff_witness :
    lppCodes.Distinct ∧
    (∃ m, DecodeUplink lppCodes [2, 1, 100, 7, 103, 0xFF, 0x64] = .ok m) ∧
    DecodeUplinkReader lppCodes [2, 1, 100, 7, 103, 0xFF, 0x64] =
      .ok ([], [("digital_output_2", .uint8 100),
        ("temperature_7", .float32 (F32.ofRatio (-156) 10))]) := by
  have h := DecodeUplink_ok_iff lppCodes (by decide) [2, 1, 100, 7, 103, 0xFF, 0x64]
  have h1 : ∃ m, DecodeUplink lppCodes [2, 1, 100, 7, 103, 0xFF, 0x64] = .ok m :=
    h.1.mpr ⟨[Record.mk 2 .DigitalOutput [100], Record.mk 7 .Temperature [0xFF, 0x64]],
      by decide, by decide⟩
  exact ⟨by decide, h1, by decide⟩

set_option maxRecDepth 100000 in
/-- C19 fails as stated: with the widths that the claim lists, a digital output has two payload
bytes, so `[2, DigitalOutput, 100, 7]` is one well-formed record; `DecodeUplink` reads one
payload byte, takes `7` for the start of a header and fails. The stream
`[2, DigitalOutput, 100]` of the test decodes. -/
theorem DecodeUplink_ok_iff_counterexample :
    ¬ (∀ (tc : TypeCodes), tc.Distinct → ∀ r : List Byte,
      ((∃ m, DecodeUplink tc r = .ok m) ↔
        ∃ rs : List Record, (∀ x ∈ rs, x.payload.length = x.type.specWidth) ∧
          r = uplinkStream tc rs)) := by
  intro h
  have h1 := (h lppCodes (by decide) [2, 1, 100, 7]).mpr
    ⟨[Record.mk 2 .DigitalOutput [100, 7]], by decide, by decide⟩
  obtain ⟨m, hm⟩ := h1
  have h2 : DecodeUplink lppCodes [2, 1, 100, 7] = .error .ErrUnexpectedEOF := by decide
  rw [h2] at hm
  cases hm



/-- C20: when `DecodeUplink` returns the message `ma` for the stream `a` and `mb` for `b`, it
returns a message for `a ++ b`, in which a key of `mb` has the value of `mb` and every other key
has what `ma` has for it; and the bytes of any sequence of typed `Add` calls on a fresh encoder
decode to a message in which a key has the value given by the last call whose own message holds
that key, and is absent when no call has it. -/
theorem DecodeUplink_append (tc : TypeCodes) (hd : tc.Distinct) (a b : List Byte)
    (ma mb : UplinkMessage) (ha : DecodeUplink tc a = .ok ma) (hb : DecodeUplink tc b = .ok mb)
    (calls : List AddCall) :
    (∃ m, DecodeUplink tc (a ++ b) = .ok m ∧
      ∀ k, m.get k = match mb.get k with
        | some v => some v
        | none => ma.get k) ∧
    ∃ m, DecodeUplink tc (Bytes (calls.foldl (AddCall.run tc) NewEncoder)) = .ok m ∧
      ∀ k, m.get k = calls.reverse.findSome? (fun call => (call.message tc).get k) := by
  constructor
  · obtain ⟨rsa, hca, rfl, rfl⟩ := DecodeUplink_ok_records hd ha
    obtain ⟨rsb, hcb, rfl, rfl⟩ := DecodeUplink_ok_records hd hb
    refine ⟨uplinkMessage (rsa ++ rsb), ?_, uplinkMessage_append rsa rsb⟩
    rw [← uplinkStream_append]
    apply DecodeUplink_uplinkStream hd
    intro x hx
    rcases List.mem_append.mp hx with h | h
    · exact hca x h
    · exact hcb x h
  · refine ⟨uplinkMessage (calls.map AddCall.record), ?_, ?_⟩
    · unfold Bytes NewEncoder
      rw [AddCall.foldl_run, List.nil_append]
      apply DecodeUplink_uplinkStream hd
      intro x hx
      obtain ⟨call, -, rfl⟩ := List.mem_map.mp hx
      exact call.record_complete
    · intro k
      unfold uplinkMessage
      rw [List.foldl_map]
      rw [Msg.get_foldl_set_findSome (fun call : AddCall => call.record.key)
        (fun call : AddCall => call.record.value) calls k]
      congr 1
      funext call
      rw [AddCall.message_eq hd]

set_option maxRecDepth 100000 in
/-- The witness of C20: two temperature records on channel 3 and a humidity record; the later
temperature wins. -/
theorem DecodeUplink_append_witness :
    lppCodes.Distinct ∧
    DecodeUplink lppCodes [3, 103, 0x01, 0x10] =
      .ok [("temperature_3", .float32 (F32.ofRatio 272 10))] ∧
    DecodeUplink lppCodes [5, 104, 100, 3, 103, 0x00, 0xFF] =
      .ok [("relative_humidity_5", .float32 (F32.ofRatio 100 2)),
        ("temperature_3", .float32 (F32.ofRatio 255 10))] ∧
    ∃ m, DecodeUplink lppCodes ([3, 103, 0x01, 0x10] ++ [5, 104, 100, 3, 103, 0x00, 0xFF]) = .ok m ∧
      ∀ k, m.get k =
        match Msg.get [("relative_humidity_5", Value.float32 (F32.ofRatio 100 2)),
          ("temperature_3", Value.float32 (F32.ofRatio 255 10))] k with
        | some v => some v
        | none => Msg.get [("temperature_3", Value.float32 (F32.ofRatio 272 10))] k :=
  ⟨by decide, by decide, by decide,
    (DecodeUplink_append lppCodes (by decide) [3, 103, 0x01, 0x10]
      [5, 104, 100, 3, 103, 0x00, 0xFF] _ _ (by decide) (by decide) []).1⟩

end Cayenne
